import Mathlib

/-!
HessianToObjectnessMeasureImageFilter: a shallow embedding of
`itkHessianToObjectnessMeasureImageFilter.hxx`.

* The filter's data members become the fields of a structure.
* `double` arithmetic is carried out in a linearly ordered field `α`; the theorems
  instantiate it with `ℝ`.  `std::exp` and `std::pow` are library functions and are passed
  to the embedding as arguments (`Real.exp` and `Real.rpow` in the theorems).
* Rounding, overflow and underflow of `double` are not modelled, and every theorem below is
  a statement over real arithmetic. The two differ at the guards of the three exponential
  terms: the code tests `abs(m_Alpha) > 0.0` (likewise `m_Beta`, `m_Gamma`) and divides by
  `sqr(m_Alpha)`. In a field the square of a nonzero number is nonzero; in `double` the
  square of a nonzero number of magnitude below about `1.5e-162` is `0.0`, and the quotient
  `-0.0 / 0.0` of lines 124, 145 and 160 is then a NaN.
* A read of an array outside its bounds, and a division whose divisor is zero, have no
  value over the reals: the embedding returns `none` there.
* `ImageDimension` is the number of eigenvalues of a voxel.
* The loop over a region passes a state along: the output image and the record of the
  writes and of the progress calls. A region is the list of its voxels in the order of the
  region iterators.
-/

namespace itk

set_option linter.unusedSectionVars false

variable {α : Type} [LinearOrderedField α]

/-- The data members of `HessianToObjectnessMeasureImageFilter`. -/
structure HessianToObjectnessMeasureImageFilter (α : Type) where
  m_Alpha : α
  m_Beta : α
  m_Gamma : α
  m_ObjectDimension : Nat
  m_BrightObject : Bool
  m_ScaleObjectnessMeasure : Bool

/-- Subtraction of two `unsigned int` values, wrapping modulo `2^32` when the
subtrahend is the larger one. -/
def usub (a b : Nat) : Nat :=
  if b ≤ a then a - b else (a + 4294967296 - b) % 4294967296

namespace Math

/-- Modelled from the spec: `itk::Math::abs` (declared in `itkMath.h`, which is not among
the sources); the spec writes `absSorted[i] = |sorted[i]|`. -/
def abs (x : α) : α := |x|

/-- Modelled from the spec: `itk::Math::sqr` (declared in `itkMath.h`, which is not among
the sources); the spec's sum of squares and `rA²`, `alpha²`. -/
def sqr (x : α) : α := x * x

end Math

/-- Modelled from the spec: the comparator `AbsLessCompare` of the filter's header (not among
the sources); the spec gives the ordering key as the absolute value, the code comment as
`|e1|<=|e2|<=...<=|eN|`. -/
def AbsLessCompare (a b : α) : Bool := decide (|a| < |b|)

/-- One insertion of `std::sort` on a short range: `val` moves left past every element
`y` of the sorted prefix with `comp val y`, i.e. it lands in front of the first such `y`. -/
def linearInsert (comp : α → α → Bool) (val : α) : List α → List α
  | [] => [val]
  | y :: ys => if comp val y then val :: y :: ys else y :: linearInsert comp val ys

/-- The call `std::sort(first, last, comp)` on an array of eigenvalues: the elements are
inserted one after the other, left to right, into the sorted prefix (the insertion sort that
the library runs on short ranges; equal keys keep their order, as the spec asks). -/
def stdSort (comp : α → α → Bool) (xs : List α) : List α :=
  xs.foldl (fun sortedPart val => linearInsert comp val sortedPart) []

/-- The quotient `x / y` of two `double` values, defined when the divisor is not zero. -/
def divide (x y : α) : Option α :=
  if y = 0 then none else some (x / y)

/-- Lines 41-50, `VerifyPreconditions`: the superclass check runs first (its outcome is
the argument `superclass`), then the object dimension is compared with the image
dimension. The exception carries the message of `itkExceptionMacro`. -/
def VerifyPreconditions (superclass : Except String Unit) (ImageDimension : Nat)
    (self : HessianToObjectnessMeasureImageFilter α) : Except String Unit :=
  match superclass with
  | Except.error e => Except.error e
  | Except.ok () =>
    if self.m_ObjectDimension ≥ ImageDimension then
      Except.error "ObjectDimension must be lower than ImageDimension."
    else
      Except.ok ()

/-- Lines 82-90: `for (unsigned int i = m_ObjectDimension; i < ImageDimension; ++i)` with
the `break` on the first eigenvalue of the wrong sign. The first number is the count of
iterations left, the second the index `i`; the result is `signConstraintsSatisfied`. -/
def signLoop (m_BrightObject : Bool) (sortedEigenValues : List α) : Nat → Nat → Option Bool
  | 0, _ => some true
  | n + 1, i =>
    match sortedEigenValues[i]? with
    | none => none
    | some e =>
      if (m_BrightObject && decide (e > 0)) || (!m_BrightObject && decide (e < 0)) then
        some false
      else
        signLoop m_BrightObject sortedEigenValues n (i + 1)

/-- A loop `for (unsigned int j = lo; j < ImageDimension; ++j) acc = body acc arr[j]`.
The first number is the count of iterations left, the second the index `j`. -/
def forLoop (arr : List α) (body : α → α → α) : Nat → Nat → α → Option α
  | 0, _, acc => some acc
  | n + 1, j, acc =>
    match arr[j]? with
    | none => none
    | some x => forLoop arr body n (j + 1) (body acc x)

/-- Lines 110-131: the update of `objectnessMeasure` by the first ratio. The guard of line
121 tests `abs(m_Alpha)`, the divisor of line 124 is `sqr(m_Alpha)`: over a field the guard
keeps the divisor away from zero, in `double` it does not when the square underflows. -/
def ratioA (exp : α → α) (pow : α → α → α) (self : HessianToObjectnessMeasureImageFilter α)
    (ImageDimension : Nat) (sortedAbsEigenValues : List α) (objectnessMeasure : α) :
    Option α :=
  if self.m_ObjectDimension < usub ImageDimension 1 then do
    let rA ← sortedAbsEigenValues[self.m_ObjectDimension]?
    let rADenominatorBase ←
      forLoop sortedAbsEigenValues (fun acc x => acc * x)
        (ImageDimension - (self.m_ObjectDimension + 1)) (self.m_ObjectDimension + 1) 1
    if Math.abs rADenominatorBase > 0 then
      if Math.abs self.m_Alpha > 0 then do
        let exponent ←
          divide 1 ((usub (usub ImageDimension self.m_ObjectDimension) 1 : Nat) : α)
        let rA ← divide rA (pow rADenominatorBase exponent)
        let arg ← divide (-0.5 * Math.sqr rA) (Math.sqr self.m_Alpha)
        pure (objectnessMeasure * (1 - exp arg))
      else
        pure objectnessMeasure
    else
      pure 0
  else
    pure objectnessMeasure

/-- Lines 133-151: the update of `objectnessMeasure` by the second ratio. The guard of line
141 tests `abs(m_Beta)`, the divisor of line 145 is `sqr(m_Beta)`: over a field the guard
keeps the divisor away from zero, in `double` it does not when the square underflows. -/
def ratioB (exp : α → α) (pow : α → α → α) (self : HessianToObjectnessMeasureImageFilter α)
    (ImageDimension : Nat) (sortedAbsEigenValues : List α) (objectnessMeasure : α) :
    Option α :=
  if self.m_ObjectDimension > 0 then do
    let rB ← sortedAbsEigenValues[usub self.m_ObjectDimension 1]?
    let rBDenominatorBase ←
      forLoop sortedAbsEigenValues (fun acc x => acc * x)
        (ImageDimension - self.m_ObjectDimension) self.m_ObjectDimension 1
    if Math.abs rBDenominatorBase > 0 ∧ Math.abs self.m_Beta > 0 then do
      let exponent ← divide 1 ((usub ImageDimension self.m_ObjectDimension : Nat) : α)
      let rB ← divide rB (pow rBDenominatorBase exponent)
      let arg ← divide (-0.5 * Math.sqr rB) (Math.sqr self.m_Beta)
      pure (objectnessMeasure * exp arg)
    else
      pure 0
  else
    pure objectnessMeasure

/-- Lines 153-161: the update of `objectnessMeasure` by the Frobenius norm. The guard of
line 153 tests `abs(m_Gamma)`, the divisor of line 160 is `sqr(m_Gamma)`: over a field the
guard keeps the divisor away from zero, in `double` it does not when the square
underflows. -/
def structureness (exp : α → α) (self : HessianToObjectnessMeasureImageFilter α)
    (ImageDimension : Nat) (sortedAbsEigenValues : List α) (objectnessMeasure : α) :
    Option α :=
  if Math.abs self.m_Gamma > 0 then do
    let frobeniusNormSquared ←
      forLoop sortedAbsEigenValues (fun acc x => acc + Math.sqr x) ImageDimension 0 0
    let arg ← divide (-0.5 * frobeniusNormSquared) (Math.sqr self.m_Gamma)
    pure (objectnessMeasure * (1 - exp arg))
  else
    pure objectnessMeasure

/-- Lines 163-167: the scaling by the largest absolute eigenvalue. -/
def scaleMeasure (self : HessianToObjectnessMeasureImageFilter α) (ImageDimension : Nat)
    (sortedAbsEigenValues : List α) (objectnessMeasure : α) : Option α :=
  if self.m_ScaleObjectnessMeasure then do
    let largest ← sortedAbsEigenValues[usub ImageDimension 1]?
    pure (objectnessMeasure * largest)
  else
    pure objectnessMeasure

/-- Lines 76-169, the body of the `while` loop of `DynamicThreadedGenerateData` for one
voxel: from the eigenvalues of the voxel's Hessian to the value handed to `oit.Set`.
The cast to the output pixel type is the identity over the reals. -/
def objectnessOfEigenValues (exp : α → α) (pow : α → α → α)
    (self : HessianToObjectnessMeasureImageFilter α) (eigenValues : List α) : Option α :=
  let ImageDimension := eigenValues.length
  let sortedEigenValues := stdSort AbsLessCompare eigenValues
  match signLoop self.m_BrightObject sortedEigenValues
      (ImageDimension - self.m_ObjectDimension) self.m_ObjectDimension with
  | none => none
  | some false => some 0
  | some true => do
    let sortedAbsEigenValues := sortedEigenValues.map Math.abs
    let objectnessMeasure : α := 1
    let objectnessMeasure ←
      ratioA exp pow self ImageDimension sortedAbsEigenValues objectnessMeasure
    let objectnessMeasure ←
      ratioB exp pow self ImageDimension sortedAbsEigenValues objectnessMeasure
    let objectnessMeasure ←
      structureness exp self ImageDimension sortedAbsEigenValues objectnessMeasure
    scaleMeasure self ImageDimension sortedAbsEigenValues objectnessMeasure


/-- What one pass of the `while` loop does to its surroundings: the write `oit.Set(value)`
at the voxel the iterators stand on, and the call `progress.CompletedPixel()`. -/
inductive Event (ι α : Type) where
  | oitSet (index : ι) (value : α)
  | completedPixel

/-- The state that `DynamicThreadedGenerateData` changes: the output image, and the record
of the writes and of the progress calls, oldest first. -/
structure ThreadState (ι α : Type) where
  output : ι → α
  events : List (Event ι α)

/-- The voxels written by `oit.Set`, in the order of the writes. -/
def writtenIndices {ι : Type} : List (Event ι α) → List ι
  | [] => []
  | Event.oitSet index _ :: rest => index :: writtenIndices rest
  | Event.completedPixel :: rest => writtenIndices rest

/-- The number of calls of `progress.CompletedPixel()`. -/
def completedPixels {ι : Type} : List (Event ι α) → Nat
  | [] => 0
  | Event.oitSet _ _ :: rest => completedPixels rest
  | Event.completedPixel :: rest => completedPixels rest + 1

/-- Lines 72-173, one pass of the `while` loop with the iterators `it` and `oit` at the
voxel `index`. `ComputeEigenValues` is the eigenvalue calculator and `input` the Hessian
image. On the path of lines 92-99 (wrong sign) the pixel `OutputPixelType{}` is written, on
the path of lines 101-173 the objectness measure; both end with
`progress.CompletedPixel()`. -/
def whileBody {ι P : Type} [DecidableEq ι] (exp : α → α) (pow : α → α → α)
    (self : HessianToObjectnessMeasureImageFilter α) (ComputeEigenValues : P → List α)
    (input : ι → P) (index : ι) (st : ThreadState ι α) : Option (ThreadState ι α) :=
  let eigenValues := ComputeEigenValues (input index)
  let ImageDimension := eigenValues.length
  let sortedEigenValues := stdSort AbsLessCompare eigenValues
  match signLoop self.m_BrightObject sortedEigenValues
      (ImageDimension - self.m_ObjectDimension) self.m_ObjectDimension with
  | none => none
  | some false =>
    some ⟨Function.update st.output index 0,
      st.events ++ [Event.oitSet index 0, Event.completedPixel]⟩
  | some true => do
    let sortedAbsEigenValues := sortedEigenValues.map Math.abs
    let objectnessMeasure : α := 1
    let objectnessMeasure ←
      ratioA exp pow self ImageDimension sortedAbsEigenValues objectnessMeasure
    let objectnessMeasure ←
      ratioB exp pow self ImageDimension sortedAbsEigenValues objectnessMeasure
    let objectnessMeasure ←
      structureness exp self ImageDimension sortedAbsEigenValues objectnessMeasure
    let objectnessMeasure ←
      scaleMeasure self ImageDimension sortedAbsEigenValues objectnessMeasure
    some ⟨Function.update st.output index objectnessMeasure,
      st.events ++ [Event.oitSet index objectnessMeasure, Event.completedPixel]⟩

/-- Lines 52-175, `DynamicThreadedGenerateData`: the `while` loop over the voxels of
`outputRegionForThread`, given in the order in which the region iterators visit them. -/
def DynamicThreadedGenerateData {ι P : Type} [DecidableEq ι] (exp : α → α) (pow : α → α → α)
    (self : HessianToObjectnessMeasureImageFilter α) (ComputeEigenValues : P → List α)
    (input : ι → P) : List ι → ThreadState ι α → Option (ThreadState ι α)
  | [], st => some st
  | index :: rest, st =>
    match whileBody exp pow self ComputeEigenValues input index st with
    | none => none
    | some st' =>
      DynamicThreadedGenerateData exp pow self ComputeEigenValues input rest st'

/-- The filter run over a list of regions: `DynamicThreadedGenerateData` is called on each
region, one region after the other in the order of the list. -/
def runRegions {ι P : Type} [DecidableEq ι] (exp : α → α) (pow : α → α → α)
    (self : HessianToObjectnessMeasureImageFilter α) (ComputeEigenValues : P → List α)
    (input : ι → P) : List (List ι) → ThreadState ι α → Option (ThreadState ι α)
  | [], st => some st
  | region :: rest, st =>
    match DynamicThreadedGenerateData exp pow self ComputeEigenValues input region st with
    | none => none
    | some st' => runRegions exp pow self ComputeEigenValues input rest st'

/-! ## SimplexMeshVolumeCalculator

A shallow embedding of `itkSimplexMeshVolumeCalculator.hxx`. Counting is exact: the counters
are integers and field elements that never leave the range of their C++ types. `std::sqrt` and
`itk::Math::AlmostEquals` are passed to the embedding as arguments, a point is the function
from its three coordinate indices to the coordinates. -/

/-- The data members of `SimplexMeshVolumeCalculator` written by `Initialize`,
`CalculateTriangleVolume` and `Finalize` (the mesh and the map of centers are left out). The
three `Munc` counters are of the signed type `IndexValueType`, `m_NumberOfTriangles` of the
unsigned type `SizeValueType`; the four `W` counters enter `Finalize` as `double`. -/
structure SimplexMeshVolumeCalculator (α : Type) where
  m_Volume : α
  m_VolumeX : α
  m_VolumeY : α
  m_VolumeZ : α
  m_Area : α
  m_Kx : α
  m_Ky : α
  m_Kz : α
  m_Wxyz : α
  m_Wxy : α
  m_Wxz : α
  m_Wyz : α
  m_Muncx : Int
  m_Muncy : Int
  m_Muncz : Int
  m_NumberOfTriangles : Nat

/-- Lines 26-46, `Initialize`: after the mesh has been visited (lines 30-37, not modelled)
every accumulator and every counter is set to zero. -/
def Initialize (_self : SimplexMeshVolumeCalculator α) : SimplexMeshVolumeCalculator α :=
  ⟨0, 0, 0, 0, 0, 0, 0, 0, 0, 0, 0, 0, 0, 0, 0, 0⟩

/-- Lines 48-60, `Finalize`: the fractions of triangles that point along `x`, `y` and `z`,
and the volume. The quotient by `m_NumberOfTriangles` has no value when that count is
zero. -/
def Finalize (self : SimplexMeshVolumeCalculator α) : Option (SimplexMeshVolumeCalculator α) := do
  let m_Kx ← divide ((self.m_Muncx : α) + self.m_Wxyz / 3 + (self.m_Wxy + self.m_Wxz) / 2)
    (self.m_NumberOfTriangles : α)
  let m_Ky ← divide ((self.m_Muncy : α) + self.m_Wxyz / 3 + (self.m_Wxy + self.m_Wyz) / 2)
    (self.m_NumberOfTriangles : α)
  let m_Kz ← divide ((self.m_Muncz : α) + self.m_Wxyz / 3 + (self.m_Wxz + self.m_Wyz) / 2)
    (self.m_NumberOfTriangles : α)
  let m_Volume := m_Kx * self.m_VolumeX + m_Ky * self.m_VolumeY + m_Kz * self.m_VolumeZ
  pure { self with m_Kx := m_Kx, m_Ky := m_Ky, m_Kz := m_Kz, m_Volume := Math.abs m_Volume }

/-- Lines 124-134: the normal `u` divided by its length, or the zero vector when the length
is zero. -/
def normalizeNormal (length u0 u1 u2 : α) : Option (α × α × α) :=
  if length ≠ 0 then do
    let v0 ← divide u0 length
    let v1 ← divide u1 length
    let v2 ← divide u2 length
    pure (v0, v1, v2)
  else
    pure (0, 0, 0)

/-- Lines 143-175: the counter of the direction of the largest component of the unit normal
is incremented; `none` stands for the last branch, the warning followed by `return`. -/
def countDirection (AlmostEquals : α → α → Bool) (self : SimplexMeshVolumeCalculator α)
    (absu0 absu1 absu2 : α) : Option (SimplexMeshVolumeCalculator α) :=
  if absu0 > absu1 ∧ absu0 > absu2 then
    some { self with m_Muncx := self.m_Muncx + 1 }
  else if absu1 > absu0 ∧ absu1 > absu2 then
    some { self with m_Muncy := self.m_Muncy + 1 }
  else if absu2 > absu0 ∧ absu2 > absu1 then
    some { self with m_Muncz := self.m_Muncz + 1 }
  else if AlmostEquals absu0 absu1 = true ∧ AlmostEquals absu0 absu2 = true then
    some { self with m_Wxyz := self.m_Wxyz + 1 }
  else if AlmostEquals absu0 absu1 = true ∧ absu0 > absu2 then
    some { self with m_Wxy := self.m_Wxy + 1 }
  else if AlmostEquals absu0 absu2 = true ∧ absu0 > absu1 then
    some { self with m_Wxz := self.m_Wxz + 1 }
  else if AlmostEquals absu1 absu2 = true ∧ absu0 < absu2 then
    some { self with m_Wyz := self.m_Wyz + 1 }
  else
    none

/-- Lines 94-214, `CalculateTriangleVolume`. On the warning branch the function returns with
the members as they were; otherwise the volume elements, the area and the number of
triangles are updated. -/
def CalculateTriangleVolume (sqrt : α → α) (AlmostEquals : α → α → Bool)
    (self : SimplexMeshVolumeCalculator α) (p1 p2 p3 : Fin 3 → α) :
    Option (SimplexMeshVolumeCalculator α) := do
  let i0 := p2 0 - p1 0
  let j0 := p2 1 - p1 1
  let k0 := p2 2 - p1 2
  let i1 := p3 0 - p1 0
  let j1 := p3 1 - p1 1
  let k1 := p3 2 - p1 2
  let i2 := p3 0 - p2 0
  let j2 := p3 1 - p2 1
  let k2 := p3 2 - p2 2
  let u0 := j0 * k1 - k0 * j1
  let u1 := k0 * i1 - i0 * k1
  let u2 := i0 * j1 - j0 * i1
  let length := sqrt (u0 * u0 + u1 * u1 + u2 * u2)
  let u ← normalizeNormal length u0 u1 u2
  let absu0 := Math.abs u.1
  let absu1 := Math.abs u.2.1
  let absu2 := Math.abs u.2.2
  match countDirection AlmostEquals self absu0 absu1 absu2 with
  | none => pure self
  | some self =>
    let ii0 := i0 * i0
    let ii1 := i1 * i1
    let ii2 := i2 * i2
    let jj0 := j0 * j0
    let jj1 := j1 * j1
    let jj2 := j2 * j2
    let kk0 := k0 * k0
    let kk1 := k1 * k1
    let kk2 := k2 * k2
    let a := sqrt (ii1 + jj1 + kk1)
    let b := sqrt (ii0 + jj0 + kk0)
    let c := sqrt (ii2 + jj2 + kk2)
    let s := 0.5 * (a + b + c)
    let area := sqrt (Math.abs (s * (s - a) * (s - b) * (s - c)))
    let zavg := (p1 2 + p2 2 + p3 2) / 3
    let yavg := (p1 1 + p2 1 + p3 1) / 3
    let xavg := (p1 0 + p2 0 + p3 0) / 3
    pure { self with
      m_VolumeX := self.m_VolumeX + area * u.2.2 * zavg,
      m_VolumeY := self.m_VolumeY + area * u.2.1 * yavg,
      m_VolumeZ := self.m_VolumeZ + area * u.1 * xavg,
      m_Area := self.m_Area + area,
      m_NumberOfTriangles := self.m_NumberOfTriangles + 1 }

/-- The calls of `CalculateTriangleVolume` made by the loop of `Compute` (lines 230-251),
one per entry of the list of the three centers `p1`, `p2`, `p3` found for a mesh point. -/
def triangleLoop (sqrt : α → α) (AlmostEquals : α → α → Bool) :
    List ((Fin 3 → α) × (Fin 3 → α) × (Fin 3 → α)) → SimplexMeshVolumeCalculator α →
    Option (SimplexMeshVolumeCalculator α)
  | [], self => some self
  | (p1, p2, p3) :: rest, self =>
    match CalculateTriangleVolume sqrt AlmostEquals self p1 p2 p3 with
    | none => none
    | some self' => triangleLoop sqrt AlmostEquals rest self'

/-! ## Closed forms

The factor by which each of the four updates multiplies `objectnessMeasure`, written
without loops and partiality. They are used to reason about the embedding above, against
which the lemmas `ratioA_eq`, `ratioB_eq`, `structureness_eq` and `scaleMeasure_eq` prove them. -/

/-- Closed form of lines 110-131 (`ratioA`) on the array `a` of sorted absolute eigenvalues. -/
def factorA (exp : α → α) (pow : α → α → α) (self : HessianToObjectnessMeasureImageFilter α)
    (a : List α) : α :=
  if self.m_ObjectDimension + 1 < a.length then
    if (a.drop (self.m_ObjectDimension + 1)).prod = 0 then 0
    else if self.m_Alpha = 0 then 1
    else
      1 - exp (-(a.getD self.m_ObjectDimension 0 /
          pow (a.drop (self.m_ObjectDimension + 1)).prod
            (1 / ((a.length - self.m_ObjectDimension - 1 : Nat) : α))) ^ 2
        / (2 * self.m_Alpha ^ 2))
  else 1

/-- Closed form of lines 133-151 (`ratioB`) on the array `a` of sorted absolute eigenvalues. -/
def factorB (exp : α → α) (pow : α → α → α) (self : HessianToObjectnessMeasureImageFilter α)
    (a : List α) : α :=
  if 0 < self.m_ObjectDimension then
    if (a.drop self.m_ObjectDimension).prod = 0 ∨ self.m_Beta = 0 then 0
    else
      exp (-(a.getD (self.m_ObjectDimension - 1) 0 /
          pow (a.drop self.m_ObjectDimension).prod
            (1 / ((a.length - self.m_ObjectDimension : Nat) : α))) ^ 2
        / (2 * self.m_Beta ^ 2))
  else 1

/-- Closed form of lines 153-161 (`structureness`). -/
def factorGamma (exp : α → α) (self : HessianToObjectnessMeasureImageFilter α)
    (a : List α) : α :=
  if self.m_Gamma = 0 then 1
  else 1 - exp (-(a.map (fun x => x ^ 2)).sum / (2 * self.m_Gamma ^ 2))

/-- Closed form of lines 163-167 (`scaleMeasure`). -/
def factorScale (self : HessianToObjectnessMeasureImageFilter α) (a : List α) : α :=
  if self.m_ScaleObjectnessMeasure then a.getD (a.length - 1) 0 else 1

/-! ## The magnitude sort -/

theorem linearInsert_perm (comp : α → α → Bool) (val : α) (l : List α) :
    (linearInsert comp val l).Perm (val :: l) := by
  induction l with
  | nil => simp [linearInsert]
  | cons y ys ih =>
    unfold linearInsert
    split
    · exact List.Perm.refl _
    · exact (List.Perm.cons y ih).trans (List.Perm.swap val y ys)

theorem foldl_linearInsert_perm (comp : α → α → Bool) (xs acc : List α) :
    (xs.foldl (fun sortedPart val => linearInsert comp val sortedPart) acc).Perm (acc ++ xs) := by
  induction xs generalizing acc with
  | nil => simp
  | cons x xs ih =>
    simp only [List.foldl_cons]
    refine (ih _).trans ?_
    exact ((linearInsert_perm comp x acc).append_right xs).trans List.perm_middle.symm

theorem stdSort_perm (comp : α → α → Bool) (xs : List α) : (stdSort comp xs).Perm xs := by
  simpa [stdSort] using foldl_linearInsert_perm comp xs []

theorem stdSort_length (comp : α → α → Bool) (xs : List α) :
    (stdSort comp xs).length = xs.length :=
  (stdSort_perm comp xs).length_eq

theorem linearInsert_sorted (val : α) (l : List α)
    (h : l.Pairwise (fun a b => |a| ≤ |b|)) :
    (linearInsert AbsLessCompare val l).Pairwise (fun a b => |a| ≤ |b|) := by
  induction l with
  | nil => simp [linearInsert]
  | cons y ys ih =>
    rw [List.pairwise_cons] at h
    unfold linearInsert
    split
    · rename_i hc
      have hlt : |val| < |y| := by simpa [AbsLessCompare] using hc
      refine List.Pairwise.cons ?_ (List.Pairwise.cons h.1 h.2)
      intro z hz
      rcases List.mem_cons.1 hz with rfl | hz
      · exact hlt.le
      · exact hlt.le.trans (h.1 z hz)
    · rename_i hc
      have hle : |y| ≤ |val| := by
        have : ¬ |val| < |y| := by simpa [AbsLessCompare] using hc
        exact not_lt.1 this
      refine List.Pairwise.cons ?_ (ih h.2)
      intro z hz
      rcases List.mem_cons.1 ((linearInsert_perm _ val ys).mem_iff.1 hz) with rfl | hz
      · exact hle
      · exact h.1 z hz

theorem foldl_linearInsert_sorted (xs acc : List α)
    (h : acc.Pairwise (fun a b => |a| ≤ |b|)) :
    (xs.foldl (fun sortedPart val => linearInsert AbsLessCompare val sortedPart) acc).Pairwise
      (fun a b => |a| ≤ |b|) := by
  induction xs generalizing acc with
  | nil => simpa using h
  | cons x xs ih => exact ih _ (linearInsert_sorted x acc h)

theorem stdSort_sorted (xs : List α) :
    (stdSort AbsLessCompare xs).Pairwise (fun a b => |a| ≤ |b|) :=
  foldl_linearInsert_sorted xs [] List.Pairwise.nil

/-! ## The loops -/

theorem signLoop_rejects (b : Bool) (s : List α) (n i : Nat) (hn : i + n ≤ s.length)
    (h : ∃ j, i ≤ j ∧ j < i + n ∧
      ((b = true ∧ s.getD j 0 > 0) ∨ (b = false ∧ s.getD j 0 < 0))) :
    signLoop b s n i = some false := by
  induction n generalizing i with
  | zero => obtain ⟨j, h1, h2, _⟩ := h; omega
  | succ n ih =>
    have hi : i < s.length := by omega
    unfold signLoop
    rw [List.getElem?_eq_getElem hi]
    simp only []
    split
    · rfl
    · rename_i hc
      apply ih (i + 1) (by omega)
      obtain ⟨j, h1, h2, h3⟩ := h
      rcases Nat.eq_or_lt_of_le h1 with rfl | hlt
      · exfalso
        apply hc
        rw [List.getD_eq_getElem _ _ hi] at h3
        rcases h3 with ⟨hb, hp⟩ | ⟨hb, hp⟩ <;> simp [hb, hp]
      · exact ⟨j, hlt, by omega, h3⟩

theorem signLoop_accepts (b : Bool) (s : List α) (n i : Nat) (hn : i + n ≤ s.length)
    (h : ∀ j, i ≤ j → j < i + n →
      ¬ ((b = true ∧ s.getD j 0 > 0) ∨ (b = false ∧ s.getD j 0 < 0))) :
    signLoop b s n i = some true := by
  induction n generalizing i with
  | zero => rfl
  | succ n ih =>
    have hi : i < s.length := by omega
    unfold signLoop
    rw [List.getElem?_eq_getElem hi]
    simp only []
    split
    · rename_i hc
      exfalso
      apply h i (le_refl _) (by omega)
      rw [List.getD_eq_getElem _ _ hi]
      cases b <;> simpa using hc
    · exact ih (i + 1) (by omega) (fun j h1 h2 => h j (by omega) (by omega))

theorem forLoop_eq (arr : List α) (body : α → α → α) (n j : Nat) (acc : α)
    (hn : j + n ≤ arr.length) :
    forLoop arr body n j acc = some (((arr.drop j).take n).foldl body acc) := by
  induction n generalizing j acc with
  | zero => simp [forLoop]
  | succ n ih =>
    have hj : j < arr.length := by omega
    unfold forLoop
    rw [List.getElem?_eq_getElem hj]
    simp only []
    rw [ih (j + 1) _ (by omega), List.drop_eq_getElem_cons hj, List.take_succ_cons,
      List.foldl_cons]

theorem forLoop_prod (arr : List α) (j : Nat) (hj : j ≤ arr.length) :
    forLoop arr (fun acc x => acc * x) (arr.length - j) j 1 = some (arr.drop j).prod := by
  rw [forLoop_eq arr _ _ _ _ (by omega), List.take_of_length_le (by simp), List.prod_eq_foldl]

theorem foldl_add_sqr (l : List α) (acc : α) :
    l.foldl (fun acc x => acc + Math.sqr x) acc = acc + (l.map (fun x => x ^ 2)).sum := by
  induction l generalizing acc with
  | nil => simp
  | cons x xs ih =>
    rw [List.foldl_cons, ih, List.map_cons, List.sum_cons, Math.sqr, pow_two, add_assoc]

theorem forLoop_sumSqr (arr : List α) :
    forLoop arr (fun acc x => acc + Math.sqr x) arr.length 0 0
      = some (arr.map (fun x => x ^ 2)).sum := by
  rw [forLoop_eq arr _ _ _ _ (by omega), List.drop_zero, List.take_length, foldl_add_sqr,
    zero_add]

/-! ## The four updates over the reals -/

theorem usub_of_le (a b : Nat) (h : b ≤ a) : usub a b = a - b := by
  simp [usub, h]

theorem prod_drop_nonneg (a : List ℝ) (ha : ∀ x ∈ a, 0 ≤ x) (j : Nat) :
    0 ≤ (a.drop j).prod :=
  List.prod_nonneg (fun x hx => ha x (List.mem_of_mem_drop hx))

theorem exponent_eq (r c : ℝ) (hc : c ≠ 0) :
    -0.5 * r / (c * c) = -r / (2 * c ^ 2) := by
  field_simp
  ring

theorem ratioA_eq (self : HessianToObjectnessMeasureImageFilter ℝ) (a : List ℝ)
    (ha : ∀ x ∈ a, 0 ≤ x) (hk : self.m_ObjectDimension < a.length) (m : ℝ) :
    ratioA Real.exp Real.rpow self a.length a m
      = some (m * factorA Real.exp Real.rpow self a) := by
  have hD : usub a.length 1 = a.length - 1 := usub_of_le _ _ (by omega)
  unfold ratioA factorA
  rw [hD]
  by_cases h1 : self.m_ObjectDimension + 1 < a.length
  · have h1' : self.m_ObjectDimension < a.length - 1 := by omega
    have hP := prod_drop_nonneg a ha (self.m_ObjectDimension + 1)
    rw [if_pos h1', if_pos h1, List.getElem?_eq_getElem hk, forLoop_prod a _ (by omega)]
    simp only [Option.bind_eq_bind, Option.some_bind, Math.abs, Math.sqr, abs_pos]
    by_cases hP0 : (a.drop (self.m_ObjectDimension + 1)).prod = 0
    · simp [hP0]
    · have hPpos : 0 < (a.drop (self.m_ObjectDimension + 1)).prod := lt_of_le_of_ne hP (Ne.symm hP0)
      rw [if_pos hP0, if_neg hP0]
      by_cases hα : self.m_Alpha = 0
      · simp [hα]
      · rw [if_pos hα, if_neg hα]
        have hn : usub (usub a.length self.m_ObjectDimension) 1
            = a.length - self.m_ObjectDimension - 1 := by
          rw [usub_of_le a.length self.m_ObjectDimension (by omega), usub_of_le _ 1 (by omega)]
        have hn0 : ((a.length - self.m_ObjectDimension - 1 : Nat) : ℝ) ≠ 0 := by
          have : 0 < a.length - self.m_ObjectDimension - 1 := by omega
          exact_mod_cast this.ne'
        have hpow : Real.rpow (a.drop (self.m_ObjectDimension + 1)).prod
            (1 / ((a.length - self.m_ObjectDimension - 1 : Nat) : ℝ)) ≠ 0 :=
          (Real.rpow_pos_of_pos hPpos _).ne'
        have hα2 : self.m_Alpha * self.m_Alpha ≠ 0 := mul_ne_zero hα hα
        rw [hn]
        simp only [divide, if_neg hn0, if_neg hpow, if_neg hα2, Option.some_bind,
          Option.pure_def, List.getD_eq_getElem _ _ hk]
        rw [exponent_eq _ _ hα, ← pow_two]
  · have h1' : ¬ self.m_ObjectDimension < a.length - 1 := by omega
    rw [if_neg h1', if_neg h1]
    simp

theorem ratioB_eq (self : HessianToObjectnessMeasureImageFilter ℝ) (a : List ℝ)
    (ha : ∀ x ∈ a, 0 ≤ x) (hk : self.m_ObjectDimension < a.length) (m : ℝ) :
    ratioB Real.exp Real.rpow self a.length a m
      = some (m * factorB Real.exp Real.rpow self a) := by
  unfold ratioB factorB
  by_cases h0 : 0 < self.m_ObjectDimension
  · have hk1 : self.m_ObjectDimension - 1 < a.length := by omega
    have hP := prod_drop_nonneg a ha self.m_ObjectDimension
    rw [if_pos h0, if_pos h0, usub_of_le self.m_ObjectDimension 1 (by omega),
      List.getElem?_eq_getElem hk1, forLoop_prod a _ (by omega)]
    simp only [Option.bind_eq_bind, Option.some_bind, Math.abs, Math.sqr, abs_pos]
    by_cases hg : (a.drop self.m_ObjectDimension).prod = 0 ∨ self.m_Beta = 0
    · have hg' : ¬ ((a.drop self.m_ObjectDimension).prod ≠ 0 ∧ self.m_Beta ≠ 0) := by tauto
      rw [if_neg hg', if_pos hg]
      simp
    · have hg' : (a.drop self.m_ObjectDimension).prod ≠ 0 ∧ self.m_Beta ≠ 0 := by tauto
      rw [if_pos hg', if_neg hg]
      have hPpos : 0 < (a.drop self.m_ObjectDimension).prod := lt_of_le_of_ne hP (Ne.symm hg'.1)
      have hn0 : ((a.length - self.m_ObjectDimension : Nat) : ℝ) ≠ 0 := by
        have : 0 < a.length - self.m_ObjectDimension := by omega
        exact_mod_cast this.ne'
      have hpow : Real.rpow (a.drop self.m_ObjectDimension).prod
          (1 / ((a.length - self.m_ObjectDimension : Nat) : ℝ)) ≠ 0 :=
        (Real.rpow_pos_of_pos hPpos _).ne'
      have hβ2 : self.m_Beta * self.m_Beta ≠ 0 := mul_ne_zero hg'.2 hg'.2
      rw [usub_of_le a.length self.m_ObjectDimension (by omega)]
      simp only [divide, if_neg hn0, if_neg hpow, if_neg hβ2, Option.some_bind,
        Option.pure_def, List.getD_eq_getElem _ _ hk1]
      rw [exponent_eq _ _ hg'.2, ← pow_two]
  · have h0' : ¬ self.m_ObjectDimension > 0 := h0
    rw [if_neg h0', if_neg h0]
    simp

theorem structureness_eq (self : HessianToObjectnessMeasureImageFilter ℝ) (a : List ℝ)
    (m : ℝ) :
    structureness Real.exp self a.length a m = some (m * factorGamma Real.exp self a) := by
  unfold structureness factorGamma
  by_cases hγ : self.m_Gamma = 0
  · simp [hγ, Math.abs]
  · have hγ2 : self.m_Gamma * self.m_Gamma ≠ 0 := mul_ne_zero hγ hγ
    have hpos : Math.abs self.m_Gamma > 0 := abs_pos.2 hγ
    rw [if_pos hpos, if_neg hγ, forLoop_sumSqr]
    simp only [Option.bind_eq_bind, Option.some_bind, Math.sqr, divide, if_neg hγ2,
      Option.pure_def]
    rw [exponent_eq _ _ hγ]

theorem scaleMeasure_eq (self : HessianToObjectnessMeasureImageFilter α) (a : List α)
    (ha : 0 < a.length) (m : α) :
    scaleMeasure self a.length a m = some (m * factorScale self a) := by
  have h1 : a.length - 1 < a.length := by omega
  unfold scaleMeasure factorScale
  rw [usub_of_le a.length 1 (by omega)]
  cases self.m_ScaleObjectnessMeasure
  · simp
  · simp [List.getElem?_eq_getElem h1, List.getD_eq_getElem _ _ h1]

/-! ## The voxel value -/

theorem objectness_rejected (exp : α → α) (pow : α → α → α)
    (self : HessianToObjectnessMeasureImageFilter α) (es : List α)
    (hk : self.m_ObjectDimension ≤ es.length)
    (h : ∃ i, self.m_ObjectDimension ≤ i ∧ i < es.length ∧
      ((self.m_BrightObject = true ∧ (stdSort AbsLessCompare es).getD i 0 > 0) ∨
       (self.m_BrightObject = false ∧ (stdSort AbsLessCompare es).getD i 0 < 0))) :
    objectnessOfEigenValues exp pow self es = some 0 := by
  have hlen := stdSort_length AbsLessCompare es
  unfold objectnessOfEigenValues
  simp only []
  rw [signLoop_rejects _ _ _ _ (by omega)]
  obtain ⟨i, h1, h2, h3⟩ := h
  exact ⟨i, h1, by omega, h3⟩

theorem objectness_accepted (self : HessianToObjectnessMeasureImageFilter ℝ) (es : List ℝ)
    (hk : self.m_ObjectDimension < es.length)
    (h : ∀ i, self.m_ObjectDimension ≤ i → i < es.length →
      ¬ ((self.m_BrightObject = true ∧ (stdSort AbsLessCompare es).getD i 0 > 0) ∨
         (self.m_BrightObject = false ∧ (stdSort AbsLessCompare es).getD i 0 < 0))) :
    objectnessOfEigenValues Real.exp Real.rpow self es
      = some (factorA Real.exp Real.rpow self ((stdSort AbsLessCompare es).map Math.abs)
          * factorB Real.exp Real.rpow self ((stdSort AbsLessCompare es).map Math.abs)
          * factorGamma Real.exp self ((stdSort AbsLessCompare es).map Math.abs)
          * factorScale self ((stdSort AbsLessCompare es).map Math.abs)) := by
  have hlen := stdSort_length AbsLessCompare es
  have hlen' : ((stdSort AbsLessCompare es).map Math.abs).length = es.length := by
    rw [List.length_map, hlen]
  have hnn : ∀ x ∈ (stdSort AbsLessCompare es).map Math.abs, (0 : ℝ) ≤ x := by
    intro x hx
    obtain ⟨y, _, rfl⟩ := List.mem_map.1 hx
    exact abs_nonneg y
  unfold objectnessOfEigenValues
  simp only []
  rw [signLoop_accepts _ _ _ _ (by omega) (fun j h1 h2 => h j h1 (by omega))]
  simp only []
  rw [← hlen'] at hk ⊢
  rw [ratioA_eq _ _ hnn hk, Option.bind_eq_bind, Option.some_bind,
    ratioB_eq _ _ hnn hk, Option.some_bind, structureness_eq, Option.some_bind,
    scaleMeasure_eq _ _ (by omega), one_mul]


/-! ## Bounds on the four factors -/

theorem getD_map_abs (s : List ℝ) (i : Nat) :
    (s.map Math.abs).getD i 0 = |s.getD i 0| := by
  by_cases h : i < s.length
  · rw [List.getD_eq_getElem _ _ (by simpa using h), List.getD_eq_getElem _ _ h,
      List.getElem_map]
    rfl
  · rw [List.getD_eq_default _ _ (by simpa using h), List.getD_eq_default _ _ (by omega),
      abs_zero]

theorem map_abs_nonneg (s : List ℝ) : ∀ x ∈ s.map Math.abs, (0 : ℝ) ≤ x := by
  intro x hx
  obtain ⟨y, _, rfl⟩ := List.mem_map.1 hx
  exact abs_nonneg y

theorem exponent_nonpos (r c : ℝ) (hr : 0 ≤ r) : -r / (2 * c ^ 2) ≤ 0 := by
  rw [neg_div]
  exact neg_nonpos.2 (div_nonneg hr (by positivity))

theorem exponent_neg (r c : ℝ) (hr : 0 < r) (hc : c ≠ 0) : -r / (2 * c ^ 2) < 0 := by
  rw [neg_div]
  exact neg_neg_iff_pos.2 (div_pos hr (by positivity))

theorem sum_sq_nonneg (a : List ℝ) : 0 ≤ (a.map (fun x => x ^ 2)).sum := by
  apply List.sum_nonneg
  intro x hx
  obtain ⟨y, _, rfl⟩ := List.mem_map.1 hx
  positivity

theorem factorA_bounds (self : HessianToObjectnessMeasureImageFilter ℝ) (a : List ℝ) :
    0 ≤ factorA Real.exp Real.rpow self a ∧ factorA Real.exp Real.rpow self a ≤ 1 := by
  unfold factorA
  split_ifs
  · exact ⟨le_refl _, zero_le_one⟩
  · exact ⟨zero_le_one, le_refl _⟩
  · have h := Real.exp_le_one_iff.2 (exponent_nonpos
      ((a.getD self.m_ObjectDimension 0 /
        Real.rpow (a.drop (self.m_ObjectDimension + 1)).prod
          (1 / ((a.length - self.m_ObjectDimension - 1 : Nat) : ℝ))) ^ 2)
      self.m_Alpha (by positivity))
    have h' := Real.exp_pos (-(a.getD self.m_ObjectDimension 0 /
        Real.rpow (a.drop (self.m_ObjectDimension + 1)).prod
          (1 / ((a.length - self.m_ObjectDimension - 1 : Nat) : ℝ))) ^ 2
        / (2 * self.m_Alpha ^ 2))
    constructor <;> linarith
  · exact ⟨zero_le_one, le_refl _⟩

theorem factorB_bounds (self : HessianToObjectnessMeasureImageFilter ℝ) (a : List ℝ) :
    0 ≤ factorB Real.exp Real.rpow self a ∧ factorB Real.exp Real.rpow self a ≤ 1 := by
  unfold factorB
  split_ifs
  · exact ⟨le_refl _, zero_le_one⟩
  · exact ⟨(Real.exp_pos _).le, Real.exp_le_one_iff.2 (exponent_nonpos _ _ (by positivity))⟩
  · exact ⟨zero_le_one, le_refl _⟩

theorem factorGamma_bounds (self : HessianToObjectnessMeasureImageFilter ℝ) (a : List ℝ) :
    0 ≤ factorGamma Real.exp self a ∧ factorGamma Real.exp self a ≤ 1 := by
  unfold factorGamma
  split_ifs
  · exact ⟨zero_le_one, le_refl _⟩
  · have h := Real.exp_le_one_iff.2
      (exponent_nonpos _ self.m_Gamma (sum_sq_nonneg a))
    have h' := Real.exp_pos (-(a.map (fun x => x ^ 2)).sum / (2 * self.m_Gamma ^ 2))
    constructor <;> linarith

theorem getD_nonneg (a : List ℝ) (ha : ∀ x ∈ a, 0 ≤ x) (i : Nat) : 0 ≤ a.getD i 0 := by
  by_cases h : i < a.length
  · rw [List.getD_eq_getElem _ _ h]
    exact ha _ (List.getElem_mem _)
  · rw [List.getD_eq_default _ _ (by omega)]

theorem factorScale_nonneg (self : HessianToObjectnessMeasureImageFilter ℝ) (a : List ℝ)
    (ha : ∀ x ∈ a, 0 ≤ x) : 0 ≤ factorScale self a := by
  unfold factorScale
  split_ifs
  · exact getD_nonneg a ha _
  · exact zero_le_one

theorem objectness_cases (self : HessianToObjectnessMeasureImageFilter ℝ) (es : List ℝ)
    (hk : self.m_ObjectDimension < es.length) :
    objectnessOfEigenValues Real.exp Real.rpow self es = some 0 ∨
    ((∀ i, self.m_ObjectDimension ≤ i → i < es.length →
      ¬ ((self.m_BrightObject = true ∧ (stdSort AbsLessCompare es).getD i 0 > 0) ∨
         (self.m_BrightObject = false ∧ (stdSort AbsLessCompare es).getD i 0 < 0))) ∧
    objectnessOfEigenValues Real.exp Real.rpow self es
      = some (factorA Real.exp Real.rpow self ((stdSort AbsLessCompare es).map Math.abs)
          * factorB Real.exp Real.rpow self ((stdSort AbsLessCompare es).map Math.abs)
          * factorGamma Real.exp self ((stdSort AbsLessCompare es).map Math.abs)
          * factorScale self ((stdSort AbsLessCompare es).map Math.abs))) := by
  by_cases h : ∃ i, self.m_ObjectDimension ≤ i ∧ i < es.length ∧
      ((self.m_BrightObject = true ∧ (stdSort AbsLessCompare es).getD i 0 > 0) ∨
       (self.m_BrightObject = false ∧ (stdSort AbsLessCompare es).getD i 0 < 0))
  · exact Or.inl (objectness_rejected _ _ self es hk.le h)
  · have h' : ∀ i, self.m_ObjectDimension ≤ i → i < es.length →
        ¬ ((self.m_BrightObject = true ∧ (stdSort AbsLessCompare es).getD i 0 > 0) ∨
           (self.m_BrightObject = false ∧ (stdSort AbsLessCompare es).getD i 0 < 0)) :=
      fun i h1 h2 hv => h ⟨i, h1, h2, hv⟩
    exact Or.inr ⟨h', objectness_accepted self es hk h'⟩

theorem map_abs_length (es : List ℝ) :
    ((stdSort AbsLessCompare es).map Math.abs).length = es.length := by
  rw [List.length_map, stdSort_length]

theorem map_abs_fun (s : List ℝ) : s.map (fun x => |x|) = s.map Math.abs := rfl

theorem prod_drop_eq_zero (a : List ℝ) (j : Nat) (h : a.getD j 0 = 0) (hj : j < a.length) :
    (a.drop j).prod = 0 := by
  rw [List.drop_eq_getElem_cons hj, List.prod_cons, ← List.getD_eq_getElem _ 0 hj, h, zero_mul]

theorem getD_pos (a : List ℝ) (ha : ∀ x ∈ a, 0 < x) (i : Nat) (hi : i < a.length) :
    0 < a.getD i 0 := by
  rw [List.getD_eq_getElem _ _ hi]
  exact ha _ (List.getElem_mem _)

theorem prod_drop_pos (a : List ℝ) (ha : ∀ x ∈ a, 0 < x) (j : Nat) : 0 < (a.drop j).prod :=
  List.prod_pos (fun x hx => ha x (List.mem_of_mem_drop hx))

theorem sum_sq_pos (a : List ℝ) (ha : ∀ x ∈ a, 0 < x) (hne : 0 < a.length) :
    0 < (a.map (fun x => x ^ 2)).sum := by
  cases a with
  | nil => simp at hne
  | cons x xs =>
    rw [List.map_cons, List.sum_cons]
    have hx : 0 < x := ha x (List.mem_cons_self _ _)
    have := sum_sq_nonneg xs
    positivity

theorem factorA_pos (self : HessianToObjectnessMeasureImageFilter ℝ) (a : List ℝ)
    (ha : ∀ x ∈ a, 0 < x) : 0 < factorA Real.exp Real.rpow self a := by
  unfold factorA
  split_ifs with h1 h2 h3
  · exact absurd h2 (prod_drop_pos a ha _).ne'
  · exact zero_lt_one
  · have hr : 0 < a.getD self.m_ObjectDimension 0 /
        Real.rpow (a.drop (self.m_ObjectDimension + 1)).prod
          (1 / ((a.length - self.m_ObjectDimension - 1 : Nat) : ℝ)) :=
      div_pos (getD_pos a ha _ (by omega)) (Real.rpow_pos_of_pos (prod_drop_pos a ha _) _)
    have h := Real.exp_lt_one_iff.2 (exponent_neg _ self.m_Alpha (pow_pos hr 2) h3)
    linarith
  · exact zero_lt_one

theorem factorB_pos (self : HessianToObjectnessMeasureImageFilter ℝ) (a : List ℝ)
    (ha : ∀ x ∈ a, 0 < x) (hβ : self.m_ObjectDimension = 0 ∨ self.m_Beta ≠ 0) :
    0 < factorB Real.exp Real.rpow self a := by
  unfold factorB
  split_ifs with h1 h2
  · rcases h2 with h2 | h2
    · exact absurd h2 (prod_drop_pos a ha _).ne'
    · rcases hβ with hβ | hβ
      · omega
      · exact absurd h2 hβ
  · exact Real.exp_pos _
  · exact zero_lt_one

theorem factorB_eq_zero_of_beta (self : HessianToObjectnessMeasureImageFilter ℝ) (a : List ℝ)
    (hk : 0 < self.m_ObjectDimension) (hβ : self.m_Beta = 0) :
    factorB Real.exp Real.rpow self a = 0 := by
  unfold factorB
  rw [if_pos hk, if_pos (Or.inr hβ)]

theorem factorGamma_pos (self : HessianToObjectnessMeasureImageFilter ℝ) (a : List ℝ)
    (ha : ∀ x ∈ a, 0 < x) (hne : 0 < a.length) : 0 < factorGamma Real.exp self a := by
  unfold factorGamma
  split_ifs with h1
  · exact zero_lt_one
  · have h := Real.exp_lt_one_iff.2 (exponent_neg _ self.m_Gamma (sum_sq_pos a ha hne) h1)
    linarith

theorem factorScale_pos (self : HessianToObjectnessMeasureImageFilter ℝ) (a : List ℝ)
    (ha : ∀ x ∈ a, 0 < x) (hne : 0 < a.length) : 0 < factorScale self a := by
  unfold factorScale
  split_ifs
  · exact getD_pos a ha _ (by omega)
  · exact zero_lt_one

theorem map_abs_pos (es : List ℝ) (h0 : ∀ x ∈ es, x ≠ 0) :
    ∀ x ∈ (stdSort AbsLessCompare es).map Math.abs, (0 : ℝ) < x := by
  intro x hx
  obtain ⟨y, hy, rfl⟩ := List.mem_map.1 hx
  exact abs_pos.2 (h0 y ((stdSort_perm _ es).mem_iff.1 hy))

/-! ## Claims -/

/-- C3 (eigen-ordering): the magnitude sort returns a tuple whose absolute values ascend,
`|out[0]| ≤ |out[1]| ≤ … ≤ |out[D-1]|`, with the same number of entries, and it is a
permutation of the input as a list of signed values. -/
theorem magnitude_sort_ascending_perm (es : List ℝ) :
    (stdSort AbsLessCompare es).Pairwise (fun x y => |x| ≤ |y|) ∧
    (∀ i j, i ≤ j → j < es.length →
      |(stdSort AbsLessCompare es).getD i 0| ≤ |(stdSort AbsLessCompare es).getD j 0|) ∧
    (stdSort AbsLessCompare es).length = es.length ∧
    (stdSort AbsLessCompare es).Perm es := by
  have hlen := stdSort_length AbsLessCompare es
  refine ⟨stdSort_sorted es, ?_, hlen, stdSort_perm _ es⟩
  intro i j hij hj
  have hi' : i < (stdSort AbsLessCompare es).length := by omega
  have hj' : j < (stdSort AbsLessCompare es).length := by omega
  rw [List.getD_eq_getElem _ _ hi', List.getD_eq_getElem _ _ hj']
  rcases Nat.eq_or_lt_of_le hij with rfl | hlt
  · exact le_refl _
  · exact List.pairwise_iff_getElem.1 (stdSort_sorted es) i j hi' hj' hlt

/-- C4 (configuration check): when the superclass check succeeds, `VerifyPreconditions`
raises the configuration error exactly when `m_ObjectDimension ≥ ImageDimension` and returns
normally exactly when `m_ObjectDimension < ImageDimension`; the other members play no part. -/
theorem verifyPreconditions_iff (ImageDimension : Nat)
    (self : HessianToObjectnessMeasureImageFilter ℝ) :
    (VerifyPreconditions (Except.ok ()) ImageDimension self
        = Except.error "ObjectDimension must be lower than ImageDimension."
      ↔ self.m_ObjectDimension ≥ ImageDimension) ∧
    (VerifyPreconditions (Except.ok ()) ImageDimension self = Except.ok ()
      ↔ self.m_ObjectDimension < ImageDimension) := by
  unfold VerifyPreconditions
  by_cases h : self.m_ObjectDimension ≥ ImageDimension
  · simp [h]
  · simp only [if_neg h]
    constructor
    · constructor
      · intro hc; cases hc
      · intro hc; exact absurd hc h
    · constructor
      · intro _; omega
      · intro _; trivial

/-- C2 (sign-consistency gate): with `objectDimension < D`, if some index `i` with
`objectDimension ≤ i < D` of the magnitude-sorted tuple `s` has `s[i] > 0` for a bright
object or `s[i] < 0` for a dark one, the voxel value is exactly `0`, whatever alpha, beta,
gamma and the scale flag are; and the gate loop rejects exactly when such an index exists,
so an eigenvalue equal to zero never triggers the rejection. -/
theorem sign_gate_rejects (self : HessianToObjectnessMeasureImageFilter ℝ) (es s : List ℝ)
    (hs : s = stdSort AbsLessCompare es) (hk : self.m_ObjectDimension < es.length) :
    ((∃ i, self.m_ObjectDimension ≤ i ∧ i < es.length ∧
        ((self.m_BrightObject = true ∧ s.getD i 0 > 0) ∨
         (self.m_BrightObject = false ∧ s.getD i 0 < 0))) →
      objectnessOfEigenValues Real.exp Real.rpow self es = some 0) ∧
    (signLoop self.m_BrightObject s (es.length - self.m_ObjectDimension)
        self.m_ObjectDimension = some false
      ↔ ∃ i, self.m_ObjectDimension ≤ i ∧ i < es.length ∧
        ((self.m_BrightObject = true ∧ s.getD i 0 > 0) ∨
         (self.m_BrightObject = false ∧ s.getD i 0 < 0))) := by
  subst hs
  have hlen := stdSort_length AbsLessCompare es
  refine ⟨fun h => objectness_rejected _ _ self es hk.le h, ?_⟩
  constructor
  · intro hf
    by_contra hne
    have hacc := signLoop_accepts self.m_BrightObject (stdSort AbsLessCompare es)
      (es.length - self.m_ObjectDimension) self.m_ObjectDimension (by omega)
      (fun j h1 h2 hv => hne ⟨j, h1, by omega, hv⟩)
    rw [hacc] at hf
    cases hf
  · rintro ⟨i, h1, h2, h3⟩
    exact signLoop_rejects _ _ _ _ (by omega) ⟨i, h1, by omega, h3⟩

theorem sort_example_bright : stdSort AbsLessCompare ([-5, -3, 2] : List ℝ) = [2, -3, -5] := by
  norm_num [stdSort, linearInsert, AbsLessCompare]

/-- Witness of C2: `D = 3`, `objectDimension = 0`, bright object, eigenvalues `(-5, -3, 2)`,
sorted `(2, -3, -5)` with `s[0] = 2 > 0`. -/
theorem sign_gate_rejects_witness :
    objectnessOfEigenValues Real.exp Real.rpow ⟨1 / 2, 1 / 2, 5, 0, true, true⟩ [-5, -3, 2]
      = some 0 :=
  (sign_gate_rejects ⟨1 / 2, 1 / 2, 5, 0, true, true⟩ [-5, -3, 2] [2, -3, -5]
    sort_example_bright.symm (by simp)).1 ⟨0, le_refl _, by simp, Or.inl ⟨rfl, by simp⟩⟩

/-- Degenerate term-A denominator, over real arithmetic only: with
`objectDimension < D - 1`, if the product of `|s[j]|` over `j` in `objectDimension+1 .. D-1`
is zero, and in particular if `s[objectDimension+1] = 0`, the voxel value is `0`. In
`double` this fails when `sqr(m_Gamma)` underflows on an all-zero voxel (the gamma term is a
NaN there). -/
theorem degenerate_termA_denominator (self : HessianToObjectnessMeasureImageFilter ℝ)
    (es s a : List ℝ) (hs : s = stdSort AbsLessCompare es) (ha : a = s.map (fun x => |x|))
    (hk : self.m_ObjectDimension < es.length - 1) :
    ((a.drop (self.m_ObjectDimension + 1)).prod = 0 →
      objectnessOfEigenValues Real.exp Real.rpow self es = some 0) ∧
    (s.getD (self.m_ObjectDimension + 1) 0 = 0 →
      objectnessOfEigenValues Real.exp Real.rpow self es = some 0) := by
  subst hs ha
  rw [map_abs_fun]
  have hlen := map_abs_length es
  have key : (((stdSort AbsLessCompare es).map Math.abs).drop
      (self.m_ObjectDimension + 1)).prod = 0 →
      objectnessOfEigenValues Real.exp Real.rpow self es = some 0 := by
    intro hz
    rcases objectness_cases self es (by omega) with h | ⟨_, h⟩
    · exact h
    · rw [h]
      have hA : factorA Real.exp Real.rpow self ((stdSort AbsLessCompare es).map Math.abs)
          = 0 := by
        unfold factorA
        rw [if_pos (by omega), if_pos hz]
      rw [hA, zero_mul, zero_mul, zero_mul]
  refine ⟨key, fun h0 => key ?_⟩
  apply prod_drop_eq_zero _ _ _ (by omega)
  rw [getD_map_abs, h0, abs_zero]

theorem sort_example_degenerate :
    stdSort AbsLessCompare ([0, 7, 0] : List ℝ) = [0, 0, 7] := by
  norm_num [stdSort, linearInsert, AbsLessCompare]

/-- An instance of `degenerate_termA_denominator`: `D = 3`, `objectDimension = 0`,
eigenvalues `(0, 7, 0)`, sorted `(0, 0, 7)` with `sorted[1] = 0`. -/
theorem degenerate_termA_denominator_witness :
    objectnessOfEigenValues Real.exp Real.rpow ⟨1 / 2, 1 / 2, 5, 0, false, true⟩ [0, 7, 0]
      = some 0 :=
  (degenerate_termA_denominator ⟨1 / 2, 1 / 2, 5, 0, false, true⟩ [0, 7, 0] [0, 0, 7]
    [|0|, |0|, |7|] sort_example_degenerate.symm rfl (by simp)).2 (by simp)

/-- Term B has no soft skip, over real arithmetic only: with `0 < objectDimension < D`, if
`beta = 0` or the product of `|s[j]|` over `j` in `objectDimension .. D-1` is zero, the
voxel value is `0`. In `double` this fails when `sqr(m_Gamma)` underflows on an all-zero
voxel (the gamma term is a NaN there). -/
theorem termB_forces_zero (self : HessianToObjectnessMeasureImageFilter ℝ)
    (es s a : List ℝ) (hs : s = stdSort AbsLessCompare es) (ha : a = s.map (fun x => |x|))
    (hk0 : 0 < self.m_ObjectDimension) (hk : self.m_ObjectDimension < es.length)
    (h : self.m_Beta = 0 ∨ (a.drop self.m_ObjectDimension).prod = 0) :
    objectnessOfEigenValues Real.exp Real.rpow self es = some 0 := by
  subst hs ha
  rw [map_abs_fun] at h
  rcases objectness_cases self es hk with h' | ⟨_, h'⟩
  · exact h'
  · rw [h']
    have hB : factorB Real.exp Real.rpow self ((stdSort AbsLessCompare es).map Math.abs)
        = 0 := by
      unfold factorB
      rw [if_pos hk0, if_pos h.symm]
    rw [hB, mul_zero, zero_mul, zero_mul]

theorem sort_example_dark : stdSort AbsLessCompare ([1, 8, 9] : List ℝ) = [1, 8, 9] := by
  norm_num [stdSort, linearInsert, AbsLessCompare]

/-- An instance of `termB_forces_zero`: `D = 3`, `objectDimension = 1`, `beta = 0`,
eigenvalues `(1, 8, 9)`. -/
theorem termB_forces_zero_witness :
    objectnessOfEigenValues Real.exp Real.rpow ⟨1 / 2, 0, 5, 1, false, true⟩ [1, 8, 9]
      = some 0 :=
  termB_forces_zero ⟨1 / 2, 0, 5, 1, false, true⟩ [1, 8, 9] [1, 8, 9] [|1|, |8|, |9|]
    sort_example_dark.symm rfl (by simp) (by simp) (Or.inl rfl)

/-- C8 (scale compensation step): with `objectDimension < D`, the voxel value computed with
`ScaleObjectnessMeasure` set is the value computed with it cleared, all else equal,
multiplied by `|s[D-1]|`, the absolute value of the last entry of the magnitude-sorted
tuple (the largest absolute eigenvalue). -/
theorem scale_multiplies_by_largest_abs (alpha beta gamma : ℝ) (objectDimension : Nat)
    (brightObject : Bool) (es s : List ℝ) (hs : s = stdSort AbsLessCompare es)
    (hk : objectDimension < es.length) :
    ∃ r : ℝ,
      objectnessOfEigenValues Real.exp Real.rpow
        ⟨alpha, beta, gamma, objectDimension, brightObject, false⟩ es = some r ∧
      objectnessOfEigenValues Real.exp Real.rpow
        ⟨alpha, beta, gamma, objectDimension, brightObject, true⟩ es
          = some (r * |s.getD (es.length - 1) 0|) ∧
      (∀ x ∈ es, |x| ≤ |s.getD (es.length - 1) 0|) := by
  subst hs
  have hmax : ∀ x ∈ es, |x| ≤ |(stdSort AbsLessCompare es).getD (es.length - 1) 0| := by
    intro x hx
    have hlen := stdSort_length AbsLessCompare es
    have hx' : x ∈ stdSort AbsLessCompare es := (stdSort_perm _ es).mem_iff.2 hx
    obtain ⟨i, hi, rfl⟩ := List.getElem_of_mem hx'
    have hl : es.length - 1 < (stdSort AbsLessCompare es).length := by omega
    rw [List.getD_eq_getElem _ _ hl]
    rcases Nat.eq_or_lt_of_le (show i ≤ es.length - 1 by omega) with h | h
    · subst h
      exact le_refl _
    · exact List.pairwise_iff_getElem.1 (stdSort_sorted es) i _ hi hl h
  by_cases h : ∃ i, objectDimension ≤ i ∧ i < es.length ∧
      ((brightObject = true ∧ (stdSort AbsLessCompare es).getD i 0 > 0) ∨
       (brightObject = false ∧ (stdSort AbsLessCompare es).getD i 0 < 0))
  · refine ⟨0, objectness_rejected _ _ _ es hk.le h, ?_, hmax⟩
    rw [zero_mul]
    exact objectness_rejected _ _ _ es hk.le h
  · have h' : ∀ i, objectDimension ≤ i → i < es.length →
        ¬ ((brightObject = true ∧ (stdSort AbsLessCompare es).getD i 0 > 0) ∨
           (brightObject = false ∧ (stdSort AbsLessCompare es).getD i 0 < 0)) :=
      fun i h1 h2 hv => h ⟨i, h1, h2, hv⟩
    refine ⟨_, objectness_accepted ⟨alpha, beta, gamma, objectDimension, brightObject, false⟩
      es hk h', ?_, hmax⟩
    rw [objectness_accepted ⟨alpha, beta, gamma, objectDimension, brightObject, true⟩
      es hk h']
    simp only [factorScale, map_abs_length, getD_map_abs, if_true, Bool.false_eq_true,
      if_false, mul_one]
    rfl

/-- Witness of C8: `D = 3`, `objectDimension = 1`, dark object, eigenvalues `(1, 8, 9)`. -/
theorem scale_multiplies_by_largest_abs_witness :
    ∃ r : ℝ,
      objectnessOfEigenValues Real.exp Real.rpow ⟨1 / 2, 1 / 2, 5, 1, false, false⟩ [1, 8, 9]
        = some r ∧
      objectnessOfEigenValues Real.exp Real.rpow ⟨1 / 2, 1 / 2, 5, 1, false, true⟩ [1, 8, 9]
        = some (r * |([1, 8, 9] : List ℝ).getD (([1, 8, 9] : List ℝ).length - 1) 0|) ∧
      (∀ x ∈ ([1, 8, 9] : List ℝ),
        |x| ≤ |([1, 8, 9] : List ℝ).getD (([1, 8, 9] : List ℝ).length - 1) 0|) :=
  scale_multiplies_by_largest_abs (1 / 2) (1 / 2) 5 1 false [1, 8, 9] [1, 8, 9]
    sort_example_dark.symm (by simp)

/-- C9 (response range): with `objectDimension < D` and any real alpha, beta, gamma, the
voxel value `r` exists and satisfies `0 ≤ r`; `r ≤ 1` when `ScaleObjectnessMeasure` is
cleared; and `r ≤ |s[D-1]|`, the largest absolute eigenvalue, when it is set. -/
theorem response_range (self : HessianToObjectnessMeasureImageFilter ℝ) (es s : List ℝ)
    (hs : s = stdSort AbsLessCompare es) (hk : self.m_ObjectDimension < es.length) :
    ∃ r : ℝ, objectnessOfEigenValues Real.exp Real.rpow self es = some r ∧ 0 ≤ r ∧
      (self.m_ScaleObjectnessMeasure = false → r ≤ 1) ∧
      (self.m_ScaleObjectnessMeasure = true → r ≤ |s.getD (es.length - 1) 0|) := by
  subst hs
  rcases objectness_cases self es hk with h | ⟨_, h⟩
  · exact ⟨0, h, le_refl _, fun _ => zero_le_one, fun _ => abs_nonneg _⟩
  · obtain ⟨hA0, hA1⟩ := factorA_bounds self ((stdSort AbsLessCompare es).map Math.abs)
    obtain ⟨hB0, hB1⟩ := factorB_bounds self ((stdSort AbsLessCompare es).map Math.abs)
    obtain ⟨hG0, hG1⟩ := factorGamma_bounds self ((stdSort AbsLessCompare es).map Math.abs)
    have hC0 := factorScale_nonneg self _ (map_abs_nonneg (stdSort AbsLessCompare es))
    have hABG0 : 0 ≤ factorA Real.exp Real.rpow self ((stdSort AbsLessCompare es).map Math.abs)
        * factorB Real.exp Real.rpow self ((stdSort AbsLessCompare es).map Math.abs)
        * factorGamma Real.exp self ((stdSort AbsLessCompare es).map Math.abs) :=
      mul_nonneg (mul_nonneg hA0 hB0) hG0
    have hABG1 : factorA Real.exp Real.rpow self ((stdSort AbsLessCompare es).map Math.abs)
        * factorB Real.exp Real.rpow self ((stdSort AbsLessCompare es).map Math.abs)
        * factorGamma Real.exp self ((stdSort AbsLessCompare es).map Math.abs) ≤ 1 :=
      mul_le_one₀ (mul_le_one₀ hA1 hB0 hB1) hG0 hG1
    refine ⟨_, h, mul_nonneg hABG0 hC0, ?_, ?_⟩
    · intro hsc
      have : factorScale self ((stdSort AbsLessCompare es).map Math.abs) = 1 := by
        simp [factorScale, hsc]
      rw [this, mul_one]
      exact hABG1
    · intro hsc
      have : factorScale self ((stdSort AbsLessCompare es).map Math.abs)
          = |(stdSort AbsLessCompare es).getD (es.length - 1) 0| := by
        unfold factorScale
        rw [if_pos hsc, map_abs_length, getD_map_abs]
      rw [this]
      exact mul_le_of_le_one_left (abs_nonneg _) hABG1

/-- Witness of C9: `D = 3`, `objectDimension = 1`, dark object, eigenvalues `(1, 8, 9)`. -/
theorem response_range_witness :
    ∃ r : ℝ, objectnessOfEigenValues Real.exp Real.rpow ⟨1 / 2, 1 / 2, 5, 1, false, true⟩
        [1, 8, 9] = some r ∧ 0 ≤ r ∧
      ((true : Bool) = false → r ≤ 1) ∧
      ((true : Bool) = true → r ≤ |([1, 8, 9] : List ℝ).getD (([1, 8, 9] : List ℝ).length - 1) 0|) :=
  response_range ⟨1 / 2, 1 / 2, 5, 1, false, true⟩ [1, 8, 9] [1, 8, 9]
    sort_example_dark.symm (by simp)

/-- C7 (zero-alpha skip): with `objectDimension < D - 1`, a voxel that passes the sign gate
and whose term-A denominator product is nonzero, and `alpha = 0`, the first ratio
contributes the factor `1`: the voxel value is the product of the remaining factors only
(the second ratio when `objectDimension > 0`, the gamma factor when `gamma ≠ 0`, the scale
factor when the flag is set). The value exists, so no division by `alpha² = 0` is carried
out. -/
theorem zero_alpha_skip (self : HessianToObjectnessMeasureImageFilter ℝ)
    (es s a : List ℝ) (hs : s = stdSort AbsLessCompare es) (ha : a = s.map (fun x => |x|))
    (hk : self.m_ObjectDimension < es.length - 1)
    (hgate : ∀ i, self.m_ObjectDimension ≤ i → i < es.length →
      ¬ ((self.m_BrightObject = true ∧ s.getD i 0 > 0) ∨
         (self.m_BrightObject = false ∧ s.getD i 0 < 0)))
    (hA : (a.drop (self.m_ObjectDimension + 1)).prod ≠ 0)
    (hα : self.m_Alpha = 0) :
    objectnessOfEigenValues Real.exp Real.rpow self es = some (
      (if 0 < self.m_ObjectDimension then
        (if (a.drop self.m_ObjectDimension).prod = 0 ∨ self.m_Beta = 0 then 0
         else Real.exp (-(a.getD (self.m_ObjectDimension - 1) 0 /
            (a.drop self.m_ObjectDimension).prod
              ^ ((1 : ℝ) / ((es.length - self.m_ObjectDimension : Nat) : ℝ))) ^ 2
            / (2 * self.m_Beta ^ 2)))
       else 1)
      * (if self.m_Gamma = 0 then 1
         else 1 - Real.exp (-(a.map (fun x => x ^ 2)).sum / (2 * self.m_Gamma ^ 2)))
      * (if self.m_ScaleObjectnessMeasure then a.getD (es.length - 1) 0 else 1)) := by
  subst hs ha
  rw [map_abs_fun] at hA ⊢
  have hlen := map_abs_length es
  rw [objectness_accepted self es (by omega) hgate]
  have hFA : factorA Real.exp Real.rpow self ((stdSort AbsLessCompare es).map Math.abs)
      = 1 := by
    unfold factorA
    rw [if_pos (by omega), if_neg hA, if_pos hα]
  rw [hFA, one_mul]
  unfold factorB factorGamma factorScale
  rw [hlen]
  rfl

/-- Witness of C7: `D = 3`, `objectDimension = 1`, dark object, `alpha = 0`, eigenvalues
`(1, 8, 9)`. -/
theorem zero_alpha_skip_witness :
    objectnessOfEigenValues Real.exp Real.rpow ⟨0, 1 / 2, 5, 1, false, false⟩ [1, 8, 9]
      = some (Real.exp (-(1 / (72 : ℝ) ^ ((1 : ℝ) / 2)) ^ 2 / (2 * (1 / 2) ^ 2))
          * (1 - Real.exp (-146 / (2 * 5 ^ 2)))) := by
  have h := zero_alpha_skip ⟨0, 1 / 2, 5, 1, false, false⟩ [1, 8, 9] [1, 8, 9]
    [|1|, |8|, |9|] sort_example_dark.symm rfl (by simp)
    (fun i _ _ hv => hv.elim (fun hb => Bool.noConfusion hb.1)
      (fun hn => absurd hn.2 (not_lt.2 (getD_nonneg _ (by norm_num) i))))
    (by simp) rfl
  rw [h]
  norm_num

/-- C1 (per-voxel scoring law): for `0 < objectDimension < D - 1`, an eigenvalue tuple
whose magnitude-sorted form `s` passes the sign gate, `a[i] = |s[i]|`, both denominator
products `prod(a[k+1..D-1])` and `prod(a[k..D-1])` nonzero and alpha, beta, gamma nonzero,
the value written is
`(1 - exp(-rA²/(2 alpha²))) * exp(-rB²/(2 beta²)) * (1 - exp(-S/(2 gamma²))) * c` with
`rA = a[k] / prod(a[k+1..D-1])^(1/(D-k-1))`, `rB = a[k-1] / prod(a[k..D-1])^(1/(D-k))`,
`S` the sum of the `a[i]²` and `c = a[D-1]` if `ScaleObjectnessMeasure` is set, else `1`. -/
theorem scoring_law (self : HessianToObjectnessMeasureImageFilter ℝ)
    (es s a : List ℝ) (hs : s = stdSort AbsLessCompare es) (ha : a = s.map (fun x => |x|))
    (hk0 : 0 < self.m_ObjectDimension) (hk : self.m_ObjectDimension < es.length - 1)
    (hgate : ∀ i, self.m_ObjectDimension ≤ i → i < es.length →
      ¬ ((self.m_BrightObject = true ∧ s.getD i 0 > 0) ∨
         (self.m_BrightObject = false ∧ s.getD i 0 < 0)))
    (hA : (a.drop (self.m_ObjectDimension + 1)).prod ≠ 0)
    (hB : (a.drop self.m_ObjectDimension).prod ≠ 0)
    (hα : self.m_Alpha ≠ 0) (hβ : self.m_Beta ≠ 0) (hγ : self.m_Gamma ≠ 0) :
    objectnessOfEigenValues Real.exp Real.rpow self es = some (
      (1 - Real.exp (-(a.getD self.m_ObjectDimension 0 /
          (a.drop (self.m_ObjectDimension + 1)).prod
            ^ ((1 : ℝ) / ((es.length - self.m_ObjectDimension - 1 : Nat) : ℝ))) ^ 2
          / (2 * self.m_Alpha ^ 2)))
      * Real.exp (-(a.getD (self.m_ObjectDimension - 1) 0 /
          (a.drop self.m_ObjectDimension).prod
            ^ ((1 : ℝ) / ((es.length - self.m_ObjectDimension : Nat) : ℝ))) ^ 2
          / (2 * self.m_Beta ^ 2))
      * (1 - Real.exp (-(a.map (fun x => x ^ 2)).sum / (2 * self.m_Gamma ^ 2)))
      * (if self.m_ScaleObjectnessMeasure then a.getD (es.length - 1) 0 else 1)) := by
  subst hs ha
  rw [map_abs_fun] at hA hB ⊢
  have hlen := map_abs_length es
  rw [objectness_accepted self es (by omega) hgate]
  unfold factorA factorB factorGamma factorScale
  rw [hlen, if_pos (by omega), if_neg hA, if_neg hα, if_pos hk0, if_neg (by tauto), if_neg hγ]
  rfl

/-- Witness of C1: `D = 3`, `objectDimension = 1`, dark object, `alpha = beta = gamma = 1/2`,
no scaling, eigenvalues `(1, 8, 9)`. -/
theorem scoring_law_witness :
    objectnessOfEigenValues Real.exp Real.rpow ⟨1 / 2, 1 / 2, 1 / 2, 1, false, false⟩
        [1, 8, 9]
      = some ((1 - Real.exp (-(8 / 9) ^ 2 / (2 * (1 / 2) ^ 2)))
          * Real.exp (-(1 / (72 : ℝ) ^ ((1 : ℝ) / 2)) ^ 2 / (2 * (1 / 2) ^ 2))
          * (1 - Real.exp (-146 / (2 * (1 / 2) ^ 2)))) := by
  have h := scoring_law ⟨1 / 2, 1 / 2, 1 / 2, 1, false, false⟩ [1, 8, 9] [1, 8, 9]
    [|1|, |8|, |9|] sort_example_dark.symm rfl (by simp) (by simp)
    (fun i _ _ hv => hv.elim (fun hb => Bool.noConfusion hb.1)
      (fun hn => absurd hn.2 (not_lt.2 (getD_nonneg _ (by norm_num) i))))
    (by simp) (by simp) (by norm_num) (by norm_num) (by norm_num)
  rw [h]
  norm_num

theorem gate_example_bright (i : Nat) (h1 : 1 ≤ i) (h2 : i < 3) :
    ¬ (((true : Bool) = true ∧ (stdSort AbsLessCompare ([-5, -3, 2] : List ℝ)).getD i 0 > 0) ∨
       ((true : Bool) = false ∧ (stdSort AbsLessCompare ([-5, -3, 2] : List ℝ)).getD i 0 < 0)) := by
  rw [sort_example_bright]
  interval_cases i <;> norm_num

theorem objectness_example_bright (alpha beta gamma : ℝ) (scale : Bool) :
    objectnessOfEigenValues Real.exp Real.rpow ⟨alpha, beta, gamma, 1, true, scale⟩
        [-5, -3, 2]
      = some (factorA Real.exp Real.rpow ⟨alpha, beta, gamma, 1, true, scale⟩
            ((stdSort AbsLessCompare [-5, -3, 2]).map Math.abs)
          * factorB Real.exp Real.rpow ⟨alpha, beta, gamma, 1, true, scale⟩
            ((stdSort AbsLessCompare [-5, -3, 2]).map Math.abs)
          * factorGamma Real.exp ⟨alpha, beta, gamma, 1, true, scale⟩
            ((stdSort AbsLessCompare [-5, -3, 2]).map Math.abs)
          * factorScale ⟨alpha, beta, gamma, 1, true, scale⟩
            ((stdSort AbsLessCompare [-5, -3, 2]).map Math.abs)) :=
  objectness_accepted ⟨alpha, beta, gamma, 1, true, scale⟩ [-5, -3, 2] (by simp)
    (fun i h1 h2 => gate_example_bright i h1 (by simpa using h2))

theorem example_bright_nonzero (x : ℝ) (hx : x ∈ ([-5, -3, 2] : List ℝ)) : x ≠ 0 := by
  simp only [List.mem_cons, List.mem_singleton, List.not_mem_nil, or_false] at hx
  rcases hx with rfl | rfl | rfl <;> norm_num

/-- C10 as the code has it (sign-gate example): for `D = 3`, `objectDimension = 1`,
`brightObject = true` and eigenvalues `(-5, -3, 2)`, the magnitude-sorted tuple is
`(2, -3, -5)`; the gate inspects `sorted[1] = -3` and `sorted[2] = -5`, which satisfy the
bright-object constraint, so the gate loop accepts the voxel (it reads neither alpha, beta,
gamma nor the scale flag). The voxel value is then not `0` for every choice of the
parameters: at `alpha = 0`, `beta = 1`, `gamma = 0` without scaling it is `exp(-2/15)` over
real arithmetic. -/
theorem sign_gate_example_passes :
    stdSort AbsLessCompare ([-5, -3, 2] : List ℝ) = [2, -3, -5] ∧
    signLoop true (stdSort AbsLessCompare ([-5, -3, 2] : List ℝ)) (3 - 1) 1 = some true ∧
    objectnessOfEigenValues Real.exp Real.rpow ⟨0, 1, 0, 1, true, false⟩ [-5, -3, 2]
      = some (Real.exp (-(2 / 15))) := by
  refine ⟨sort_example_bright, ?_, ?_⟩
  · exact signLoop_accepts true _ 2 1 (by rw [stdSort_length]; simp)
      (fun j h1 h2 => gate_example_bright j h1 (by omega))
  · rw [objectness_example_bright, sort_example_bright]
    have hroot : ((15 : ℝ) ^ ((1 : ℝ) / 2)) ^ 2 = 15 := by
      rw [← Real.sqrt_eq_rpow]
      exact Real.sq_sqrt (by norm_num)
    norm_num [factorA, factorB, factorGamma, factorScale, Math.abs]
    rw [div_pow, hroot]
    norm_num

/-- Counterexample to C10 as stated: for `D = 3`, `objectDimension = 1`, bright object and
eigenvalues `(-5, -3, 2)` the last sorted entry is `-5`, not `2`, and with `alpha = 0`,
`beta = 1`, `gamma = 0` and no scaling the voxel value is not `0`. -/
theorem sign_gate_example_not_zero :
    (stdSort AbsLessCompare ([-5, -3, 2] : List ℝ)).getD 2 0 = -5 ∧
    ¬ (∀ (alpha beta gamma : ℝ) (scale : Bool),
      objectnessOfEigenValues Real.exp Real.rpow ⟨alpha, beta, gamma, 1, true, scale⟩
        [-5, -3, 2] = some 0) := by
  constructor
  · rw [sort_example_bright]
    rfl
  · intro hall
    have h0 := hall 0 1 0 false
    rw [objectness_example_bright] at h0
    have hpos := map_abs_pos _ example_bright_nonzero
    have hlen : 0 < ((stdSort AbsLessCompare ([-5, -3, 2] : List ℝ)).map Math.abs).length := by
      rw [map_abs_length]; simp
    have hA := factorA_pos ⟨0, 1, 0, 1, true, false⟩ _ hpos
    have hB := factorB_pos ⟨0, 1, 0, 1, true, false⟩ _ hpos (Or.inr one_ne_zero)
    have hG := factorGamma_pos ⟨0, 1, 0, 1, true, false⟩ _ hpos hlen
    have hC := factorScale_pos ⟨0, 1, 0, 1, true, false⟩ _ hpos hlen
    have hr := mul_pos (mul_pos (mul_pos hA hB) hG) hC
    exact hr.ne' (Option.some.inj h0)

/-! ## The gamma factor attenuates -/

theorem factorGamma_lt_one (self : HessianToObjectnessMeasureImageFilter ℝ) (a : List ℝ)
    (hγ : self.m_Gamma ≠ 0) : factorGamma Real.exp self a < 1 := by
  unfold factorGamma
  rw [if_neg hγ]
  have h := Real.exp_pos (-(a.map (fun x => x ^ 2)).sum / (2 * self.m_Gamma ^ 2))
  linarith

theorem factorGamma_zero (alpha beta : ℝ) (k : Nat) (bright scale : Bool) (a : List ℝ) :
    factorGamma Real.exp ⟨alpha, beta, 0, k, bright, scale⟩ a = 1 := by
  unfold factorGamma
  rw [if_pos rfl]

/-- C19 (the gamma term only attenuates): with `objectDimension < D`, the voxel value for
any `gamma ≠ 0` is at most the value for `gamma = 0`, all else equal, and strictly smaller
whenever the value for `gamma = 0` is positive. -/
theorem gamma_attenuates (alpha beta gamma : ℝ) (objectDimension : Nat)
    (brightObject scale : Bool) (es : List ℝ)
    (hk : objectDimension < es.length) (hγ : gamma ≠ 0) :
    ∃ r r0 : ℝ,
      objectnessOfEigenValues Real.exp Real.rpow
        ⟨alpha, beta, gamma, objectDimension, brightObject, scale⟩ es = some r ∧
      objectnessOfEigenValues Real.exp Real.rpow
        ⟨alpha, beta, 0, objectDimension, brightObject, scale⟩ es = some r0 ∧
      r ≤ r0 ∧ (0 < r0 → r < r0) := by
  by_cases h : ∃ i, objectDimension ≤ i ∧ i < es.length ∧
      ((brightObject = true ∧ (stdSort AbsLessCompare es).getD i 0 > 0) ∨
       (brightObject = false ∧ (stdSort AbsLessCompare es).getD i 0 < 0))
  · exact ⟨0, 0, objectness_rejected _ _ _ es hk.le h, objectness_rejected _ _ _ es hk.le h,
      le_refl _, fun h0 => absurd h0 (lt_irrefl _)⟩
  · have h' : ∀ i, objectDimension ≤ i → i < es.length →
        ¬ ((brightObject = true ∧ (stdSort AbsLessCompare es).getD i 0 > 0) ∨
           (brightObject = false ∧ (stdSort AbsLessCompare es).getD i 0 < 0)) :=
      fun i h1 h2 hv => h ⟨i, h1, h2, hv⟩
    refine ⟨_, _,
      objectness_accepted ⟨alpha, beta, gamma, objectDimension, brightObject, scale⟩ es hk h',
      objectness_accepted ⟨alpha, beta, 0, objectDimension, brightObject, scale⟩ es hk h',
      ?_⟩
    rw [factorGamma_zero, mul_one]
    obtain ⟨hA0, _⟩ := factorA_bounds ⟨alpha, beta, 0, objectDimension, brightObject, scale⟩
      ((stdSort AbsLessCompare es).map Math.abs)
    obtain ⟨hB0, _⟩ := factorB_bounds ⟨alpha, beta, 0, objectDimension, brightObject, scale⟩
      ((stdSort AbsLessCompare es).map Math.abs)
    obtain ⟨hG0, _⟩ := factorGamma_bounds
      ⟨alpha, beta, gamma, objectDimension, brightObject, scale⟩
      ((stdSort AbsLessCompare es).map Math.abs)
    have hG1 := factorGamma_lt_one
      ⟨alpha, beta, gamma, objectDimension, brightObject, scale⟩
      ((stdSort AbsLessCompare es).map Math.abs) hγ
    have hC0 := factorScale_nonneg ⟨alpha, beta, 0, objectDimension, brightObject, scale⟩ _
      (map_abs_nonneg (stdSort AbsLessCompare es))
    have hAeq : factorA Real.exp Real.rpow
        ⟨alpha, beta, gamma, objectDimension, brightObject, scale⟩
        ((stdSort AbsLessCompare es).map Math.abs)
        = factorA Real.exp Real.rpow ⟨alpha, beta, 0, objectDimension, brightObject, scale⟩
        ((stdSort AbsLessCompare es).map Math.abs) := rfl
    have hBeq : factorB Real.exp Real.rpow
        ⟨alpha, beta, gamma, objectDimension, brightObject, scale⟩
        ((stdSort AbsLessCompare es).map Math.abs)
        = factorB Real.exp Real.rpow ⟨alpha, beta, 0, objectDimension, brightObject, scale⟩
        ((stdSort AbsLessCompare es).map Math.abs) := rfl
    have hCeq : factorScale ⟨alpha, beta, gamma, objectDimension, brightObject, scale⟩
        ((stdSort AbsLessCompare es).map Math.abs)
        = factorScale ⟨alpha, beta, 0, objectDimension, brightObject, scale⟩
        ((stdSort AbsLessCompare es).map Math.abs) := rfl
    rw [hAeq, hBeq, hCeq]
    generalize factorA Real.exp Real.rpow
      ⟨alpha, beta, 0, objectDimension, brightObject, scale⟩
      ((stdSort AbsLessCompare es).map Math.abs) = A at hA0 ⊢
    generalize factorB Real.exp Real.rpow
      ⟨alpha, beta, 0, objectDimension, brightObject, scale⟩
      ((stdSort AbsLessCompare es).map Math.abs) = B at hB0 ⊢
    generalize factorScale ⟨alpha, beta, 0, objectDimension, brightObject, scale⟩
      ((stdSort AbsLessCompare es).map Math.abs) = C at hC0 ⊢
    generalize factorGamma Real.exp
      ⟨alpha, beta, gamma, objectDimension, brightObject, scale⟩
      ((stdSort AbsLessCompare es).map Math.abs) = G at hG0 hG1 ⊢
    have hAB : 0 ≤ A * B := mul_nonneg hA0 hB0
    constructor
    · have : A * B * G ≤ A * B := mul_le_of_le_one_right hAB hG1.le
      exact mul_le_mul_of_nonneg_right this hC0
    · intro hpos
      have hCpos : 0 < C := by
        rcases hC0.lt_or_eq with hc | hc
        · exact hc
        · rw [← hc, mul_zero] at hpos
          exact absurd hpos (lt_irrefl _)
      have hABpos : 0 < A * B := by
        rcases hAB.lt_or_eq with hc | hc
        · exact hc
        · rw [← hc, zero_mul] at hpos
          exact absurd hpos (lt_irrefl _)
      have : A * B * G < A * B := mul_lt_of_lt_one_right hABpos hG1
      exact mul_lt_mul_of_pos_right this hCpos

/-- Witness of C19: `D = 3`, `objectDimension = 1`, dark object, `gamma = 1/2`, eigenvalues
`(1, 8, 9)`. -/
theorem gamma_attenuates_witness :
    ∃ r r0 : ℝ,
      objectnessOfEigenValues Real.exp Real.rpow ⟨1 / 2, 1 / 2, 1 / 2, 1, false, true⟩
        [1, 8, 9] = some r ∧
      objectnessOfEigenValues Real.exp Real.rpow ⟨1 / 2, 1 / 2, 0, 1, false, true⟩
        [1, 8, 9] = some r0 ∧
      r ≤ r0 ∧ (0 < r0 → r < r0) :=
  gamma_attenuates (1 / 2) (1 / 2) (1 / 2) 1 false true [1, 8, 9] (by simp) (by norm_num)

theorem gate_example_dark (i : Nat) :
    ¬ (((false : Bool) = true ∧ (stdSort AbsLessCompare ([1, 8, 9] : List ℝ)).getD i 0 > 0) ∨
       ((false : Bool) = false ∧ (stdSort AbsLessCompare ([1, 8, 9] : List ℝ)).getD i 0 < 0)) := by
  rw [sort_example_dark]
  rintro (⟨hb, _⟩ | ⟨_, hn⟩)
  · exact Bool.noConfusion hb
  · exact absurd hn (not_lt.2 (getD_nonneg _ (by norm_num) i))

theorem example_dark_nonzero (x : ℝ) (hx : x ∈ ([1, 8, 9] : List ℝ)) : x ≠ 0 := by
  simp only [List.mem_cons, List.mem_singleton, List.not_mem_nil, or_false] at hx
  rcases hx with rfl | rfl | rfl <;> norm_num

/-- C11 (end-to-end scenario): for `D = 3`, `objectDimension = 1`,
`alpha = beta = gamma = 0.5`, a dark object and eigenvalues `(1, 8, 9)`, the voxel value is
nonzero (positive) and strictly smaller than the value for the same input with `gamma = 0`,
for either setting of the scale flag. -/
theorem end_to_end_scenario (scale : Bool) :
    ∃ r r0 : ℝ,
      objectnessOfEigenValues Real.exp Real.rpow ⟨0.5, 0.5, 0.5, 1, false, scale⟩
        [1, 8, 9] = some r ∧
      objectnessOfEigenValues Real.exp Real.rpow ⟨0.5, 0.5, 0, 1, false, scale⟩
        [1, 8, 9] = some r0 ∧
      r ≠ 0 ∧ 0 < r ∧ r < r0 := by
  have hpos := map_abs_pos _ example_dark_nonzero
  have hlen : 0 < ((stdSort AbsLessCompare ([1, 8, 9] : List ℝ)).map Math.abs).length := by
    rw [map_abs_length]; simp
  have hhalf : (0.5 : ℝ) ≠ 0 := by norm_num
  have hA := factorA_pos ⟨0.5, 0.5, 0.5, 1, false, scale⟩ _ hpos
  have hB := factorB_pos ⟨0.5, 0.5, 0.5, 1, false, scale⟩ _ hpos (Or.inr hhalf)
  have hG := factorGamma_pos ⟨0.5, 0.5, 0.5, 1, false, scale⟩ _ hpos hlen
  have hG1 := factorGamma_lt_one ⟨0.5, 0.5, 0.5, 1, false, scale⟩
    ((stdSort AbsLessCompare ([1, 8, 9] : List ℝ)).map Math.abs) hhalf
  have hC := factorScale_pos ⟨0.5, 0.5, 0.5, 1, false, scale⟩ _ hpos hlen
  refine ⟨_, _,
    objectness_accepted ⟨0.5, 0.5, 0.5, 1, false, scale⟩ [1, 8, 9] (by simp)
      (fun i _ _ => gate_example_dark i),
    objectness_accepted ⟨0.5, 0.5, 0, 1, false, scale⟩ [1, 8, 9] (by simp)
      (fun i _ _ => gate_example_dark i), ?_⟩
  rw [factorGamma_zero, mul_one]
  have hr := mul_pos (mul_pos (mul_pos hA hB) hG) hC
  refine ⟨hr.ne', hr, ?_⟩
  exact mul_lt_mul_of_pos_right (mul_lt_of_lt_one_right (mul_pos hA hB) hG1) hC

/-! ## Guards of the divisions and of the array reads -/

theorem ratioA_skip (exp : ℝ → ℝ) (pow : ℝ → ℝ → ℝ)
    (self : HessianToObjectnessMeasureImageFilter ℝ) (a : List ℝ)
    (hk : self.m_ObjectDimension < a.length) (m : ℝ)
    (h : (a.drop (self.m_ObjectDimension + 1)).prod = 0 ∨ self.m_Alpha = 0 ∨
      ¬ self.m_ObjectDimension < a.length - 1) :
    ∃ r, ratioA exp pow self a.length a m = some r := by
  have hD : usub a.length 1 = a.length - 1 := usub_of_le _ _ (by omega)
  unfold ratioA
  rw [hD]
  by_cases h1 : self.m_ObjectDimension < a.length - 1
  · rw [if_pos h1, List.getElem?_eq_getElem hk, forLoop_prod a _ (by omega)]
    simp only [Option.bind_eq_bind, Option.some_bind, Math.abs, abs_pos]
    by_cases hP0 : (a.drop (self.m_ObjectDimension + 1)).prod = 0
    · exact ⟨0, by simp [hP0]⟩
    · by_cases hα : self.m_Alpha = 0
      · exact ⟨m, by simp [hP0, hα]⟩
      · tauto
  · exact ⟨m, by rw [if_neg h1]; rfl⟩

theorem ratioA_total (exp : ℝ → ℝ) (pow : ℝ → ℝ → ℝ)
    (hpow : ∀ x e : ℝ, 0 < x → pow x e ≠ 0)
    (self : HessianToObjectnessMeasureImageFilter ℝ) (a : List ℝ)
    (ha : ∀ x ∈ a, 0 ≤ x) (hk : self.m_ObjectDimension < a.length) (m : ℝ) :
    ∃ r, ratioA exp pow self a.length a m = some r := by
  by_cases h : (a.drop (self.m_ObjectDimension + 1)).prod = 0 ∨ self.m_Alpha = 0 ∨
      ¬ self.m_ObjectDimension < a.length - 1
  · exact ratioA_skip exp pow self a hk m h
  · have hP0 : (a.drop (self.m_ObjectDimension + 1)).prod ≠ 0 := by tauto
    have hα : self.m_Alpha ≠ 0 := by tauto
    have h1 : self.m_ObjectDimension < a.length - 1 := by tauto
    have hD : usub a.length 1 = a.length - 1 := usub_of_le _ _ (by omega)
    have hPpos : 0 < (a.drop (self.m_ObjectDimension + 1)).prod :=
      lt_of_le_of_ne (prod_drop_nonneg a ha _) (Ne.symm hP0)
    have hn : usub (usub a.length self.m_ObjectDimension) 1
        = a.length - self.m_ObjectDimension - 1 := by
      rw [usub_of_le a.length self.m_ObjectDimension (by omega), usub_of_le _ 1 (by omega)]
    have hn0 : ((a.length - self.m_ObjectDimension - 1 : Nat) : ℝ) ≠ 0 := by
      have : 0 < a.length - self.m_ObjectDimension - 1 := by omega
      exact_mod_cast this.ne'
    have hα2 : self.m_Alpha * self.m_Alpha ≠ 0 := mul_ne_zero hα hα
    unfold ratioA
    rw [hD, if_pos h1, List.getElem?_eq_getElem hk, forLoop_prod a _ (by omega), hn]
    simp only [Option.bind_eq_bind, Option.some_bind, Math.abs, Math.sqr, abs_pos,
      if_pos hP0, if_pos hα, divide, if_neg hn0, if_neg (hpow _ _ hPpos), if_neg hα2,
      Option.pure_def]
    exact ⟨_, rfl⟩

theorem ratioB_skip (exp : ℝ → ℝ) (pow : ℝ → ℝ → ℝ)
    (self : HessianToObjectnessMeasureImageFilter ℝ) (a : List ℝ)
    (hk : self.m_ObjectDimension < a.length) (m : ℝ)
    (h : (a.drop self.m_ObjectDimension).prod = 0 ∨ self.m_Beta = 0 ∨
      self.m_ObjectDimension = 0) :
    ∃ r, ratioB exp pow self a.length a m = some r := by
  unfold ratioB
  by_cases h0 : self.m_ObjectDimension > 0
  · have hk1 : self.m_ObjectDimension - 1 < a.length := by omega
    rw [if_pos h0, usub_of_le self.m_ObjectDimension 1 (by omega),
      List.getElem?_eq_getElem hk1, forLoop_prod a _ (by omega)]
    simp only [Option.bind_eq_bind, Option.some_bind, Math.abs, abs_pos]
    have hg : ¬ ((a.drop self.m_ObjectDimension).prod ≠ 0 ∧ self.m_Beta ≠ 0) := by
      rcases h with h | h | h
      · tauto
      · tauto
      · omega
    rw [if_neg hg]
    exact ⟨0, rfl⟩
  · exact ⟨m, by rw [if_neg h0]; rfl⟩

theorem ratioB_total (exp : ℝ → ℝ) (pow : ℝ → ℝ → ℝ)
    (hpow : ∀ x e : ℝ, 0 < x → pow x e ≠ 0)
    (self : HessianToObjectnessMeasureImageFilter ℝ) (a : List ℝ)
    (ha : ∀ x ∈ a, 0 ≤ x) (hk : self.m_ObjectDimension < a.length) (m : ℝ) :
    ∃ r, ratioB exp pow self a.length a m = some r := by
  by_cases h : (a.drop self.m_ObjectDimension).prod = 0 ∨ self.m_Beta = 0 ∨
      self.m_ObjectDimension = 0
  · exact ratioB_skip exp pow self a hk m h
  · have hP0 : (a.drop self.m_ObjectDimension).prod ≠ 0 := by tauto
    have hβ : self.m_Beta ≠ 0 := by tauto
    have h0 : self.m_ObjectDimension > 0 := by
      have : self.m_ObjectDimension ≠ 0 := by tauto
      omega
    have hk1 : self.m_ObjectDimension - 1 < a.length := by omega
    have hPpos : 0 < (a.drop self.m_ObjectDimension).prod :=
      lt_of_le_of_ne (prod_drop_nonneg a ha _) (Ne.symm hP0)
    have hn0 : ((a.length - self.m_ObjectDimension : Nat) : ℝ) ≠ 0 := by
      have : 0 < a.length - self.m_ObjectDimension := by omega
      exact_mod_cast this.ne'
    have hβ2 : self.m_Beta * self.m_Beta ≠ 0 := mul_ne_zero hβ hβ
    unfold ratioB
    rw [if_pos h0, usub_of_le self.m_ObjectDimension 1 (by omega),
      List.getElem?_eq_getElem hk1, forLoop_prod a _ (by omega),
      usub_of_le a.length self.m_ObjectDimension (by omega)]
    simp only [Option.bind_eq_bind, Option.some_bind, Math.abs, Math.sqr, abs_pos,
      if_pos (And.intro hP0 hβ), divide, if_neg hn0, if_neg (hpow _ _ hPpos), if_neg hβ2,
      Option.pure_def]
    exact ⟨_, rfl⟩

theorem structureness_total (exp : ℝ → ℝ) (self : HessianToObjectnessMeasureImageFilter ℝ)
    (a : List ℝ) (m : ℝ) : ∃ r, structureness exp self a.length a m = some r := by
  unfold structureness
  by_cases hγ : self.m_Gamma = 0
  · exact ⟨m, by simp [hγ, Math.abs]⟩
  · have hγ2 : self.m_Gamma * self.m_Gamma ≠ 0 := mul_ne_zero hγ hγ
    have hpos : Math.abs self.m_Gamma > 0 := abs_pos.2 hγ
    rw [if_pos hpos, forLoop_sumSqr]
    simp only [Option.bind_eq_bind, Option.some_bind, Math.sqr, divide, if_neg hγ2,
      Option.pure_def]
    exact ⟨_, rfl⟩

theorem structureness_skip (exp : ℝ → ℝ) (self : HessianToObjectnessMeasureImageFilter ℝ)
    (D : Nat) (a : List ℝ) (m : ℝ) (hγ : self.m_Gamma = 0) :
    structureness exp self D a m = some m := by
  unfold structureness
  simp [hγ, Math.abs]

theorem signLoop_total (b : Bool) (s : List α) (n i : Nat) (hn : i + n ≤ s.length) :
    ∃ r, signLoop b s n i = some r := by
  by_cases h : ∃ j, i ≤ j ∧ j < i + n ∧
      ((b = true ∧ s.getD j 0 > 0) ∨ (b = false ∧ s.getD j 0 < 0))
  · exact ⟨false, signLoop_rejects b s n i hn h⟩
  · exact ⟨true, signLoop_accepts b s n i hn (fun j h1 h2 hv => h ⟨j, h1, h2, hv⟩)⟩

theorem objectness_total (exp : ℝ → ℝ) (pow : ℝ → ℝ → ℝ)
    (hpow : ∀ x e : ℝ, 0 < x → pow x e ≠ 0)
    (self : HessianToObjectnessMeasureImageFilter ℝ) (es : List ℝ)
    (hk : self.m_ObjectDimension < es.length) :
    ∃ r, objectnessOfEigenValues exp pow self es = some r := by
  have hlen := stdSort_length AbsLessCompare es
  have hlen' := map_abs_length es
  have hnn := map_abs_nonneg (stdSort AbsLessCompare es)
  unfold objectnessOfEigenValues
  simp only []
  obtain ⟨b, hb⟩ := signLoop_total self.m_BrightObject (stdSort AbsLessCompare es)
    (es.length - self.m_ObjectDimension) self.m_ObjectDimension (by omega)
  rw [hb]
  cases b
  · exact ⟨0, rfl⟩
  · simp only []
    rw [← hlen'] at hk ⊢
    obtain ⟨r1, h1⟩ := ratioA_total exp pow hpow self _ hnn hk 1
    obtain ⟨r2, h2⟩ := ratioB_total exp pow hpow self _ hnn hk r1
    obtain ⟨r3, h3⟩ := structureness_total exp self
      ((stdSort AbsLessCompare es).map Math.abs) r2
    rw [h1, Option.bind_eq_bind, Option.some_bind, h2, Option.some_bind, h3,
      Option.some_bind, scaleMeasure_eq _ _ (by omega)]
    exact ⟨_, rfl⟩

theorem rpow_ne_zero_of_pos (x e : ℝ) (hx : 0 < x) : Real.rpow x e ≠ 0 :=
  (Real.rpow_pos_of_pos hx e).ne'

/-- Division guards, over real arithmetic only: `divide` yields a value only for a nonzero
divisor, so a voxel value that exists was computed with nonzero divisors throughout. With
`objectDimension < D` the value exists for every `exp` and every `pow` that is nonzero on
positive bases. When a guard fails the update returns without any division, whatever `exp`
and `pow` are, and the integer denominators `D - objectDimension - 1` and
`D - objectDimension` of the exponents are at least `1` where they are formed. In `double`
the first part fails: the guards test `abs` of the parameter, the divisors are the squares,
and the square of a tiny nonzero parameter is `0.0`. -/
theorem division_guards (exp : ℝ → ℝ) (pow : ℝ → ℝ → ℝ)
    (hpow : ∀ x e : ℝ, 0 < x → pow x e ≠ 0)
    (self : HessianToObjectnessMeasureImageFilter ℝ) (es a : List ℝ)
    (ha : a = (stdSort AbsLessCompare es).map (fun x => |x|))
    (hk : self.m_ObjectDimension < es.length) :
    (∃ r, objectnessOfEigenValues exp pow self es = some r) ∧
    (∀ (exp' : ℝ → ℝ) (pow' : ℝ → ℝ → ℝ) (m : ℝ),
      ((a.drop (self.m_ObjectDimension + 1)).prod = 0 ∨ self.m_Alpha = 0 ∨
        ¬ self.m_ObjectDimension < es.length - 1) →
      ∃ r, ratioA exp' pow' self es.length a m = some r) ∧
    (∀ (exp' : ℝ → ℝ) (pow' : ℝ → ℝ → ℝ) (m : ℝ),
      ((a.drop self.m_ObjectDimension).prod = 0 ∨ self.m_Beta = 0 ∨
        self.m_ObjectDimension = 0) →
      ∃ r, ratioB exp' pow' self es.length a m = some r) ∧
    (∀ (exp' : ℝ → ℝ) (m : ℝ), self.m_Gamma = 0 →
      structureness exp' self es.length a m = some m) ∧
    (self.m_ObjectDimension < usub es.length 1 →
      1 ≤ usub (usub es.length self.m_ObjectDimension) 1) ∧
    1 ≤ usub es.length self.m_ObjectDimension := by
  subst ha
  rw [map_abs_fun]
  have hlen := map_abs_length es
  refine ⟨objectness_total exp pow hpow self es hk, ?_, ?_, ?_, ?_, ?_⟩
  · intro exp' pow' m h
    rw [← hlen] at hk h ⊢
    exact ratioA_skip exp' pow' self _ hk m h
  · intro exp' pow' m h
    rw [← hlen] at hk ⊢
    exact ratioB_skip exp' pow' self _ hk m h
  · intro exp' m hγ
    exact structureness_skip exp' self _ _ m hγ
  · intro h
    rw [usub_of_le es.length 1 (by omega)] at h
    rw [usub_of_le es.length self.m_ObjectDimension (by omega), usub_of_le _ 1 (by omega)]
    omega
  · rw [usub_of_le es.length self.m_ObjectDimension (by omega)]
    omega

/-- An instance of `division_guards`: `Real.exp`, `Real.rpow`, `D = 3`,
`objectDimension = 1`, eigenvalues `(1, 8, 9)`. -/
theorem division_guards_witness :
    ∃ r, objectnessOfEigenValues Real.exp Real.rpow ⟨1 / 2, 1 / 2, 5, 1, false, true⟩
      [1, 8, 9] = some r :=
  (division_guards Real.exp Real.rpow rpow_ne_zero_of_pos ⟨1 / 2, 1 / 2, 5, 1, false, true⟩
    [1, 8, 9] [|1|, |8|, |9|] (by rw [sort_example_dark]; rfl) (by simp)).1

/-- C18 (per-voxel totality): with `objectDimension < D`, every array read of the voxel
computation is in range (the gate loop, `sortedAbs[objectDimension]`,
`sortedAbs[objectDimension-1]` when `objectDimension > 0`, the two product loops, the sum
loop and `sortedAbs[D-1]` all return a value), the unsigned expressions `D - 1`,
`D - objectDimension - 1`, `D - objectDimension` and `objectDimension - 1` equal the integer
differences where they are evaluated (no wrap-around), and the computation returns a value. -/
theorem voxel_total (self : HessianToObjectnessMeasureImageFilter ℝ) (es s a : List ℝ)
    (hs : s = stdSort AbsLessCompare es) (ha : a = s.map (fun x => |x|))
    (hk : self.m_ObjectDimension < es.length) :
    (∃ b, signLoop self.m_BrightObject s (es.length - self.m_ObjectDimension)
      self.m_ObjectDimension = some b) ∧
    (∃ x, a[self.m_ObjectDimension]? = some x) ∧
    (∃ p, forLoop a (fun acc x => acc * x) (es.length - (self.m_ObjectDimension + 1))
      (self.m_ObjectDimension + 1) 1 = some p) ∧
    (0 < self.m_ObjectDimension → ∃ x, a[usub self.m_ObjectDimension 1]? = some x) ∧
    (∃ p, forLoop a (fun acc x => acc * x) (es.length - self.m_ObjectDimension)
      self.m_ObjectDimension 1 = some p) ∧
    (∃ q, forLoop a (fun acc x => acc + Math.sqr x) es.length 0 0 = some q) ∧
    (∃ x, a[usub es.length 1]? = some x) ∧
    ((usub es.length 1 : Int) = (es.length : Int) - 1) ∧
    (self.m_ObjectDimension < usub es.length 1 →
      (usub (usub es.length self.m_ObjectDimension) 1 : Int)
        = (es.length : Int) - (self.m_ObjectDimension : Int) - 1) ∧
    ((usub es.length self.m_ObjectDimension : Int)
      = (es.length : Int) - (self.m_ObjectDimension : Int)) ∧
    (0 < self.m_ObjectDimension →
      (usub self.m_ObjectDimension 1 : Int) = (self.m_ObjectDimension : Int) - 1) ∧
    (∃ r, objectnessOfEigenValues Real.exp Real.rpow self es = some r) := by
  subst hs ha
  rw [map_abs_fun]
  have hlen := stdSort_length AbsLessCompare es
  have hlen' := map_abs_length es
  have hD1 : usub es.length 1 = es.length - 1 := usub_of_le _ _ (by omega)
  have hDk : usub es.length self.m_ObjectDimension = es.length - self.m_ObjectDimension :=
    usub_of_le _ _ (by omega)
  refine ⟨signLoop_total _ _ _ _ (by omega), ?_, ?_, ?_, ?_, ?_, ?_, ?_, ?_, ?_, ?_,
    objectness_total Real.exp Real.rpow rpow_ne_zero_of_pos self es hk⟩
  · exact ⟨_, List.getElem?_eq_getElem (by omega)⟩
  · rw [← hlen']
    exact ⟨_, forLoop_eq _ _ _ _ _ (by omega)⟩
  · intro h0
    rw [usub_of_le _ 1 (by omega)]
    exact ⟨_, List.getElem?_eq_getElem (by omega)⟩
  · rw [← hlen']
    exact ⟨_, forLoop_eq _ _ _ _ _ (by omega)⟩
  · rw [← hlen']
    exact ⟨_, forLoop_eq _ _ _ _ _ (by omega)⟩
  · rw [hD1]
    exact ⟨_, List.getElem?_eq_getElem (by omega)⟩
  · rw [hD1]
    omega
  · intro h
    rw [hD1] at h
    rw [hDk, usub_of_le _ 1 (by omega)]
    omega
  · rw [hDk]
    omega
  · intro h0
    rw [usub_of_le _ 1 (by omega)]
    omega

/-- Witness of C18: `D = 3`, `objectDimension = 1`, eigenvalues `(1, 8, 9)`. -/
theorem voxel_total_witness :
    ∃ r, objectnessOfEigenValues Real.exp Real.rpow ⟨1 / 2, 1 / 2, 5, 1, false, true⟩
      [1, 8, 9] = some r :=
  (voxel_total ⟨1 / 2, 1 / 2, 5, 1, false, true⟩ [1, 8, 9] [1, 8, 9] [|1|, |8|, |9|]
    sort_example_dark.symm rfl (by simp)).2.2.2.2.2.2.2.2.2.2.2

/-! ## Applicability of the two ratios -/

theorem factorA_not_applied (self : HessianToObjectnessMeasureImageFilter ℝ) (a : List ℝ)
    (h : self.m_ObjectDimension + 1 = a.length) : factorA Real.exp Real.rpow self a = 1 := by
  unfold factorA
  rw [if_neg (by omega)]

theorem factorB_not_applied (self : HessianToObjectnessMeasureImageFilter ℝ) (a : List ℝ)
    (h : self.m_ObjectDimension = 0) : factorB Real.exp Real.rpow self a = 1 := by
  unfold factorB
  rw [if_neg (by omega)]

/-- C14 (term applicability): for `objectDimension = D - 1` the first ratio is not applied
and the voxel value is the same for every alpha; for `objectDimension = 0` (and `D ≥ 1`) the
second ratio is not applied and the voxel value is the same for every beta, `beta = 0`
included; all other inputs held fixed. -/
theorem term_applicability (alpha alpha' beta beta' gamma : ℝ) (objectDimension : Nat)
    (brightObject scale : Bool) (es : List ℝ) (hk : objectDimension + 1 = es.length) :
    (∃ r, objectnessOfEigenValues Real.exp Real.rpow
          ⟨alpha, beta, gamma, objectDimension, brightObject, scale⟩ es = some r ∧
        objectnessOfEigenValues Real.exp Real.rpow
          ⟨alpha', beta, gamma, objectDimension, brightObject, scale⟩ es = some r) ∧
    (∃ r, objectnessOfEigenValues Real.exp Real.rpow
          ⟨alpha, beta, gamma, 0, brightObject, scale⟩ es = some r ∧
        objectnessOfEigenValues Real.exp Real.rpow
          ⟨alpha, beta', gamma, 0, brightObject, scale⟩ es = some r ∧
        objectnessOfEigenValues Real.exp Real.rpow
          ⟨alpha, 0, gamma, 0, brightObject, scale⟩ es = some r) := by
  have hlen := map_abs_length es
  constructor
  · by_cases h : ∃ i, objectDimension ≤ i ∧ i < es.length ∧
        ((brightObject = true ∧ (stdSort AbsLessCompare es).getD i 0 > 0) ∨
         (brightObject = false ∧ (stdSort AbsLessCompare es).getD i 0 < 0))
    · exact ⟨0, objectness_rejected _ _ _ es (by simp only []; omega) h,
        objectness_rejected _ _ _ es (by simp only []; omega) h⟩
    · have h' : ∀ i, objectDimension ≤ i → i < es.length →
          ¬ ((brightObject = true ∧ (stdSort AbsLessCompare es).getD i 0 > 0) ∨
             (brightObject = false ∧ (stdSort AbsLessCompare es).getD i 0 < 0)) :=
        fun i h1 h2 hv => h ⟨i, h1, h2, hv⟩
      refine ⟨_, objectness_accepted
        ⟨alpha, beta, gamma, objectDimension, brightObject, scale⟩ es
        (by simp only []; omega) h', ?_⟩
      rw [objectness_accepted ⟨alpha', beta, gamma, objectDimension, brightObject, scale⟩ es
        (by simp only []; omega) h']
      rw [factorA_not_applied ⟨alpha, beta, gamma, objectDimension, brightObject, scale⟩ _
          (by rw [hlen]; exact hk),
        factorA_not_applied ⟨alpha', beta, gamma, objectDimension, brightObject, scale⟩ _
          (by rw [hlen]; exact hk)]
      rfl
  · by_cases h : ∃ i, 0 ≤ i ∧ i < es.length ∧
        ((brightObject = true ∧ (stdSort AbsLessCompare es).getD i 0 > 0) ∨
         (brightObject = false ∧ (stdSort AbsLessCompare es).getD i 0 < 0))
    · exact ⟨0, objectness_rejected _ _ _ es (Nat.zero_le _) h,
        objectness_rejected _ _ _ es (Nat.zero_le _) h,
        objectness_rejected _ _ _ es (Nat.zero_le _) h⟩
    · have h' : ∀ i, 0 ≤ i → i < es.length →
          ¬ ((brightObject = true ∧ (stdSort AbsLessCompare es).getD i 0 > 0) ∨
             (brightObject = false ∧ (stdSort AbsLessCompare es).getD i 0 < 0)) :=
        fun i h1 h2 hv => h ⟨i, h1, h2, hv⟩
      have hpos : 0 < es.length := by omega
      refine ⟨_, objectness_accepted ⟨alpha, beta, gamma, 0, brightObject, scale⟩ es
        hpos h', ?_, ?_⟩
      · rw [objectness_accepted ⟨alpha, beta', gamma, 0, brightObject, scale⟩ es hpos h',
          factorB_not_applied ⟨alpha, beta, gamma, 0, brightObject, scale⟩ _ rfl,
          factorB_not_applied ⟨alpha, beta', gamma, 0, brightObject, scale⟩ _ rfl]
        rfl
      · rw [objectness_accepted ⟨alpha, 0, gamma, 0, brightObject, scale⟩ es hpos h',
          factorB_not_applied ⟨alpha, beta, gamma, 0, brightObject, scale⟩ _ rfl,
          factorB_not_applied ⟨alpha, 0, gamma, 0, brightObject, scale⟩ _ rfl]
        rfl

/-- Witness of C14: `D = 3`, `objectDimension = 2`, eigenvalues `(1, 8, 9)`, `alpha = 1/2`
against `alpha = 7`, `beta = 1/2` against `beta = 3`. -/
theorem term_applicability_witness :
    (∃ r, objectnessOfEigenValues Real.exp Real.rpow ⟨1 / 2, 1 / 2, 5, 2, false, true⟩
          [1, 8, 9] = some r ∧
        objectnessOfEigenValues Real.exp Real.rpow ⟨7, 1 / 2, 5, 2, false, true⟩
          [1, 8, 9] = some r) ∧
    (∃ r, objectnessOfEigenValues Real.exp Real.rpow ⟨1 / 2, 1 / 2, 5, 0, false, true⟩
          [1, 8, 9] = some r ∧
        objectnessOfEigenValues Real.exp Real.rpow ⟨1 / 2, 3, 5, 0, false, true⟩
          [1, 8, 9] = some r ∧
        objectnessOfEigenValues Real.exp Real.rpow ⟨1 / 2, 0, 5, 0, false, true⟩
          [1, 8, 9] = some r) :=
  term_applicability (1 / 2) 7 (1 / 2) 3 5 2 false true [1, 8, 9] (by simp)

/-! ## Permuted eigenvalues -/

theorem objectness_congr (exp : α → α) (pow : α → α → α)
    (self : HessianToObjectnessMeasureImageFilter α) (es es' : List α)
    (hlen : es'.length = es.length)
    (hsort : stdSort AbsLessCompare es' = stdSort AbsLessCompare es) :
    objectnessOfEigenValues exp pow self es' = objectnessOfEigenValues exp pow self es := by
  unfold objectnessOfEigenValues
  rw [hlen, hsort]

theorem stdSort_eq_of_perm (es es' : List α) (hp : es'.Perm es)
    (hinj : ∀ x ∈ es, ∀ y ∈ es, |x| = |y| → x = y) :
    stdSort AbsLessCompare es' = stdSort AbsLessCompare es := by
  haveI : IsAntisymm α (fun a b => |a| ≤ |b| ∧ (|a| = |b| → a = b)) :=
    ⟨fun a b h1 h2 => h1.2 (le_antisymm h1.1 h2.1)⟩
  have hp' : (stdSort AbsLessCompare es').Perm (stdSort AbsLessCompare es) :=
    ((stdSort_perm _ es').trans hp).trans (stdSort_perm _ es).symm
  have h2 : (stdSort AbsLessCompare es).Pairwise
      (fun a b => |a| ≤ |b| ∧ (|a| = |b| → a = b)) :=
    (stdSort_sorted es).imp_of_mem (fun ha hb hab =>
      ⟨hab, hinj _ ((stdSort_perm _ es).mem_iff.1 ha) _ ((stdSort_perm _ es).mem_iff.1 hb)⟩)
  have h1 : (stdSort AbsLessCompare es').Pairwise
      (fun a b => |a| ≤ |b| ∧ (|a| = |b| → a = b)) :=
    (stdSort_sorted es').imp_of_mem (fun ha hb hab =>
      ⟨hab, hinj _ (hp.mem_iff.1 ((stdSort_perm _ es').mem_iff.1 ha)) _
        (hp.mem_iff.1 ((stdSort_perm _ es').mem_iff.1 hb))⟩)
  exact List.eq_of_perm_of_sorted hp' h1 h2

/-- C20 as the code has it (the response and the order of the eigenvalues): when no two
eigenvalues of the tuple have the same magnitude and different sign (`|x| = |y|` only for
`x = y`), the voxel value computed from any permutation of the tuple equals the value
computed from the tuple itself. -/
theorem response_of_permutation (self : HessianToObjectnessMeasureImageFilter ℝ)
    (es es' : List ℝ) (hp : es'.Perm es)
    (hinj : ∀ x ∈ es, ∀ y ∈ es, |x| = |y| → x = y) :
    stdSort AbsLessCompare es' = stdSort AbsLessCompare es ∧
    objectnessOfEigenValues Real.exp Real.rpow self es'
      = objectnessOfEigenValues Real.exp Real.rpow self es :=
  ⟨stdSort_eq_of_perm es es' hp hinj,
    objectness_congr _ _ self es es' hp.length_eq (stdSort_eq_of_perm es es' hp hinj)⟩

theorem example_dark_injective (x : ℝ) (hx : x ∈ ([1, 8, 9] : List ℝ)) (y : ℝ)
    (hy : y ∈ ([1, 8, 9] : List ℝ)) (h : |x| = |y|) : x = y := by
  simp only [List.mem_cons, List.mem_singleton, List.not_mem_nil, or_false] at hx hy
  rcases hx with rfl | rfl | rfl <;> rcases hy with rfl | rfl | rfl <;> norm_num at h ⊢

/-- Witness of C20 as amended: the tuple `(1, 8, 9)` and its permutation `(9, 1, 8)`. -/
theorem response_of_permutation_witness :
    stdSort AbsLessCompare ([9, 1, 8] : List ℝ) = stdSort AbsLessCompare [1, 8, 9] ∧
    objectnessOfEigenValues Real.exp Real.rpow ⟨1 / 2, 1 / 2, 5, 1, false, true⟩ [9, 1, 8]
      = objectnessOfEigenValues Real.exp Real.rpow ⟨1 / 2, 1 / 2, 5, 1, false, true⟩
        [1, 8, 9] :=
  response_of_permutation ⟨1 / 2, 1 / 2, 5, 1, false, true⟩ [1, 8, 9] [9, 1, 8]
    ((List.Perm.swap 1 9 [8]).trans (List.Perm.cons 1 (List.Perm.swap 8 9 [])))
    example_dark_injective

theorem sort_example_tie_first :
    stdSort AbsLessCompare ([2, -2] : List ℝ) = [2, -2] := by
  norm_num [stdSort, linearInsert, AbsLessCompare]

theorem sort_example_tie_second :
    stdSort AbsLessCompare ([-2, 2] : List ℝ) = [-2, 2] := by
  norm_num [stdSort, linearInsert, AbsLessCompare]

theorem example_tie_nonzero (x : ℝ) (hx : x ∈ ([2, -2] : List ℝ)) : x ≠ 0 := by
  simp only [List.mem_cons, List.mem_singleton, List.not_mem_nil, or_false] at hx
  rcases hx with rfl | rfl <;> norm_num

/-- Counterexample to C20 as stated: `D = 2`, `objectDimension = 1`, bright object,
`beta = 1`, `gamma = 0`, no scaling. The tuples `(2, -2)` and `(-2, 2)` are permutations of
each other; the sort keeps the order of the two entries of equal magnitude, so the gate reads
`sorted[1] = -2` for the first (accepted, positive value) and `sorted[1] = 2` for the second
(rejected, value `0`). -/
theorem response_depends_on_tie_order :
    List.Perm ([-2, 2] : List ℝ) [2, -2] ∧
    (∃ r : ℝ, 0 < r ∧
      objectnessOfEigenValues Real.exp Real.rpow ⟨1 / 2, 1, 0, 1, true, false⟩ [2, -2]
        = some r) ∧
    objectnessOfEigenValues Real.exp Real.rpow ⟨1 / 2, 1, 0, 1, true, false⟩ [-2, 2]
      = some 0 ∧
    objectnessOfEigenValues Real.exp Real.rpow ⟨1 / 2, 1, 0, 1, true, false⟩ [2, -2]
      ≠ objectnessOfEigenValues Real.exp Real.rpow ⟨1 / 2, 1, 0, 1, true, false⟩ [-2, 2] := by
  have hacc : objectnessOfEigenValues Real.exp Real.rpow ⟨1 / 2, 1, 0, 1, true, false⟩
      [2, -2] = _ :=
    objectness_accepted ⟨1 / 2, 1, 0, 1, true, false⟩ [2, -2] (by simp) (by
      intro i h1 h2
      rw [sort_example_tie_first]
      have hi : i = 1 := by
        simp only [List.length_cons, List.length_nil] at h2
        simp only [] at h1
        omega
      subst hi
      norm_num)
  have hrej : objectnessOfEigenValues Real.exp Real.rpow ⟨1 / 2, 1, 0, 1, true, false⟩
      [-2, 2] = some 0 :=
    objectness_rejected _ _ ⟨1 / 2, 1, 0, 1, true, false⟩ [-2, 2] (by simp)
      ⟨1, le_refl _, by simp, Or.inl ⟨rfl, by rw [sort_example_tie_second]; norm_num⟩⟩
  have hpos := map_abs_pos _ example_tie_nonzero
  have hlen : 0 < ((stdSort AbsLessCompare ([2, -2] : List ℝ)).map Math.abs).length := by
    rw [map_abs_length]; simp
  have hA := factorA_pos ⟨1 / 2, 1, 0, 1, true, false⟩ _ hpos
  have hB := factorB_pos ⟨1 / 2, 1, 0, 1, true, false⟩ _ hpos (Or.inr one_ne_zero)
  have hG := factorGamma_pos ⟨1 / 2, 1, 0, 1, true, false⟩ _ hpos hlen
  have hC := factorScale_pos ⟨1 / 2, 1, 0, 1, true, false⟩ _ hpos hlen
  have hr := mul_pos (mul_pos (mul_pos hA hB) hG) hC
  refine ⟨List.Perm.swap 2 (-2) [], ⟨_, hr, hacc⟩, hrej, ?_⟩
  rw [hacc, hrej]
  intro h
  exact hr.ne' (Option.some.inj h)

/-! ## Proportional eigenvalues -/

theorem absLessCompare_mul (c : ℝ) (hc : 0 < c) (x y : ℝ) :
    AbsLessCompare (c * x) (c * y) = AbsLessCompare x y := by
  unfold AbsLessCompare
  rw [abs_mul, abs_mul, abs_of_pos hc]
  exact decide_eq_decide.2 (mul_lt_mul_left hc)

theorem linearInsert_map_mul (c : ℝ) (hc : 0 < c) (v : ℝ) (l : List ℝ) :
    linearInsert AbsLessCompare (c * v) (l.map (fun x => c * x))
      = (linearInsert AbsLessCompare v l).map (fun x => c * x) := by
  induction l with
  | nil => rfl
  | cons y ys ih =>
    simp only [List.map_cons, linearInsert, absLessCompare_mul c hc]
    split
    · rfl
    · rw [List.map_cons, ih]

theorem foldl_linearInsert_map_mul (c : ℝ) (hc : 0 < c) (xs acc : List ℝ) :
    (xs.map (fun x => c * x)).foldl
        (fun sortedPart val => linearInsert AbsLessCompare val sortedPart)
        (acc.map (fun x => c * x))
      = (xs.foldl (fun sortedPart val => linearInsert AbsLessCompare val sortedPart) acc).map
        (fun x => c * x) := by
  induction xs generalizing acc with
  | nil => rfl
  | cons x xs ih =>
    simp only [List.map_cons, List.foldl_cons]
    rw [linearInsert_map_mul c hc, ih]

theorem stdSort_map_mul (c : ℝ) (hc : 0 < c) (es : List ℝ) :
    stdSort AbsLessCompare (es.map (fun x => c * x))
      = (stdSort AbsLessCompare es).map (fun x => c * x) := by
  unfold stdSort
  exact foldl_linearInsert_map_mul c hc es []

theorem map_abs_map_mul (c : ℝ) (hc : 0 < c) (s : List ℝ) :
    (s.map (fun x => c * x)).map Math.abs = (s.map Math.abs).map (fun x => c * x) := by
  rw [List.map_map, List.map_map]
  apply List.map_congr_left
  intro x _
  simp only [Function.comp, Math.abs]
  rw [abs_mul, abs_of_pos hc]

theorem getD_map_mul (c : ℝ) (l : List ℝ) (i : Nat) :
    (l.map (fun x => c * x)).getD i 0 = c * l.getD i 0 := by
  by_cases h : i < l.length
  · rw [List.getD_eq_getElem _ _ (by simpa using h), List.getD_eq_getElem _ _ h,
      List.getElem_map]
  · rw [List.getD_eq_default _ _ (by simpa using h), List.getD_eq_default _ _ (by omega),
      mul_zero]

theorem prod_map_mul (c : ℝ) (l : List ℝ) :
    (l.map (fun x => c * x)).prod = c ^ l.length * l.prod := by
  induction l with
  | nil => simp
  | cons x xs ih =>
    rw [List.map_cons, List.prod_cons, ih, List.length_cons, List.prod_cons, pow_succ]
    ring

theorem rpow_scaled_prod (c P : ℝ) (hc : 0 < c) (hP : 0 ≤ P) (n : Nat) (hn : n ≠ 0) :
    Real.rpow (c ^ n * P) (1 / (n : ℝ)) = c * Real.rpow P (1 / (n : ℝ)) := by
  show (c ^ n * P) ^ (1 / (n : ℝ)) = c * P ^ (1 / (n : ℝ))
  rw [Real.mul_rpow (pow_nonneg hc.le n) hP, one_div, Real.pow_rpow_inv_natCast hc.le hn]

theorem factorA_map_mul (self : HessianToObjectnessMeasureImageFilter ℝ) (a : List ℝ)
    (ha : ∀ x ∈ a, 0 ≤ x) (c : ℝ) (hc : 0 < c) :
    factorA Real.exp Real.rpow self (a.map (fun x => c * x))
      = factorA Real.exp Real.rpow self a := by
  unfold factorA
  rw [List.length_map]
  by_cases h1 : self.m_ObjectDimension + 1 < a.length
  · have hP := prod_drop_nonneg a ha (self.m_ObjectDimension + 1)
    have hlen : (a.drop (self.m_ObjectDimension + 1)).length
        = a.length - self.m_ObjectDimension - 1 := by
      rw [List.length_drop]; omega
    have hn : a.length - self.m_ObjectDimension - 1 ≠ 0 := by omega
    rw [if_pos h1, if_pos h1, ← List.map_drop, prod_map_mul, hlen, getD_map_mul]
    by_cases hP0 : (a.drop (self.m_ObjectDimension + 1)).prod = 0
    · rw [if_pos hP0, if_pos (by rw [hP0, mul_zero])]
    · rw [if_neg hP0, if_neg (mul_ne_zero (pow_ne_zero _ hc.ne') hP0),
        rpow_scaled_prod c _ hc hP _ hn, mul_div_mul_left _ _ hc.ne']
  · rw [if_neg h1, if_neg h1]

theorem factorB_map_mul (self : HessianToObjectnessMeasureImageFilter ℝ) (a : List ℝ)
    (ha : ∀ x ∈ a, 0 ≤ x) (hk : self.m_ObjectDimension < a.length) (c : ℝ) (hc : 0 < c) :
    factorB Real.exp Real.rpow self (a.map (fun x => c * x))
      = factorB Real.exp Real.rpow self a := by
  unfold factorB
  rw [List.length_map]
  by_cases h0 : 0 < self.m_ObjectDimension
  · have hP := prod_drop_nonneg a ha self.m_ObjectDimension
    have hlen : (a.drop self.m_ObjectDimension).length
        = a.length - self.m_ObjectDimension := List.length_drop _ _
    have hn : a.length - self.m_ObjectDimension ≠ 0 := by omega
    rw [if_pos h0, if_pos h0, ← List.map_drop, prod_map_mul, hlen, getD_map_mul]
    by_cases hg : (a.drop self.m_ObjectDimension).prod = 0 ∨ self.m_Beta = 0
    · have hg' : c ^ (a.length - self.m_ObjectDimension)
          * (a.drop self.m_ObjectDimension).prod = 0 ∨ self.m_Beta = 0 := by
        rcases hg with h | h
        · exact Or.inl (by rw [h, mul_zero])
        · exact Or.inr h
      rw [if_pos hg, if_pos hg']
    · have hg' : ¬ (c ^ (a.length - self.m_ObjectDimension)
          * (a.drop self.m_ObjectDimension).prod = 0 ∨ self.m_Beta = 0) := by
        rintro (h | h)
        · rcases mul_eq_zero.1 h with h | h
          · exact pow_ne_zero _ hc.ne' h
          · exact hg (Or.inl h)
        · exact hg (Or.inr h)
      rw [if_neg hg, if_neg hg', rpow_scaled_prod c _ hc hP _ hn,
        mul_div_mul_left _ _ hc.ne']
  · rw [if_neg h0, if_neg h0]

theorem factorScale_map_mul (self : HessianToObjectnessMeasureImageFilter ℝ) (a : List ℝ)
    (c : ℝ) :
    factorScale self (a.map (fun x => c * x))
      = (if self.m_ScaleObjectnessMeasure then c else 1) * factorScale self a := by
  unfold factorScale
  rw [List.length_map, getD_map_mul]
  cases self.m_ScaleObjectnessMeasure
  · simp
  · simp

theorem objectness_map_mul (alpha beta : ℝ) (objectDimension : Nat)
    (brightObject scale : Bool) (es : List ℝ) (c : ℝ) (hc : 0 < c)
    (hk : objectDimension < es.length) :
    ∃ r : ℝ,
      objectnessOfEigenValues Real.exp Real.rpow
        ⟨alpha, beta, 0, objectDimension, brightObject, scale⟩ es = some r ∧
      objectnessOfEigenValues Real.exp Real.rpow
        ⟨alpha, beta, 0, objectDimension, brightObject, scale⟩ (es.map (fun x => c * x))
        = some ((if scale then c else 1) * r) := by
  have hk' : objectDimension < (es.map (fun x => c * x)).length := by
    rw [List.length_map]; exact hk
  have hsign : ∀ i, ((brightObject = true ∧
        (stdSort AbsLessCompare (es.map (fun x => c * x))).getD i 0 > 0) ∨
      (brightObject = false ∧
        (stdSort AbsLessCompare (es.map (fun x => c * x))).getD i 0 < 0))
      ↔ ((brightObject = true ∧ (stdSort AbsLessCompare es).getD i 0 > 0) ∨
      (brightObject = false ∧ (stdSort AbsLessCompare es).getD i 0 < 0)) := by
    intro i
    rw [stdSort_map_mul c hc, getD_map_mul]
    have h1 : c * (stdSort AbsLessCompare es).getD i 0 > 0
        ↔ (stdSort AbsLessCompare es).getD i 0 > 0 := by
      constructor
      · intro h; exact (pos_iff_pos_of_mul_pos h).1 hc
      · intro h; exact mul_pos hc h
    have h2 : c * (stdSort AbsLessCompare es).getD i 0 < 0
        ↔ (stdSort AbsLessCompare es).getD i 0 < 0 := by
      constructor
      · intro h
        by_contra hn
        exact absurd h (not_lt.2 (mul_nonneg hc.le (not_lt.1 hn)))
      · intro h; exact mul_neg_of_pos_of_neg hc h
    rw [h1, h2]
  by_cases h : ∃ i, objectDimension ≤ i ∧ i < es.length ∧
      ((brightObject = true ∧ (stdSort AbsLessCompare es).getD i 0 > 0) ∨
       (brightObject = false ∧ (stdSort AbsLessCompare es).getD i 0 < 0))
  · refine ⟨0, objectness_rejected _ _ _ es hk.le h, ?_⟩
    rw [mul_zero]
    obtain ⟨i, h1, h2, h3⟩ := h
    exact objectness_rejected _ _ _ _ hk'.le
      ⟨i, h1, by rw [List.length_map]; exact h2, (hsign i).2 h3⟩
  · have h' : ∀ i, objectDimension ≤ i → i < es.length →
        ¬ ((brightObject = true ∧ (stdSort AbsLessCompare es).getD i 0 > 0) ∨
           (brightObject = false ∧ (stdSort AbsLessCompare es).getD i 0 < 0)) :=
      fun i h1 h2 hv => h ⟨i, h1, h2, hv⟩
    refine ⟨_, objectness_accepted
      ⟨alpha, beta, 0, objectDimension, brightObject, scale⟩ es hk h', ?_⟩
    rw [objectness_accepted ⟨alpha, beta, 0, objectDimension, brightObject, scale⟩
      (es.map (fun x => c * x)) hk'
      (fun i h1 h2 hv => h' i h1 (by rw [List.length_map] at h2; exact h2) ((hsign i).1 hv))]
    have hnn := map_abs_nonneg (stdSort AbsLessCompare es)
    have hlen := map_abs_length es
    rw [stdSort_map_mul c hc, map_abs_map_mul c hc,
      factorA_map_mul _ _ hnn c hc,
      factorB_map_mul _ _ hnn (by rw [hlen]; exact hk) c hc,
      factorScale_map_mul, factorGamma_zero, factorGamma_zero]
    congr 1
    ring

theorem gate_dark_of_nonneg (es : List ℝ) (h : ∀ x ∈ es, 0 ≤ x) (i : Nat) :
    ¬ (((false : Bool) = true ∧ (stdSort AbsLessCompare es).getD i 0 > 0) ∨
       ((false : Bool) = false ∧ (stdSort AbsLessCompare es).getD i 0 < 0)) := by
  rintro (⟨hb, _⟩ | ⟨_, hn⟩)
  · exact Bool.noConfusion hb
  · exact absurd hn (not_lt.2 (getD_nonneg _
      (fun x hx => h x ((stdSort_perm _ es).mem_iff.1 hx)) i))

/-- C12 as the code has it (scale invariance), over real arithmetic: with
`ScaleObjectnessMeasure` cleared and `gamma = 0`, for `objectDimension < D` and every
constant `c > 0`, the voxel value of the tuple with all eigenvalues multiplied by `c` exists
and equals the value of the original tuple. -/
theorem scale_invariance_without_gamma (alpha beta : ℝ) (objectDimension : Nat)
    (brightObject : Bool) (es : List ℝ) (c : ℝ) (hc : 0 < c)
    (hk : objectDimension < es.length) :
    ∃ r : ℝ,
      objectnessOfEigenValues Real.exp Real.rpow
        ⟨alpha, beta, 0, objectDimension, brightObject, false⟩ es = some r ∧
      objectnessOfEigenValues Real.exp Real.rpow
        ⟨alpha, beta, 0, objectDimension, brightObject, false⟩ (es.map (fun x => c * x))
        = some r := by
  obtain ⟨r, h1, h2⟩ := objectness_map_mul alpha beta objectDimension brightObject false
    es c hc hk
  refine ⟨r, h1, ?_⟩
  rw [h2]
  simp

/-- Witness of C12 as amended: `D = 3`, `objectDimension = 1`, dark object, eigenvalues
`(1, 8, 9)` multiplied by `2`. -/
theorem scale_invariance_without_gamma_witness :
    ∃ r : ℝ,
      objectnessOfEigenValues Real.exp Real.rpow ⟨1 / 2, 1 / 2, 0, 1, false, false⟩
        [1, 8, 9] = some r ∧
      objectnessOfEigenValues Real.exp Real.rpow ⟨1 / 2, 1 / 2, 0, 1, false, false⟩
        (([1, 8, 9] : List ℝ).map (fun x => 2 * x)) = some r :=
  scale_invariance_without_gamma (1 / 2) (1 / 2) 1 false [1, 8, 9] 2 (by norm_num) (by simp)

theorem sort_example_doubled :
    stdSort AbsLessCompare ([2, 16, 18] : List ℝ) = [2, 16, 18] := by
  norm_num [stdSort, linearInsert, AbsLessCompare]

theorem objectness_example_blob :
    objectnessOfEigenValues Real.exp Real.rpow ⟨0, 1 / 2, 10, 0, false, false⟩ [1, 8, 9]
      = some (1 - Real.exp (-(73 / 100))) := by
  rw [objectness_accepted ⟨0, 1 / 2, 10, 0, false, false⟩ [1, 8, 9] (by simp)
    (fun i _ _ => gate_dark_of_nonneg _ (by norm_num) i), sort_example_dark]
  norm_num [factorA, factorB, factorGamma, factorScale, Math.abs]

theorem objectness_example_blob_doubled :
    objectnessOfEigenValues Real.exp Real.rpow ⟨0, 1 / 2, 10, 0, false, false⟩ [2, 16, 18]
      = some (1 - Real.exp (-(73 / 25))) := by
  rw [objectness_accepted ⟨0, 1 / 2, 10, 0, false, false⟩ [2, 16, 18] (by simp)
    (fun i _ _ => gate_dark_of_nonneg _ (by norm_num) i), sort_example_doubled]
  norm_num [factorA, factorB, factorGamma, factorScale, Math.abs]

/-- Counterexample to C12 as stated: `D = 3`, `objectDimension = 0`, dark object,
`alpha = 0`, `gamma = 10`, `ScaleObjectnessMeasure` cleared. The tuple `(1, 8, 9)` has the
value `1 - exp(-0.73)` (about `0.518`), the tuple multiplied by `2` the value
`1 - exp(-2.92)` (about `0.946`). -/
theorem scale_invariance_fails_with_gamma :
    ([1, 8, 9] : List ℝ).map (fun x => 2 * x) = [2, 16, 18] ∧
    objectnessOfEigenValues Real.exp Real.rpow ⟨0, 1 / 2, 10, 0, false, false⟩ [1, 8, 9]
      = some (1 - Real.exp (-(73 / 100))) ∧
    objectnessOfEigenValues Real.exp Real.rpow ⟨0, 1 / 2, 10, 0, false, false⟩
        (([1, 8, 9] : List ℝ).map (fun x => 2 * x))
      = some (1 - Real.exp (-(73 / 25))) ∧
    objectnessOfEigenValues Real.exp Real.rpow ⟨0, 1 / 2, 10, 0, false, false⟩
        (([1, 8, 9] : List ℝ).map (fun x => 2 * x))
      ≠ objectnessOfEigenValues Real.exp Real.rpow ⟨0, 1 / 2, 10, 0, false, false⟩
        [1, 8, 9] := by
  have hmap : ([1, 8, 9] : List ℝ).map (fun x => 2 * x) = [2, 16, 18] := by
    norm_num
  refine ⟨hmap, objectness_example_blob, ?_, ?_⟩
  · rw [hmap]
    exact objectness_example_blob_doubled
  · rw [hmap, objectness_example_blob, objectness_example_blob_doubled]
    intro h
    have h1 : Real.exp (-(73 / 25)) = Real.exp (-(73 / 100)) := by
      have := Option.some.inj h
      linarith
    have h2 := Real.exp_injective h1
    norm_num at h2

/-! ## The limit of small alpha -/

theorem tendsto_one_sub_exp (q : ℝ) (hq : 0 < q) :
    Filter.Tendsto (fun x : ℝ => 1 - Real.exp (-q / (2 * x ^ 2)))
      (nhdsWithin 0 (Set.Ioi 0)) (nhds 1) := by
  have h1 : Filter.Tendsto (fun x : ℝ => x⁻¹) (nhdsWithin 0 (Set.Ioi 0)) Filter.atTop :=
    tendsto_inv_zero_atTop
  have h2 : Filter.Tendsto (fun x : ℝ => (x⁻¹) ^ 2) (nhdsWithin 0 (Set.Ioi 0))
      Filter.atTop :=
    (Filter.tendsto_pow_atTop two_ne_zero).comp h1
  have h3 : Filter.Tendsto (fun x : ℝ => q / 2 * (x⁻¹) ^ 2) (nhdsWithin 0 (Set.Ioi 0))
      Filter.atTop :=
    h2.const_mul_atTop (by positivity)
  have h4 : Filter.Tendsto (fun x : ℝ => -(q / 2 * (x⁻¹) ^ 2)) (nhdsWithin 0 (Set.Ioi 0))
      Filter.atBot :=
    Filter.tendsto_neg_atTop_atBot.comp h3
  have h5 : Filter.Tendsto (fun x : ℝ => Real.exp (-(q / 2 * (x⁻¹) ^ 2)))
      (nhdsWithin 0 (Set.Ioi 0)) (nhds 0) :=
    Real.tendsto_exp_atBot.comp h4
  have h6 : (fun x : ℝ => 1 - Real.exp (-q / (2 * x ^ 2)))
      = (fun x : ℝ => 1 - Real.exp (-(q / 2 * (x⁻¹) ^ 2))) := by
    funext x
    congr 2
    rw [inv_pow]
    ring
  rw [h6]
  have h7 := (tendsto_const_nhds (x := (1 : ℝ))).sub h5
  rwa [sub_zero] at h7

theorem factorA_tendsto (beta gamma : ℝ) (objectDimension : Nat)
    (brightObject scale : Bool) (a : List ℝ) (ha : ∀ x ∈ a, 0 ≤ x)
    (hk : objectDimension + 1 < a.length)
    (hP : (a.drop (objectDimension + 1)).prod ≠ 0) (hak : a.getD objectDimension 0 ≠ 0) :
    Filter.Tendsto
      (fun alpha : ℝ => factorA Real.exp Real.rpow
        ⟨alpha, beta, gamma, objectDimension, brightObject, scale⟩ a)
      (nhdsWithin 0 (Set.Ioi 0))
      (nhds (factorA Real.exp Real.rpow
        ⟨0, beta, gamma, objectDimension, brightObject, scale⟩ a)) := by
  have hPpos : 0 < (a.drop (objectDimension + 1)).prod :=
    lt_of_le_of_ne (prod_drop_nonneg a ha _) (Ne.symm hP)
  have hakpos : 0 < a.getD objectDimension 0 :=
    lt_of_le_of_ne (getD_nonneg a ha _) (Ne.symm hak)
  have hq : 0 < (a.getD objectDimension 0 /
      Real.rpow (a.drop (objectDimension + 1)).prod
        (1 / ((a.length - objectDimension - 1 : Nat) : ℝ))) ^ 2 :=
    pow_pos (div_pos hakpos (Real.rpow_pos_of_pos hPpos _)) 2
  have h0 : factorA Real.exp Real.rpow
      ⟨0, beta, gamma, objectDimension, brightObject, scale⟩ a = 1 := by
    unfold factorA
    rw [if_pos hk, if_neg hP, if_pos rfl]
  rw [h0]
  refine (tendsto_one_sub_exp _ hq).congr' ?_
  refine eventually_nhdsWithin_of_forall (fun x hx => ?_)
  have hx0 : x ≠ 0 := ne_of_gt hx
  simp only [factorA]
  rw [if_pos hk, if_neg hP, if_neg hx0]

/-- C13 as the code has it (zero-alpha limit): for `objectDimension < D - 1` and a voxel
that passes the sign gate, whose term-A denominator product is nonzero and whose eigenvalue
`s[objectDimension]` is nonzero, the voxel value at `alpha = 0` equals the limit of the
voxel value as alpha tends to `0` from above, all other parameters fixed. -/
theorem zero_alpha_limit (beta gamma : ℝ) (objectDimension : Nat)
    (brightObject scale : Bool) (es s a : List ℝ)
    (hs : s = stdSort AbsLessCompare es) (ha : a = s.map (fun x => |x|))
    (hk : objectDimension < es.length - 1)
    (hgate : ∀ i, objectDimension ≤ i → i < es.length →
      ¬ ((brightObject = true ∧ s.getD i 0 > 0) ∨ (brightObject = false ∧ s.getD i 0 < 0)))
    (hA : (a.drop (objectDimension + 1)).prod ≠ 0)
    (hsk : s.getD objectDimension 0 ≠ 0) :
    ∃ f : ℝ → ℝ,
      (∀ alpha : ℝ, objectnessOfEigenValues Real.exp Real.rpow
        ⟨alpha, beta, gamma, objectDimension, brightObject, scale⟩ es = some (f alpha)) ∧
      Filter.Tendsto f (nhdsWithin 0 (Set.Ioi 0)) (nhds (f 0)) := by
  subst hs ha
  rw [map_abs_fun] at hA
  have hlen := map_abs_length es
  refine ⟨fun alpha =>
    factorA Real.exp Real.rpow ⟨alpha, beta, gamma, objectDimension, brightObject, scale⟩
        ((stdSort AbsLessCompare es).map Math.abs)
      * factorB Real.exp Real.rpow ⟨alpha, beta, gamma, objectDimension, brightObject, scale⟩
        ((stdSort AbsLessCompare es).map Math.abs)
      * factorGamma Real.exp ⟨alpha, beta, gamma, objectDimension, brightObject, scale⟩
        ((stdSort AbsLessCompare es).map Math.abs)
      * factorScale ⟨alpha, beta, gamma, objectDimension, brightObject, scale⟩
        ((stdSort AbsLessCompare es).map Math.abs),
    fun alpha => objectness_accepted
      ⟨alpha, beta, gamma, objectDimension, brightObject, scale⟩ es (by simp only []; omega)
      hgate, ?_⟩
  have hak : ((stdSort AbsLessCompare es).map Math.abs).getD objectDimension 0 ≠ 0 := by
    rw [getD_map_abs]
    exact abs_ne_zero.2 hsk
  have hFA := factorA_tendsto beta gamma objectDimension brightObject scale
    ((stdSort AbsLessCompare es).map Math.abs) (map_abs_nonneg _) (by rw [hlen]; omega)
    hA hak
  exact ((hFA.mul_const _).mul_const _).mul_const _

/-- Witness of C13 as amended: `D = 3`, `objectDimension = 1`, dark object, eigenvalues
`(1, 8, 9)`. -/
theorem zero_alpha_limit_witness :
    ∃ f : ℝ → ℝ,
      (∀ alpha : ℝ, objectnessOfEigenValues Real.exp Real.rpow
        ⟨alpha, 1 / 2, 5, 1, false, true⟩ [1, 8, 9] = some (f alpha)) ∧
      Filter.Tendsto f (nhdsWithin 0 (Set.Ioi 0)) (nhds (f 0)) :=
  zero_alpha_limit (1 / 2) 5 1 false true [1, 8, 9] [1, 8, 9] [|1|, |8|, |9|]
    sort_example_dark.symm rfl (by simp)
    (fun i _ _ hv => hv.elim (fun hb => Bool.noConfusion hb.1)
      (fun hn => absurd hn.2 (not_lt.2 (getD_nonneg _ (by norm_num) i))))
    (by simp) (by simp)

theorem sort_example_flat :
    stdSort AbsLessCompare ([0, 8, 9] : List ℝ) = [0, 8, 9] := by
  norm_num [stdSort, linearInsert, AbsLessCompare]

theorem objectness_example_flat (alpha : ℝ) :
    objectnessOfEigenValues Real.exp Real.rpow ⟨alpha, 1 / 2, 0, 0, false, false⟩ [0, 8, 9]
      = some (if alpha = 0 then 1 else 0) := by
  rw [objectness_accepted ⟨alpha, 1 / 2, 0, 0, false, false⟩ [0, 8, 9] (by simp)
    (fun i _ _ => gate_dark_of_nonneg _ (by norm_num) i), sort_example_flat]
  by_cases hα : alpha = 0
  · norm_num [factorA, factorB, factorGamma, factorScale, Math.abs, hα]
  · norm_num [factorA, factorB, factorGamma, factorScale, Math.abs, hα]

/-- Counterexample to C13 as stated: `D = 3`, `objectDimension = 0`, dark object,
`gamma = 0`, no scaling, eigenvalues `(0, 8, 9)`. The voxel passes the gate and the term-A
denominator product is `72`, but `s[0] = 0`: the value is `1` at `alpha = 0` and `0` for
every `alpha ≠ 0`, so the value at `alpha = 0` is not the limit from above. -/
theorem zero_alpha_limit_fails :
    stdSort AbsLessCompare ([0, 8, 9] : List ℝ) = [0, 8, 9] ∧
    ((([0, 8, 9] : List ℝ).map (fun x => |x|)).drop 1).prod ≠ 0 ∧
    ¬ ∃ f : ℝ → ℝ,
      (∀ alpha : ℝ, objectnessOfEigenValues Real.exp Real.rpow
        ⟨alpha, 1 / 2, 0, 0, false, false⟩ [0, 8, 9] = some (f alpha)) ∧
      Filter.Tendsto f (nhdsWithin 0 (Set.Ioi 0)) (nhds (f 0)) := by
  refine ⟨sort_example_flat, by norm_num, ?_⟩
  rintro ⟨f, hf, hlim⟩
  have hval : ∀ alpha : ℝ, f alpha = if alpha = 0 then 1 else 0 := by
    intro alpha
    have h := hf alpha
    rw [objectness_example_flat] at h
    exact (Option.some.inj h).symm
  have h0 : f 0 = 1 := by rw [hval 0, if_pos rfl]
  have hzero : Filter.Tendsto f (nhdsWithin 0 (Set.Ioi 0)) (nhds 0) := by
    refine (tendsto_const_nhds (x := (0 : ℝ))).congr' ?_
    refine eventually_nhdsWithin_of_forall (fun x hx => ?_)
    rw [hval x, if_neg (ne_of_gt hx)]
  rw [h0] at hlim
  have := tendsto_nhds_unique hlim hzero
  norm_num at this

/-! ## The loop over a region -/

theorem whileBody_eq {ι P : Type} [DecidableEq ι] (exp : α → α) (pow : α → α → α)
    (self : HessianToObjectnessMeasureImageFilter α) (ComputeEigenValues : P → List α)
    (input : ι → P) (index : ι) (st : ThreadState ι α) :
    whileBody exp pow self ComputeEigenValues input index st
      = (objectnessOfEigenValues exp pow self (ComputeEigenValues (input index))).map
          (fun x => ⟨Function.update st.output index x,
            st.events ++ [Event.oitSet index x, Event.completedPixel]⟩) := by
  unfold whileBody objectnessOfEigenValues
  simp only []
  cases signLoop self.m_BrightObject (stdSort AbsLessCompare (ComputeEigenValues (input index)))
      ((ComputeEigenValues (input index)).length - self.m_ObjectDimension)
      self.m_ObjectDimension with
  | none => rfl
  | some b =>
    cases b with
    | false => rfl
    | true =>
      simp only [Option.bind_eq_bind]
      cases ratioA exp pow self (ComputeEigenValues (input index)).length
          ((stdSort AbsLessCompare (ComputeEigenValues (input index))).map Math.abs) 1 with
      | none => rfl
      | some m1 =>
        simp only [Option.some_bind]
        cases ratioB exp pow self (ComputeEigenValues (input index)).length
            ((stdSort AbsLessCompare (ComputeEigenValues (input index))).map Math.abs)
            m1 with
        | none => rfl
        | some m2 =>
          simp only [Option.some_bind]
          cases structureness exp self (ComputeEigenValues (input index)).length
              ((stdSort AbsLessCompare (ComputeEigenValues (input index))).map Math.abs)
              m2 with
          | none => rfl
          | some m3 =>
            simp only [Option.some_bind]
            cases scaleMeasure self (ComputeEigenValues (input index)).length
                ((stdSort AbsLessCompare (ComputeEigenValues (input index))).map Math.abs)
                m3 with
            | none => rfl
            | some m4 => rfl

theorem writtenIndices_append {ι : Type} (l₁ l₂ : List (Event ι α)) :
    writtenIndices (l₁ ++ l₂) = writtenIndices l₁ ++ writtenIndices l₂ := by
  induction l₁ with
  | nil => rfl
  | cons e rest ih =>
    cases e with
    | oitSet index value =>
      show index :: writtenIndices (rest ++ l₂)
        = index :: writtenIndices rest ++ writtenIndices l₂
      rw [ih, List.cons_append]
    | completedPixel =>
      show writtenIndices (rest ++ l₂) = writtenIndices rest ++ writtenIndices l₂
      exact ih

theorem completedPixels_append {ι : Type} (l₁ l₂ : List (Event ι α)) :
    completedPixels (l₁ ++ l₂) = completedPixels l₁ + completedPixels l₂ := by
  induction l₁ with
  | nil => simp [completedPixels]
  | cons e rest ih =>
    cases e with
    | oitSet index value =>
      show completedPixels (rest ++ l₂) = completedPixels rest + completedPixels l₂
      exact ih
    | completedPixel =>
      show completedPixels (rest ++ l₂) + 1
        = completedPixels rest + 1 + completedPixels l₂
      rw [ih]
      omega

theorem whileBody_some {ι P : Type} [DecidableEq ι] (exp : α → α) (pow : α → α → α)
    (self : HessianToObjectnessMeasureImageFilter α) (ComputeEigenValues : P → List α)
    (input : ι → P) (index : ι) (st st' : ThreadState ι α)
    (h : whileBody exp pow self ComputeEigenValues input index st = some st') :
    ∃ x, objectnessOfEigenValues exp pow self (ComputeEigenValues (input index)) = some x ∧
      st' = ⟨Function.update st.output index x,
        st.events ++ [Event.oitSet index x, Event.completedPixel]⟩ := by
  rw [whileBody_eq] at h
  cases hx : objectnessOfEigenValues exp pow self (ComputeEigenValues (input index)) with
  | none => rw [hx] at h; cases h
  | some x =>
    rw [hx] at h
    exact ⟨x, rfl, (Option.some.inj h).symm⟩

theorem generateData_output {ι P : Type} [DecidableEq ι] (exp : α → α) (pow : α → α → α)
    (self : HessianToObjectnessMeasureImageFilter α) (ComputeEigenValues : P → List α)
    (input : ι → P) (region : List ι) (st st' : ThreadState ι α)
    (h : DynamicThreadedGenerateData exp pow self ComputeEigenValues input region st
      = some st') :
    (∀ v ∈ region,
      objectnessOfEigenValues exp pow self (ComputeEigenValues (input v))
        = some (st'.output v)) ∧
    (∀ v, v ∉ region → st'.output v = st.output v) ∧
    st'.events = st.events ++
      region.flatMap (fun v => [Event.oitSet v (st'.output v), Event.completedPixel]) := by
  induction region generalizing st with
  | nil =>
    simp only [DynamicThreadedGenerateData] at h
    cases h
    simp
  | cons v0 rest ih =>
    unfold DynamicThreadedGenerateData at h
    cases hb : whileBody exp pow self ComputeEigenValues input v0 st with
    | none => rw [hb] at h; cases h
    | some st1 =>
      rw [hb] at h
      simp only [] at h
      obtain ⟨x0, hx0, hst1⟩ := whileBody_some exp pow self ComputeEigenValues input v0 st st1 hb
      obtain ⟨ih1, ih2, ih3⟩ := ih st1 h
      have hout1 : st1.output = Function.update st.output v0 x0 := by rw [hst1]
      have hev1 : st1.events = st.events ++ [Event.oitSet v0 x0, Event.completedPixel] := by
        rw [hst1]
      have hv0 : objectnessOfEigenValues exp pow self (ComputeEigenValues (input v0))
          = some (st'.output v0) := by
        by_cases hmem : v0 ∈ rest
        · exact ih1 v0 hmem
        · rw [ih2 v0 hmem, hout1, Function.update_same]
          exact hx0
      have hx0' : x0 = st'.output v0 := Option.some.inj (hx0.symm.trans hv0)
      refine ⟨?_, ?_, ?_⟩
      · intro v hv
        rcases List.mem_cons.1 hv with rfl | hv
        · exact hv0
        · exact ih1 v hv
      · intro v hv
        have hne : v ≠ v0 := fun he => hv (he ▸ List.mem_cons_self _ _)
        have hnr : v ∉ rest := fun hr => hv (List.mem_cons_of_mem _ hr)
        rw [ih2 v hnr, hout1, Function.update_noteq hne]
      · rw [ih3, hev1, hx0', List.flatMap_cons, List.append_assoc]

theorem generateData_total {ι P : Type} [DecidableEq ι]
    (self : HessianToObjectnessMeasureImageFilter ℝ) (ComputeEigenValues : P → List ℝ)
    (input : ι → P) (region : List ι) (st : ThreadState ι ℝ)
    (hk : ∀ v ∈ region, self.m_ObjectDimension < (ComputeEigenValues (input v)).length) :
    ∃ st', DynamicThreadedGenerateData Real.exp Real.rpow self ComputeEigenValues input
      region st = some st' := by
  induction region generalizing st with
  | nil => exact ⟨st, rfl⟩
  | cons v0 rest ih =>
    obtain ⟨x0, hx0⟩ := objectness_total Real.exp Real.rpow rpow_ne_zero_of_pos self
      (ComputeEigenValues (input v0)) (hk v0 (List.mem_cons_self _ _))
    unfold DynamicThreadedGenerateData
    rw [whileBody_eq, hx0]
    exact ih _ (fun v hv => hk v (List.mem_cons_of_mem _ hv))

theorem generateData_append {ι P : Type} [DecidableEq ι] (exp : α → α) (pow : α → α → α)
    (self : HessianToObjectnessMeasureImageFilter α) (ComputeEigenValues : P → List α)
    (input : ι → P) (r₁ r₂ : List ι) (st : ThreadState ι α) :
    DynamicThreadedGenerateData exp pow self ComputeEigenValues input (r₁ ++ r₂) st
      = match DynamicThreadedGenerateData exp pow self ComputeEigenValues input r₁ st with
        | none => none
        | some st' =>
          DynamicThreadedGenerateData exp pow self ComputeEigenValues input r₂ st' := by
  induction r₁ generalizing st with
  | nil => rfl
  | cons v0 rest ih =>
    simp only [List.cons_append, DynamicThreadedGenerateData]
    cases whileBody exp pow self ComputeEigenValues input v0 st with
    | none => rfl
    | some st1 => exact ih st1

theorem runRegions_eq {ι P : Type} [DecidableEq ι] (exp : α → α) (pow : α → α → α)
    (self : HessianToObjectnessMeasureImageFilter α) (ComputeEigenValues : P → List α)
    (input : ι → P) (regions : List (List ι)) (st : ThreadState ι α) :
    runRegions exp pow self ComputeEigenValues input regions st
      = DynamicThreadedGenerateData exp pow self ComputeEigenValues input regions.flatten
        st := by
  induction regions generalizing st with
  | nil => rfl
  | cons region rest ih =>
    rw [List.flatten_cons, generateData_append]
    unfold runRegions
    cases DynamicThreadedGenerateData exp pow self ComputeEigenValues input region st with
    | none => rfl
    | some st1 => exact ih st1

theorem writtenIndices_flatMap {ι : Type} (region : List ι) (value : ι → α) :
    writtenIndices
      (region.flatMap (fun v => [Event.oitSet v (value v), Event.completedPixel]))
      = region := by
  induction region with
  | nil => rfl
  | cons v rest ih =>
    rw [List.flatMap_cons, writtenIndices_append, ih]
    rfl

theorem completedPixels_flatMap {ι : Type} (region : List ι) (value : ι → α) :
    completedPixels
      (region.flatMap (fun v => [Event.oitSet v (value v), Event.completedPixel]))
      = region.length := by
  induction region with
  | nil => rfl
  | cons v rest ih =>
    rw [List.flatMap_cons, completedPixels_append, ih, List.length_cons]
    simp only [completedPixels]
    omega

/-- C15 (region execution equals the voxel-wise map): let the regions be a partition of the
voxel domain (their concatenation lists every voxel of the domain once) and let
`objectDimension < D` at every voxel. Running `DynamicThreadedGenerateData` on the regions,
one after the other, returns a state in which every voxel of the domain was written exactly
once, the output at every voxel of the domain is the per-voxel value of that voxel's own
eigenvalues, and the output outside the domain is unchanged. Any other partition of the
domain, in any order, yields the same output field (so do two runs on the same input), and
the output at a voxel is the same for any other input image that agrees at that voxel. -/
theorem region_execution_voxelwise {ι P : Type} [DecidableEq ι]
    (self : HessianToObjectnessMeasureImageFilter ℝ) (ComputeEigenValues : P → List ℝ)
    (input : ι → P) (domain : List ι) (regions : List (List ι)) (output0 : ι → ℝ)
    (hk : ∀ v ∈ domain, self.m_ObjectDimension < (ComputeEigenValues (input v)).length)
    (hdom : domain.Nodup) (hpart : regions.flatten.Perm domain) :
    ∃ st' : ThreadState ι ℝ,
      runRegions Real.exp Real.rpow self ComputeEigenValues input regions ⟨output0, []⟩
        = some st' ∧
      (∀ v ∈ domain, (writtenIndices st'.events).count v = 1) ∧
      (∀ v ∈ domain,
        objectnessOfEigenValues Real.exp Real.rpow self (ComputeEigenValues (input v))
          = some (st'.output v)) ∧
      (∀ v, v ∉ domain → st'.output v = output0 v) ∧
      (∀ regions' : List (List ι), regions'.flatten.Perm domain →
        ∃ st'' : ThreadState ι ℝ,
          runRegions Real.exp Real.rpow self ComputeEigenValues input regions'
            ⟨output0, []⟩ = some st'' ∧
          st''.output = st'.output) ∧
      (∀ (input' : ι → P) (regions' : List (List ι)) (output0' : ι → ℝ)
          (st'' : ThreadState ι ℝ),
        regions'.flatten.Perm domain →
        runRegions Real.exp Real.rpow self ComputeEigenValues input' regions'
          ⟨output0', []⟩ = some st'' →
        ∀ v ∈ domain, input' v = input v → st''.output v = st'.output v) := by
  have htotal : ∀ regions' : List (List ι), regions'.flatten.Perm domain →
      ∃ st'' : ThreadState ι ℝ,
        runRegions Real.exp Real.rpow self ComputeEigenValues input regions' ⟨output0, []⟩
          = some st'' := by
    intro regions' hp'
    rw [runRegions_eq]
    exact generateData_total self ComputeEigenValues input _ _
      (fun v hv => hk v (hp'.mem_iff.1 hv))
  obtain ⟨st', hrun⟩ := htotal regions hpart
  have hrun' := hrun
  rw [runRegions_eq] at hrun'
  obtain ⟨hval, hout, hev⟩ := generateData_output _ _ self ComputeEigenValues input _ _ _ hrun'
  refine ⟨st', hrun, ?_, ?_, ?_, ?_, ?_⟩
  · intro v hv
    rw [hev, List.nil_append, writtenIndices_flatMap, hpart.count_eq]
    exact List.count_eq_one_of_mem hdom hv
  · intro v hv
    exact hval v (hpart.mem_iff.2 hv)
  · intro v hv
    exact hout v (fun h => hv (hpart.mem_iff.1 h))
  · intro regions' hp'
    obtain ⟨st'', hrun2⟩ := htotal regions' hp'
    refine ⟨st'', hrun2, ?_⟩
    rw [runRegions_eq] at hrun2
    obtain ⟨hval2, hout2, _⟩ :=
      generateData_output _ _ self ComputeEigenValues input _ _ _ hrun2
    funext v
    by_cases hv : v ∈ domain
    · have h1 := hval v (hpart.mem_iff.2 hv)
      have h2 := hval2 v (hp'.mem_iff.2 hv)
      exact Option.some.inj (h2.symm.trans h1)
    · rw [hout2 v (fun h => hv (hp'.mem_iff.1 h)), hout v (fun h => hv (hpart.mem_iff.1 h))]
  · intro input' regions' output0' st'' hp' hrun2 v hv hin
    rw [runRegions_eq] at hrun2
    obtain ⟨hval2, _, _⟩ :=
      generateData_output _ _ self ComputeEigenValues input' _ _ _ hrun2
    have h1 := hval v (hpart.mem_iff.2 hv)
    have h2 := hval2 v (hp'.mem_iff.2 hv)
    rw [hin] at h2
    exact Option.some.inj (h2.symm.trans h1)

/-- Witness of C15: two voxels `0` and `1` with the eigenvalues `(1, 8, 9)` each, the
regions `[0]` and `[1]`, `objectDimension = 1`. -/
theorem region_execution_voxelwise_witness :
    ∃ st' : ThreadState Nat ℝ,
      runRegions Real.exp Real.rpow ⟨1 / 2, 1 / 2, 5, 1, false, true⟩
        (fun p : List ℝ => p) (fun _ : Nat => [1, 8, 9]) [[0], [1]] ⟨fun _ => 0, []⟩
        = some st' ∧
      (∀ v ∈ ([0, 1] : List Nat), (writtenIndices st'.events).count v = 1) := by
  obtain ⟨st', h1, h2, _⟩ := region_execution_voxelwise
    ⟨1 / 2, 1 / 2, 5, 1, false, true⟩ (fun p : List ℝ => p) (fun _ : Nat => [1, 8, 9])
    [0, 1] [[0], [1]] (fun _ => 0) (fun v _ => by simp) (by decide) (List.Perm.refl _)
  exact ⟨st', h1, h2⟩

/-- C16 (progress accounting): for a region of `n` voxels with `objectDimension < D` at each
of them, `DynamicThreadedGenerateData` returns, has called `progress.CompletedPixel()`
exactly `n` times, and its record is, voxel after voxel in the order of the region, the
write of the voxel's output followed by one `CompletedPixel`. One pass of the loop does so on
the path of a rejected sign check (the written value is `0`) as on the scoring path. -/
theorem progress_accounting {ι P : Type} [DecidableEq ι]
    (self : HessianToObjectnessMeasureImageFilter ℝ) (ComputeEigenValues : P → List ℝ)
    (input : ι → P) (region : List ι) (st : ThreadState ι ℝ)
    (hk : ∀ v ∈ region, self.m_ObjectDimension < (ComputeEigenValues (input v)).length) :
    (∃ st' : ThreadState ι ℝ,
      DynamicThreadedGenerateData Real.exp Real.rpow self ComputeEigenValues input region st
        = some st' ∧
      completedPixels st'.events = completedPixels st.events + region.length ∧
      st'.events = st.events ++
        region.flatMap (fun v => [Event.oitSet v (st'.output v), Event.completedPixel])) ∧
    (∀ v ∈ region, ∀ st0 : ThreadState ι ℝ,
      (signLoop self.m_BrightObject (stdSort AbsLessCompare (ComputeEigenValues (input v)))
          ((ComputeEigenValues (input v)).length - self.m_ObjectDimension)
          self.m_ObjectDimension = some false →
        whileBody Real.exp Real.rpow self ComputeEigenValues input v st0
          = some ⟨Function.update st0.output v 0,
              st0.events ++ [Event.oitSet v 0, Event.completedPixel]⟩) ∧
      (signLoop self.m_BrightObject (stdSort AbsLessCompare (ComputeEigenValues (input v)))
          ((ComputeEigenValues (input v)).length - self.m_ObjectDimension)
          self.m_ObjectDimension = some true →
        ∃ x : ℝ, whileBody Real.exp Real.rpow self ComputeEigenValues input v st0
          = some ⟨Function.update st0.output v x,
              st0.events ++ [Event.oitSet v x, Event.completedPixel]⟩)) := by
  constructor
  · obtain ⟨st', hrun⟩ := generateData_total self ComputeEigenValues input region st hk
    obtain ⟨_, _, hev⟩ := generateData_output _ _ self ComputeEigenValues input _ _ _ hrun
    refine ⟨st', hrun, ?_, hev⟩
    rw [hev, completedPixels_append, completedPixels_flatMap]
  · intro v hv st0
    constructor
    · intro hgate
      unfold whileBody
      simp only []
      rw [hgate]
    · intro _
      obtain ⟨x, hx⟩ := objectness_total Real.exp Real.rpow rpow_ne_zero_of_pos self
        (ComputeEigenValues (input v)) (hk v hv)
      refine ⟨x, ?_⟩
      rw [whileBody_eq, hx]
      rfl

/-- Witness of C16: a region of the two voxels `0` and `1` with the eigenvalues `(1, 8, 9)`
each, `objectDimension = 1`, starting from an empty record. -/
theorem progress_accounting_witness :
    ∃ st' : ThreadState Nat ℝ,
      DynamicThreadedGenerateData Real.exp Real.rpow ⟨1 / 2, 1 / 2, 5, 1, false, true⟩
        (fun p : List ℝ => p) (fun _ : Nat => [1, 8, 9]) [0, 1] ⟨fun _ => 0, []⟩
        = some st' ∧
      completedPixels st'.events = 2 := by
  obtain ⟨⟨st', h1, h2, _⟩, _⟩ := progress_accounting
    ⟨1 / 2, 1 / 2, 5, 1, false, true⟩ (fun p : List ℝ => p) (fun _ : Nat => [1, 8, 9])
    [0, 1] ⟨fun _ => 0, []⟩ (fun v _ => by simp)
  exact ⟨st', h1, by rw [h2]; rfl⟩

/-! ## Negated eigenvalues -/

theorem absLessCompare_neg (x y : ℝ) : AbsLessCompare (-x) (-y) = AbsLessCompare x y := by
  unfold AbsLessCompare
  rw [abs_neg, abs_neg]

theorem linearInsert_map_neg (v : ℝ) (l : List ℝ) :
    linearInsert AbsLessCompare (-v) (l.map (fun x => -x))
      = (linearInsert AbsLessCompare v l).map (fun x => -x) := by
  induction l with
  | nil => rfl
  | cons y ys ih =>
    simp only [List.map_cons, linearInsert, absLessCompare_neg]
    split
    · rfl
    · rw [List.map_cons, ih]

theorem foldl_linearInsert_map_neg (xs acc : List ℝ) :
    (xs.map (fun x => -x)).foldl
        (fun sortedPart val => linearInsert AbsLessCompare val sortedPart)
        (acc.map (fun x => -x))
      = (xs.foldl (fun sortedPart val => linearInsert AbsLessCompare val sortedPart) acc).map
        (fun x => -x) := by
  induction xs generalizing acc with
  | nil => rfl
  | cons x xs ih =>
    simp only [List.map_cons, List.foldl_cons]
    rw [linearInsert_map_neg, ih]

theorem stdSort_map_neg (es : List ℝ) :
    stdSort AbsLessCompare (es.map (fun x => -x))
      = (stdSort AbsLessCompare es).map (fun x => -x) := by
  unfold stdSort
  exact foldl_linearInsert_map_neg es []

theorem map_abs_map_neg (s : List ℝ) :
    (s.map (fun x => -x)).map Math.abs = s.map Math.abs := by
  rw [List.map_map]
  apply List.map_congr_left
  intro x _
  simp only [Function.comp, Math.abs, abs_neg]

theorem signLoop_map_neg (s : List ℝ) (n i : Nat) :
    signLoop false (s.map (fun x => -x)) n i = signLoop true s n i := by
  induction n generalizing i with
  | zero => rfl
  | succ n ih =>
    unfold signLoop
    rw [List.getElem?_map]
    cases s[i]? with
    | none => rfl
    | some e =>
      simp only [Option.map_some', Bool.false_and, Bool.not_false, Bool.true_and,
        Bool.false_or, Bool.not_true, Bool.or_false, gt_iff_lt, Left.neg_neg_iff, ih]

/-- C21 (polarity symmetry): with `objectDimension < D`, the voxel value of a tuple `e` for a
bright object exists and equals the voxel value of the negated tuple `-e` for a dark
object, all other parameters equal; the sorted form of `-e` is the negated sorted form of
`e`. -/
theorem polarity_symmetry (alpha beta gamma : ℝ) (objectDimension : Nat) (scale : Bool)
    (es : List ℝ) (hk : objectDimension < es.length) :
    stdSort AbsLessCompare (es.map (fun x => -x))
      = (stdSort AbsLessCompare es).map (fun x => -x) ∧
    ∃ r : ℝ,
      objectnessOfEigenValues Real.exp Real.rpow
        ⟨alpha, beta, gamma, objectDimension, true, scale⟩ es = some r ∧
      objectnessOfEigenValues Real.exp Real.rpow
        ⟨alpha, beta, gamma, objectDimension, false, scale⟩ (es.map (fun x => -x))
        = some r := by
  refine ⟨stdSort_map_neg es, ?_⟩
  obtain ⟨r, hr⟩ := objectness_total Real.exp Real.rpow rpow_ne_zero_of_pos
    ⟨alpha, beta, gamma, objectDimension, true, scale⟩ es hk
  refine ⟨r, hr, ?_⟩
  rw [← hr]
  unfold objectnessOfEigenValues
  simp only []
  rw [List.length_map, stdSort_map_neg, signLoop_map_neg, map_abs_map_neg]
  rfl

/-- Witness of C21: `D = 3`, `objectDimension = 1`, eigenvalues `(-1, -8, -9)` for a bright
object against `(1, 8, 9)` for a dark one. -/
theorem polarity_symmetry_witness :
    stdSort AbsLessCompare (([-1, -8, -9] : List ℝ).map (fun x => -x))
      = (stdSort AbsLessCompare ([-1, -8, -9] : List ℝ)).map (fun x => -x) ∧
    ∃ r : ℝ,
      objectnessOfEigenValues Real.exp Real.rpow ⟨1 / 2, 1 / 2, 5, 1, true, true⟩
        [-1, -8, -9] = some r ∧
      objectnessOfEigenValues Real.exp Real.rpow ⟨1 / 2, 1 / 2, 5, 1, false, true⟩
        (([-1, -8, -9] : List ℝ).map (fun x => -x)) = some r :=
  polarity_symmetry (1 / 2) (1 / 2) 5 1 true [-1, -8, -9] (by simp)

/-! ## Homogeneity and positivity -/

/-- C22 (homogeneity without the noise term): with `gamma = 0`, `objectDimension < D` and a
constant `c > 0`, the voxel value of the tuple with all eigenvalues multiplied by `c` equals
the value of the original tuple when `ScaleObjectnessMeasure` is cleared, and `c` times that
value when it is set. -/
theorem homogeneity_without_gamma (alpha beta : ℝ) (objectDimension : Nat)
    (brightObject : Bool) (es : List ℝ) (c : ℝ) (hc : 0 < c)
    (hk : objectDimension < es.length) :
    (∃ r : ℝ,
      objectnessOfEigenValues Real.exp Real.rpow
        ⟨alpha, beta, 0, objectDimension, brightObject, false⟩ es = some r ∧
      objectnessOfEigenValues Real.exp Real.rpow
        ⟨alpha, beta, 0, objectDimension, brightObject, false⟩ (es.map (fun x => c * x))
        = some r) ∧
    (∃ r : ℝ,
      objectnessOfEigenValues Real.exp Real.rpow
        ⟨alpha, beta, 0, objectDimension, brightObject, true⟩ es = some r ∧
      objectnessOfEigenValues Real.exp Real.rpow
        ⟨alpha, beta, 0, objectDimension, brightObject, true⟩ (es.map (fun x => c * x))
        = some (c * r)) := by
  constructor
  · obtain ⟨r, h1, h2⟩ := objectness_map_mul alpha beta objectDimension brightObject false
      es c hc hk
    refine ⟨r, h1, ?_⟩
    rw [h2]
    simp
  · obtain ⟨r, h1, h2⟩ := objectness_map_mul alpha beta objectDimension brightObject true
      es c hc hk
    refine ⟨r, h1, ?_⟩
    rw [h2]
    simp

/-- Witness of C22: `D = 3`, `objectDimension = 1`, dark object, eigenvalues `(1, 8, 9)`
multiplied by `3`. -/
theorem homogeneity_without_gamma_witness :
    (∃ r : ℝ,
      objectnessOfEigenValues Real.exp Real.rpow ⟨1 / 2, 1 / 2, 0, 1, false, false⟩
        [1, 8, 9] = some r ∧
      objectnessOfEigenValues Real.exp Real.rpow ⟨1 / 2, 1 / 2, 0, 1, false, false⟩
        (([1, 8, 9] : List ℝ).map (fun x => 3 * x)) = some r) ∧
    (∃ r : ℝ,
      objectnessOfEigenValues Real.exp Real.rpow ⟨1 / 2, 1 / 2, 0, 1, false, true⟩
        [1, 8, 9] = some r ∧
      objectnessOfEigenValues Real.exp Real.rpow ⟨1 / 2, 1 / 2, 0, 1, false, true⟩
        (([1, 8, 9] : List ℝ).map (fun x => 3 * x)) = some (3 * r)) :=
  homogeneity_without_gamma (1 / 2) (1 / 2) 1 false [1, 8, 9] 3 (by norm_num) (by simp)

theorem objectness_pos (self : HessianToObjectnessMeasureImageFilter ℝ) (es : List ℝ)
    (hk : self.m_ObjectDimension < es.length)
    (hgate : ∀ i, self.m_ObjectDimension ≤ i → i < es.length →
      ¬ ((self.m_BrightObject = true ∧ (stdSort AbsLessCompare es).getD i 0 > 0) ∨
         (self.m_BrightObject = false ∧ (stdSort AbsLessCompare es).getD i 0 < 0)))
    (hne : ∀ x ∈ es, x ≠ 0) (hβ : self.m_ObjectDimension = 0 ∨ self.m_Beta ≠ 0) :
    ∃ r : ℝ, objectnessOfEigenValues Real.exp Real.rpow self es = some r ∧ 0 < r := by
  have hpos := map_abs_pos es hne
  have hlen : 0 < ((stdSort AbsLessCompare es).map Math.abs).length := by
    rw [map_abs_length]; omega
  exact ⟨_, objectness_accepted self es hk hgate,
    mul_pos (mul_pos (mul_pos (factorA_pos self _ hpos) (factorB_pos self _ hpos hβ))
      (factorGamma_pos self _ hpos hlen)) (factorScale_pos self _ hpos hlen)⟩

/-- C23 (strict positivity): with `objectDimension < D`, for a tuple that passes the sign
gate and has no zero eigenvalue, the voxel value is strictly positive if
`objectDimension = 0` or `beta ≠ 0`, whatever alpha, gamma and the scale flag are. Hence a
voxel value `0` arises only from a rejection by the gate, a zero eigenvalue, or `beta = 0`
with `objectDimension > 0`. -/
theorem strict_positivity (self : HessianToObjectnessMeasureImageFilter ℝ) (es s : List ℝ)
    (hs : s = stdSort AbsLessCompare es) (hk : self.m_ObjectDimension < es.length) :
    ((∀ i, self.m_ObjectDimension ≤ i → i < es.length →
        ¬ ((self.m_BrightObject = true ∧ s.getD i 0 > 0) ∨
           (self.m_BrightObject = false ∧ s.getD i 0 < 0))) →
      (∀ x ∈ es, x ≠ 0) →
      (self.m_ObjectDimension = 0 ∨ self.m_Beta ≠ 0) →
      ∃ r : ℝ, objectnessOfEigenValues Real.exp Real.rpow self es = some r ∧ 0 < r) ∧
    (objectnessOfEigenValues Real.exp Real.rpow self es = some 0 →
      (∃ i, self.m_ObjectDimension ≤ i ∧ i < es.length ∧
        ((self.m_BrightObject = true ∧ s.getD i 0 > 0) ∨
         (self.m_BrightObject = false ∧ s.getD i 0 < 0))) ∨
      (∃ x ∈ es, x = 0) ∨
      (self.m_Beta = 0 ∧ 0 < self.m_ObjectDimension)) := by
  subst hs
  refine ⟨fun hgate hne hβ => objectness_pos self es hk hgate hne hβ, ?_⟩
  intro hzero
  by_contra hcon
  have hgate : ∀ i, self.m_ObjectDimension ≤ i → i < es.length →
      ¬ ((self.m_BrightObject = true ∧ (stdSort AbsLessCompare es).getD i 0 > 0) ∨
         (self.m_BrightObject = false ∧ (stdSort AbsLessCompare es).getD i 0 < 0)) :=
    fun i h1 h2 hv => hcon (Or.inl ⟨i, h1, h2, hv⟩)
  have hne : ∀ x ∈ es, x ≠ 0 := fun x hx h0 => hcon (Or.inr (Or.inl ⟨x, hx, h0⟩))
  have hβ : self.m_ObjectDimension = 0 ∨ self.m_Beta ≠ 0 := by
    by_cases h0 : self.m_ObjectDimension = 0
    · exact Or.inl h0
    · exact Or.inr (fun hb => hcon (Or.inr (Or.inr ⟨hb, Nat.pos_of_ne_zero h0⟩)))
  obtain ⟨r, hr, hpos⟩ := objectness_pos self es hk hgate hne hβ
  rw [hzero] at hr
  exact hpos.ne' (Option.some.inj hr).symm

/-- Witness of C23: `D = 3`, `objectDimension = 1`, dark object, `beta = 1/2`, eigenvalues
`(1, 8, 9)`. -/
theorem strict_positivity_witness :
    ∃ r : ℝ, objectnessOfEigenValues Real.exp Real.rpow ⟨1 / 2, 1 / 2, 5, 1, false, true⟩
      [1, 8, 9] = some r ∧ 0 < r :=
  (strict_positivity ⟨1 / 2, 1 / 2, 5, 1, false, true⟩ [1, 8, 9] [1, 8, 9]
    sort_example_dark.symm (by simp)).1
    (fun i _ _ hv => hv.elim (fun hb => Bool.noConfusion hb.1)
      (fun hn => absurd hn.2 (not_lt.2 (getD_nonneg _ (by norm_num) i))))
    example_dark_nonzero (Or.inr (by norm_num))

/-! ## The two ratios are at most one -/

theorem map_abs_sorted (es : List ℝ) :
    ((stdSort AbsLessCompare es).map Math.abs).Pairwise (fun x y => x ≤ y) :=
  List.pairwise_map.2 (stdSort_sorted es)

theorem pow_length_le_prod (x : ℝ) (l : List ℝ) (hx : 0 ≤ x) (h : ∀ y ∈ l, x ≤ y) :
    x ^ l.length ≤ l.prod := by
  induction l with
  | nil => simp
  | cons y ys ih =>
    rw [List.length_cons, pow_succ, List.prod_cons, mul_comm]
    exact mul_le_mul (h y (List.mem_cons_self _ _))
      (ih (fun z hz => h z (List.mem_cons_of_mem _ hz))) (pow_nonneg hx _)
      (hx.trans (h y (List.mem_cons_self _ _)))

theorem ratio_le_one (x P : ℝ) (n : Nat) (hn : n ≠ 0) (hx : 0 ≤ x) (hP : 0 < P)
    (h : x ^ n ≤ P) :
    0 ≤ x / Real.rpow P (1 / (n : ℝ)) ∧ x / Real.rpow P (1 / (n : ℝ)) ≤ 1 := by
  have hroot : 0 < Real.rpow P (1 / (n : ℝ)) := Real.rpow_pos_of_pos hP _
  have hle : x ≤ Real.rpow P (1 / (n : ℝ)) := by
    have h1 : (x ^ n) ^ (1 / (n : ℝ)) ≤ P ^ (1 / (n : ℝ)) :=
      Real.rpow_le_rpow (pow_nonneg hx n) h (by positivity)
    rw [one_div, Real.pow_rpow_inv_natCast hx hn] at h1
    rw [one_div]
    exact h1
  exact ⟨div_nonneg hx hroot.le, (div_le_one hroot).2 hle⟩

theorem ratioA_le_one (a : List ℝ) (ha : ∀ x ∈ a, 0 ≤ x)
    (hsorted : a.Pairwise (fun x y => x ≤ y)) (k : Nat) (hk : k + 1 < a.length)
    (hP : (a.drop (k + 1)).prod ≠ 0) :
    0 ≤ a.getD k 0 / Real.rpow (a.drop (k + 1)).prod (1 / ((a.length - k - 1 : Nat) : ℝ)) ∧
    a.getD k 0 / Real.rpow (a.drop (k + 1)).prod (1 / ((a.length - k - 1 : Nat) : ℝ))
      ≤ 1 := by
  have hk' : k < a.length := by omega
  have hPpos : 0 < (a.drop (k + 1)).prod :=
    lt_of_le_of_ne (prod_drop_nonneg a ha _) (Ne.symm hP)
  have hsuffix : (a.drop k).Pairwise (fun x y => x ≤ y) := hsorted.drop
  rw [List.drop_eq_getElem_cons hk', List.pairwise_cons] at hsuffix
  have hlen : (a.drop (k + 1)).length = a.length - k - 1 := by
    rw [List.length_drop]; omega
  have hx : 0 ≤ a.getD k 0 := getD_nonneg a ha k
  have hpow := pow_length_le_prod (a.getD k 0) (a.drop (k + 1)) hx
    (by rw [List.getD_eq_getElem _ _ hk']; exact hsuffix.1)
  rw [hlen] at hpow
  exact ratio_le_one _ _ _ (by omega) hx hPpos hpow

theorem ratioB_le_one (a : List ℝ) (ha : ∀ x ∈ a, 0 ≤ x)
    (hsorted : a.Pairwise (fun x y => x ≤ y)) (k : Nat) (hk0 : 0 < k) (hk : k < a.length)
    (hP : (a.drop k).prod ≠ 0) :
    0 ≤ a.getD (k - 1) 0 / Real.rpow (a.drop k).prod (1 / ((a.length - k : Nat) : ℝ)) ∧
    a.getD (k - 1) 0 / Real.rpow (a.drop k).prod (1 / ((a.length - k : Nat) : ℝ)) ≤ 1 := by
  have hk' : k - 1 < a.length := by omega
  have hPpos : 0 < (a.drop k).prod := lt_of_le_of_ne (prod_drop_nonneg a ha _) (Ne.symm hP)
  have hsuffix : (a.drop (k - 1)).Pairwise (fun x y => x ≤ y) := hsorted.drop
  rw [List.drop_eq_getElem_cons hk', List.pairwise_cons] at hsuffix
  have hkk : k - 1 + 1 = k := by omega
  rw [hkk] at hsuffix
  have hlen : (a.drop k).length = a.length - k := List.length_drop _ _
  have hx : 0 ≤ a.getD (k - 1) 0 := getD_nonneg a ha _
  have hpow := pow_length_le_prod (a.getD (k - 1) 0) (a.drop k) hx
    (by rw [List.getD_eq_getElem _ _ hk']; exact hsuffix.1)
  rw [hlen] at hpow
  exact ratio_le_one _ _ _ (by omega) hx hPpos hpow

theorem exp_bound_nonneg (alpha : ℝ) : 0 ≤ 1 - Real.exp (-1 / (2 * alpha ^ 2)) := by
  have h := Real.exp_le_one_iff.2 (exponent_nonpos 1 alpha zero_le_one)
  linarith

theorem factorA_le_bound (self : HessianToObjectnessMeasureImageFilter ℝ) (a : List ℝ)
    (ha : ∀ x ∈ a, 0 ≤ x) (hsorted : a.Pairwise (fun x y => x ≤ y))
    (hk : self.m_ObjectDimension + 1 < a.length) (hα : self.m_Alpha ≠ 0) :
    factorA Real.exp Real.rpow self a ≤ 1 - Real.exp (-1 / (2 * self.m_Alpha ^ 2)) := by
  unfold factorA
  rw [if_pos hk]
  by_cases hP : (a.drop (self.m_ObjectDimension + 1)).prod = 0
  · rw [if_pos hP]
    exact exp_bound_nonneg _
  · rw [if_neg hP, if_neg hα]
    obtain ⟨h0, h1⟩ := ratioA_le_one a ha hsorted self.m_ObjectDimension hk hP
    have hsq : (a.getD self.m_ObjectDimension 0 /
        Real.rpow (a.drop (self.m_ObjectDimension + 1)).prod
          (1 / ((a.length - self.m_ObjectDimension - 1 : Nat) : ℝ))) ^ 2 ≤ 1 :=
      pow_le_one₀ h0 h1
    have hden : 0 < 2 * self.m_Alpha ^ 2 := by positivity
    have hexp : -1 / (2 * self.m_Alpha ^ 2)
        ≤ -(a.getD self.m_ObjectDimension 0 /
          Real.rpow (a.drop (self.m_ObjectDimension + 1)).prod
            (1 / ((a.length - self.m_ObjectDimension - 1 : Nat) : ℝ))) ^ 2
          / (2 * self.m_Alpha ^ 2) :=
      div_le_div_of_nonneg_right (by linarith) hden.le
    have := Real.exp_le_exp.2 hexp
    linarith

/-- C24 (ratio bound from the magnitude ordering): with `a[i] = |s[i]|` for the
magnitude-sorted tuple `s` and `objectDimension < D`, whenever the respective denominator
product is nonzero the ratios `rA = a[k] / prod(a[k+1..D-1])^(1/(D-k-1))` and
`rB = a[k-1] / prod(a[k..D-1])^(1/(D-k))` lie in `[0, 1]`; and for `objectDimension < D - 1`,
`alpha ≠ 0` and `ScaleObjectnessMeasure` cleared the voxel value is at most
`1 - exp(-1/(2 alpha²))`. -/
theorem ratio_bounds (self : HessianToObjectnessMeasureImageFilter ℝ) (es s a : List ℝ)
    (hs : s = stdSort AbsLessCompare es) (ha : a = s.map (fun x => |x|))
    (hk : self.m_ObjectDimension < es.length) :
    (self.m_ObjectDimension + 1 < es.length →
      (a.drop (self.m_ObjectDimension + 1)).prod ≠ 0 →
      0 ≤ a.getD self.m_ObjectDimension 0 /
          (a.drop (self.m_ObjectDimension + 1)).prod
            ^ ((1 : ℝ) / ((es.length - self.m_ObjectDimension - 1 : Nat) : ℝ)) ∧
      a.getD self.m_ObjectDimension 0 /
          (a.drop (self.m_ObjectDimension + 1)).prod
            ^ ((1 : ℝ) / ((es.length - self.m_ObjectDimension - 1 : Nat) : ℝ)) ≤ 1) ∧
    (0 < self.m_ObjectDimension →
      (a.drop self.m_ObjectDimension).prod ≠ 0 →
      0 ≤ a.getD (self.m_ObjectDimension - 1) 0 /
          (a.drop self.m_ObjectDimension).prod
            ^ ((1 : ℝ) / ((es.length - self.m_ObjectDimension : Nat) : ℝ)) ∧
      a.getD (self.m_ObjectDimension - 1) 0 /
          (a.drop self.m_ObjectDimension).prod
            ^ ((1 : ℝ) / ((es.length - self.m_ObjectDimension : Nat) : ℝ)) ≤ 1) ∧
    (self.m_ObjectDimension < es.length - 1 → self.m_Alpha ≠ 0 →
      self.m_ScaleObjectnessMeasure = false →
      ∃ r : ℝ, objectnessOfEigenValues Real.exp Real.rpow self es = some r ∧
        r ≤ 1 - Real.exp (-1 / (2 * self.m_Alpha ^ 2))) := by
  subst hs ha
  rw [map_abs_fun]
  have hlen := map_abs_length es
  have hnn := map_abs_nonneg (stdSort AbsLessCompare es)
  have hsorted := map_abs_sorted es
  refine ⟨?_, ?_, ?_⟩
  · intro h1 hP
    have := ratioA_le_one _ hnn hsorted self.m_ObjectDimension (by rw [hlen]; exact h1) hP
    rw [hlen] at this
    exact this
  · intro h0 hP
    have := ratioB_le_one _ hnn hsorted self.m_ObjectDimension h0 (by rw [hlen]; exact hk) hP
    rw [hlen] at this
    exact this
  · intro h1 hα hsc
    rcases objectness_cases self es hk with h | ⟨_, h⟩
    · exact ⟨0, h, exp_bound_nonneg _⟩
    · refine ⟨_, h, ?_⟩
      obtain ⟨hA0, _⟩ := factorA_bounds self ((stdSort AbsLessCompare es).map Math.abs)
      obtain ⟨hB0, hB1⟩ := factorB_bounds self ((stdSort AbsLessCompare es).map Math.abs)
      obtain ⟨hG0, hG1⟩ := factorGamma_bounds self ((stdSort AbsLessCompare es).map Math.abs)
      have hC : factorScale self ((stdSort AbsLessCompare es).map Math.abs) = 1 := by
        unfold factorScale
        rw [hsc]
        rfl
      have hA := factorA_le_bound self _ hnn hsorted (by rw [hlen]; omega) hα
      rw [hC, mul_one]
      have h2 : factorA Real.exp Real.rpow self ((stdSort AbsLessCompare es).map Math.abs)
          * factorB Real.exp Real.rpow self ((stdSort AbsLessCompare es).map Math.abs)
          ≤ factorA Real.exp Real.rpow self ((stdSort AbsLessCompare es).map Math.abs) :=
        mul_le_of_le_one_right hA0 hB1
      have h3 : factorA Real.exp Real.rpow self ((stdSort AbsLessCompare es).map Math.abs)
          * factorB Real.exp Real.rpow self ((stdSort AbsLessCompare es).map Math.abs)
          * factorGamma Real.exp self ((stdSort AbsLessCompare es).map Math.abs)
          ≤ factorA Real.exp Real.rpow self ((stdSort AbsLessCompare es).map Math.abs)
          * factorB Real.exp Real.rpow self ((stdSort AbsLessCompare es).map Math.abs) :=
        mul_le_of_le_one_right (mul_nonneg hA0 hB0) hG1
      linarith

/-- Witness of C24: `D = 3`, `objectDimension = 1`, dark object, `alpha = 1/2`, no scaling,
eigenvalues `(1, 8, 9)`. -/
theorem ratio_bounds_witness :
    ∃ r : ℝ, objectnessOfEigenValues Real.exp Real.rpow ⟨1 / 2, 1 / 2, 5, 1, false, false⟩
      [1, 8, 9] = some r ∧ r ≤ 1 - Real.exp (-1 / (2 * (1 / 2 : ℝ) ^ 2)) :=
  (ratio_bounds ⟨1 / 2, 1 / 2, 5, 1, false, false⟩ [1, 8, 9] [1, 8, 9] [|1|, |8|, |9|]
    sort_example_dark.symm rfl (by simp)).2.2 (by simp) (by norm_num) rfl

/-! ## The direction counters of SimplexMeshVolumeCalculator -/

theorem normalizeNormal_total (length u0 u1 u2 : α) :
    ∃ u, normalizeNormal length u0 u1 u2 = some u := by
  unfold normalizeNormal
  by_cases h : length = 0
  · exact ⟨(0, 0, 0), by simp [h]⟩
  · exact ⟨(u0 / length, u1 / length, u2 / length), by simp [divide, h]⟩

theorem countDirection_cases (AlmostEquals : α → α → Bool)
    (self : SimplexMeshVolumeCalculator α) (absu0 absu1 absu2 : α) :
    countDirection AlmostEquals self absu0 absu1 absu2 = none ∨
    ∃ counted, countDirection AlmostEquals self absu0 absu1 absu2 = some counted ∧
      counted.m_Volume = self.m_Volume ∧ counted.m_VolumeX = self.m_VolumeX ∧
      counted.m_VolumeY = self.m_VolumeY ∧ counted.m_VolumeZ = self.m_VolumeZ ∧
      counted.m_Area = self.m_Area ∧ counted.m_Kx = self.m_Kx ∧
      counted.m_Ky = self.m_Ky ∧ counted.m_Kz = self.m_Kz ∧
      counted.m_NumberOfTriangles = self.m_NumberOfTriangles ∧
      (counted.m_Muncx, counted.m_Muncy, counted.m_Muncz, counted.m_Wxyz, counted.m_Wxy,
          counted.m_Wxz, counted.m_Wyz) ∈
        [(self.m_Muncx + 1, self.m_Muncy, self.m_Muncz, self.m_Wxyz, self.m_Wxy,
            self.m_Wxz, self.m_Wyz),
         (self.m_Muncx, self.m_Muncy + 1, self.m_Muncz, self.m_Wxyz, self.m_Wxy,
            self.m_Wxz, self.m_Wyz),
         (self.m_Muncx, self.m_Muncy, self.m_Muncz + 1, self.m_Wxyz, self.m_Wxy,
            self.m_Wxz, self.m_Wyz),
         (self.m_Muncx, self.m_Muncy, self.m_Muncz, self.m_Wxyz + 1, self.m_Wxy,
            self.m_Wxz, self.m_Wyz),
         (self.m_Muncx, self.m_Muncy, self.m_Muncz, self.m_Wxyz, self.m_Wxy + 1,
            self.m_Wxz, self.m_Wyz),
         (self.m_Muncx, self.m_Muncy, self.m_Muncz, self.m_Wxyz, self.m_Wxy,
            self.m_Wxz + 1, self.m_Wyz),
         (self.m_Muncx, self.m_Muncy, self.m_Muncz, self.m_Wxyz, self.m_Wxy,
            self.m_Wxz, self.m_Wyz + 1)] := by
  unfold countDirection
  split_ifs
  · exact Or.inr ⟨_, rfl, rfl, rfl, rfl, rfl, rfl, rfl, rfl, rfl, rfl, by simp⟩
  · exact Or.inr ⟨_, rfl, rfl, rfl, rfl, rfl, rfl, rfl, rfl, rfl, rfl, by simp⟩
  · exact Or.inr ⟨_, rfl, rfl, rfl, rfl, rfl, rfl, rfl, rfl, rfl, rfl, by simp⟩
  · exact Or.inr ⟨_, rfl, rfl, rfl, rfl, rfl, rfl, rfl, rfl, rfl, rfl, by simp⟩
  · exact Or.inr ⟨_, rfl, rfl, rfl, rfl, rfl, rfl, rfl, rfl, rfl, rfl, by simp⟩
  · exact Or.inr ⟨_, rfl, rfl, rfl, rfl, rfl, rfl, rfl, rfl, rfl, rfl, by simp⟩
  · exact Or.inr ⟨_, rfl, rfl, rfl, rfl, rfl, rfl, rfl, rfl, rfl, rfl, by simp⟩
  · exact Or.inl rfl

theorem calculateTriangleVolume_step (sqrt : α → α) (AlmostEquals : α → α → Bool)
    (self : SimplexMeshVolumeCalculator α) (p1 p2 p3 : Fin 3 → α) :
    ∃ next, CalculateTriangleVolume sqrt AlmostEquals self p1 p2 p3 = some next ∧
      (next = self ∨
        (next.m_NumberOfTriangles = self.m_NumberOfTriangles + 1 ∧
          next.m_Volume = self.m_Volume ∧ next.m_Kx = self.m_Kx ∧
          next.m_Ky = self.m_Ky ∧ next.m_Kz = self.m_Kz ∧
          (next.m_Muncx, next.m_Muncy, next.m_Muncz, next.m_Wxyz, next.m_Wxy,
              next.m_Wxz, next.m_Wyz) ∈
            [(self.m_Muncx + 1, self.m_Muncy, self.m_Muncz, self.m_Wxyz, self.m_Wxy,
                self.m_Wxz, self.m_Wyz),
             (self.m_Muncx, self.m_Muncy + 1, self.m_Muncz, self.m_Wxyz, self.m_Wxy,
                self.m_Wxz, self.m_Wyz),
             (self.m_Muncx, self.m_Muncy, self.m_Muncz + 1, self.m_Wxyz, self.m_Wxy,
                self.m_Wxz, self.m_Wyz),
             (self.m_Muncx, self.m_Muncy, self.m_Muncz, self.m_Wxyz + 1, self.m_Wxy,
                self.m_Wxz, self.m_Wyz),
             (self.m_Muncx, self.m_Muncy, self.m_Muncz, self.m_Wxyz, self.m_Wxy + 1,
                self.m_Wxz, self.m_Wyz),
             (self.m_Muncx, self.m_Muncy, self.m_Muncz, self.m_Wxyz, self.m_Wxy,
                self.m_Wxz + 1, self.m_Wyz),
             (self.m_Muncx, self.m_Muncy, self.m_Muncz, self.m_Wxyz, self.m_Wxy,
                self.m_Wxz, self.m_Wyz + 1)])) := by
  unfold CalculateTriangleVolume
  simp only []
  generalize hn : @normalizeNormal α _ _ _ _ _ = o
  obtain ⟨u, hu⟩ : ∃ u, o = some u := hn ▸ normalizeNormal_total _ _ _ _
  subst hu
  simp only [Option.bind_eq_bind, Option.some_bind]
  rcases countDirection_cases AlmostEquals self (Math.abs u.1) (Math.abs u.2.1)
      (Math.abs u.2.2) with hc | ⟨counted, hc, h1, _, _, _, _, h6, h7, h8, h9, h10⟩
  · rw [hc]
    exact ⟨self, rfl, Or.inl rfl⟩
  · rw [hc]
    refine ⟨_, rfl, Or.inr ⟨?_, ?_, h6, h7, h8, h10⟩⟩
    · show counted.m_NumberOfTriangles + 1 = self.m_NumberOfTriangles + 1
      rw [h9]
    · exact h1

theorem calculateTriangleVolume_invariant (sqrt : ℝ → ℝ) (AlmostEquals : ℝ → ℝ → Bool)
    (self next : SimplexMeshVolumeCalculator ℝ) (p1 p2 p3 : Fin 3 → ℝ)
    (h : CalculateTriangleVolume sqrt AlmostEquals self p1 p2 p3 = some next)
    (hinv : (self.m_Muncx : ℝ) + self.m_Muncy + self.m_Muncz + self.m_Wxyz + self.m_Wxy
      + self.m_Wxz + self.m_Wyz = self.m_NumberOfTriangles) :
    (next.m_Muncx : ℝ) + next.m_Muncy + next.m_Muncz + next.m_Wxyz + next.m_Wxy
      + next.m_Wxz + next.m_Wyz = next.m_NumberOfTriangles := by
  obtain ⟨next', h', hstep⟩ :=
    calculateTriangleVolume_step sqrt AlmostEquals self p1 p2 p3
  rw [h] at h'
  have hnext : next = next' := Option.some.inj h'
  subst hnext
  rcases hstep with rfl | ⟨hN, _, _, _, _, hmem⟩
  · exact hinv
  · simp only [List.mem_cons, Prod.mk.injEq, List.mem_singleton, List.not_mem_nil,
      or_false] at hmem
    rw [hN]
    push_cast
    rcases hmem with ⟨h1, h2, h3, h4, h5, h6, h7⟩ | ⟨h1, h2, h3, h4, h5, h6, h7⟩ |
      ⟨h1, h2, h3, h4, h5, h6, h7⟩ | ⟨h1, h2, h3, h4, h5, h6, h7⟩ |
      ⟨h1, h2, h3, h4, h5, h6, h7⟩ | ⟨h1, h2, h3, h4, h5, h6, h7⟩ |
      ⟨h1, h2, h3, h4, h5, h6, h7⟩ <;>
    · rw [h1, h2, h3, h4, h5, h6, h7]
      push_cast
      linarith

theorem triangleLoop_invariant (sqrt : ℝ → ℝ) (AlmostEquals : ℝ → ℝ → Bool)
    (triangles : List ((Fin 3 → ℝ) × (Fin 3 → ℝ) × (Fin 3 → ℝ)))
    (self : SimplexMeshVolumeCalculator ℝ)
    (hinv : (self.m_Muncx : ℝ) + self.m_Muncy + self.m_Muncz + self.m_Wxyz + self.m_Wxy
      + self.m_Wxz + self.m_Wyz = self.m_NumberOfTriangles) :
    ∃ last, triangleLoop sqrt AlmostEquals triangles self = some last ∧
      (last.m_Muncx : ℝ) + last.m_Muncy + last.m_Muncz + last.m_Wxyz + last.m_Wxy
        + last.m_Wxz + last.m_Wyz = last.m_NumberOfTriangles := by
  induction triangles generalizing self with
  | nil => exact ⟨self, rfl, hinv⟩
  | cons t rest ih =>
    obtain ⟨p1, p2, p3⟩ := t
    obtain ⟨next, hnext, _⟩ := calculateTriangleVolume_step sqrt AlmostEquals self p1 p2 p3
    unfold triangleLoop
    rw [hnext]
    exact ih next
      (calculateTriangleVolume_invariant sqrt AlmostEquals self next p1 p2 p3 hnext hinv)

theorem finalize_fractions (self : SimplexMeshVolumeCalculator ℝ)
    (hN : 0 < self.m_NumberOfTriangles)
    (hinv : (self.m_Muncx : ℝ) + self.m_Muncy + self.m_Muncz + self.m_Wxyz + self.m_Wxy
      + self.m_Wxz + self.m_Wyz = self.m_NumberOfTriangles) :
    ∃ final, Finalize self = some final ∧ final.m_Kx + final.m_Ky + final.m_Kz = 1 ∧
      0 ≤ final.m_Volume := by
  have hN0 : (self.m_NumberOfTriangles : ℝ) ≠ 0 := by exact_mod_cast hN.ne'
  unfold Finalize
  simp only [divide, if_neg hN0, Option.bind_eq_bind, Option.some_bind, Option.pure_def]
  refine ⟨_, rfl, ?_, abs_nonneg _⟩
  show ((self.m_Muncx : ℝ) + self.m_Wxyz / 3 + (self.m_Wxy + self.m_Wxz) / 2)
        / self.m_NumberOfTriangles
      + ((self.m_Muncy : ℝ) + self.m_Wxyz / 3 + (self.m_Wxy + self.m_Wyz) / 2)
        / self.m_NumberOfTriangles
      + ((self.m_Muncz : ℝ) + self.m_Wxyz / 3 + (self.m_Wxz + self.m_Wyz) / 2)
        / self.m_NumberOfTriangles = 1
  rw [← add_div, ← add_div, div_eq_one_iff_eq hN0, ← hinv]
  ring

theorem initialize_invariant (self : SimplexMeshVolumeCalculator ℝ) :
    ((Initialize self).m_Muncx : ℝ) + (Initialize self).m_Muncy + (Initialize self).m_Muncz
      + (Initialize self).m_Wxyz + (Initialize self).m_Wxy + (Initialize self).m_Wxz
      + (Initialize self).m_Wyz = (Initialize self).m_NumberOfTriangles := by
  simp [Initialize]

/-- C25 (direction weights of SimplexMeshVolumeCalculator): every call of
`CalculateTriangleVolume` returns and either leaves all members as they were (the warning
branch) or increments `NumberOfTriangles` and exactly one of the seven counters `Muncx`,
`Muncy`, `Muncz`, `Wxyz`, `Wxy`, `Wxz`, `Wyz`. After `Initialize` and any sequence of calls
the seven counters add up to `NumberOfTriangles`, and when `NumberOfTriangles > 0`
`Finalize` yields `Kx + Ky + Kz = 1` and a volume that is not negative. -/
theorem direction_weights (sqrt : ℝ → ℝ) (AlmostEquals : ℝ → ℝ → Bool)
    (self : SimplexMeshVolumeCalculator ℝ)
    (triangles : List ((Fin 3 → ℝ) × (Fin 3 → ℝ) × (Fin 3 → ℝ))) :
    (∀ (st : SimplexMeshVolumeCalculator ℝ) (p1 p2 p3 : Fin 3 → ℝ),
      ∃ next, CalculateTriangleVolume sqrt AlmostEquals st p1 p2 p3 = some next ∧
        (next = st ∨
          (next.m_NumberOfTriangles = st.m_NumberOfTriangles + 1 ∧
            (next.m_Muncx, next.m_Muncy, next.m_Muncz, next.m_Wxyz, next.m_Wxy,
                next.m_Wxz, next.m_Wyz) ∈
              [(st.m_Muncx + 1, st.m_Muncy, st.m_Muncz, st.m_Wxyz, st.m_Wxy,
                  st.m_Wxz, st.m_Wyz),
               (st.m_Muncx, st.m_Muncy + 1, st.m_Muncz, st.m_Wxyz, st.m_Wxy,
                  st.m_Wxz, st.m_Wyz),
               (st.m_Muncx, st.m_Muncy, st.m_Muncz + 1, st.m_Wxyz, st.m_Wxy,
                  st.m_Wxz, st.m_Wyz),
               (st.m_Muncx, st.m_Muncy, st.m_Muncz, st.m_Wxyz + 1, st.m_Wxy,
                  st.m_Wxz, st.m_Wyz),
               (st.m_Muncx, st.m_Muncy, st.m_Muncz, st.m_Wxyz, st.m_Wxy + 1,
                  st.m_Wxz, st.m_Wyz),
               (st.m_Muncx, st.m_Muncy, st.m_Muncz, st.m_Wxyz, st.m_Wxy,
                  st.m_Wxz + 1, st.m_Wyz),
               (st.m_Muncx, st.m_Muncy, st.m_Muncz, st.m_Wxyz, st.m_Wxy,
                  st.m_Wxz, st.m_Wyz + 1)]))) ∧
    ∃ last, triangleLoop sqrt AlmostEquals triangles (Initialize self) = some last ∧
      (last.m_Muncx : ℝ) + last.m_Muncy + last.m_Muncz + last.m_Wxyz + last.m_Wxy
        + last.m_Wxz + last.m_Wyz = last.m_NumberOfTriangles ∧
      (0 < last.m_NumberOfTriangles →
        ∃ final, Finalize last = some final ∧
          final.m_Kx + final.m_Ky + final.m_Kz = 1 ∧ 0 ≤ final.m_Volume) := by
  constructor
  · intro st p1 p2 p3
    obtain ⟨next, h, hstep⟩ := calculateTriangleVolume_step sqrt AlmostEquals st p1 p2 p3
    refine ⟨next, h, ?_⟩
    rcases hstep with h1 | ⟨hN, _, _, _, _, hmem⟩
    · exact Or.inl h1
    · exact Or.inr ⟨hN, hmem⟩
  · obtain ⟨last, hrun, hinv⟩ := triangleLoop_invariant sqrt AlmostEquals triangles
      (Initialize self) (initialize_invariant self)
    exact ⟨last, hrun, hinv, fun hN => finalize_fractions last hN hinv⟩

theorem example_triangle_counted (self : SimplexMeshVolumeCalculator ℝ) :
    ∃ last, triangleLoop Real.sqrt (fun _ _ => false)
        [((![0, 0, 0] : Fin 3 → ℝ), (![1, 0, 0] : Fin 3 → ℝ), (![0, 1, 0] : Fin 3 → ℝ))]
        (Initialize self) = some last ∧
      last.m_NumberOfTriangles = 1 ∧ last.m_Muncz = 1 := by
  simp [triangleLoop, CalculateTriangleVolume, normalizeNormal, countDirection, divide,
    Math.abs, Initialize]

/-- Witness of C25: the triangle `(0,0,0)`, `(1,0,0)`, `(0,1,0)`, whose normal points along
`z`, is counted in `Muncz`, and `Finalize` returns fractions that add up to `1`. -/
theorem direction_weights_witness :
    ∃ last final, triangleLoop Real.sqrt (fun _ _ => false)
        [((![0, 0, 0] : Fin 3 → ℝ), (![1, 0, 0] : Fin 3 → ℝ), (![0, 1, 0] : Fin 3 → ℝ))]
        (Initialize ⟨7, 0, 0, 0, 0, 0, 0, 0, 0, 0, 0, 0, 3, 0, 0, 5⟩) = some last ∧
      last.m_NumberOfTriangles = 1 ∧ Finalize last = some final ∧
      final.m_Kx + final.m_Ky + final.m_Kz = 1 ∧ 0 ≤ final.m_Volume := by
  obtain ⟨_, last, hrun, _, hfin⟩ := direction_weights Real.sqrt (fun _ _ => false)
    ⟨7, 0, 0, 0, 0, 0, 0, 0, 0, 0, 0, 0, 3, 0, 0, 5⟩
    [((![0, 0, 0] : Fin 3 → ℝ), (![1, 0, 0] : Fin 3 → ℝ), (![0, 1, 0] : Fin 3 → ℝ))]
  obtain ⟨last', hrun', hN, _⟩ :=
    example_triangle_counted ⟨7, 0, 0, 0, 0, 0, 0, 0, 0, 0, 0, 0, 3, 0, 0, 5⟩
  have hlast : last = last' := Option.some.inj (hrun.symm.trans hrun')
  subst hlast
  obtain ⟨final, h1, h2, h3⟩ := hfin (by rw [hN]; exact Nat.one_pos)
  exact ⟨last, final, hrun, hN, h1, h2, h3⟩

end itk
